import Mathlib

/-!
# Peloton: resource manager, storage table, tracked task and leader id

A shallow embedding of

* `resmgr/queue/priority.go` and `queue.go` (`PriorityQueue`, `CreateQueue`),
* `resmgr/task/tracker.go`          (`tracker`),
* `resmgr/handler.go`               (`ServiceHandler`),
* `resmgr/preemption/preemptor.go`  (`preemptor`),
* `storage/orm/table.go`            (`Table`),
* `jobmgr/tracked/task.go`          (`task`),
* `leader/id.go`                    (`scoreAddr`, `listenIP`),

and models, from the specification, of the job runtime updater, of the retry
of a terminated task and of the admission of a resource pool, of which the
sources hold the tests only; followed by the properties proved about them.

Conventions of the embedding.

* Go objects reached through pointers that are shared (`*RMTask`, resource
  pools) live in an object store and are named by a reference (`Nat`); Go maps
  are association lists with unique keys, in insertion order.
* A method that mutates its receiver returns the new receiver next to its Go
  results; a Go `error` is an `Option String` (`none` is `nil`), a Go pair
  `(value, error)` is an `Except String value`.
* Locks, logging and metrics have no counterpart: every method is run on its
  own, start to end.
* Collaborators whose code lies outside the embedded files (the scheduler,
  the resource pools, `CreateRMTask`, the `util` conversions) are parameters,
  gathered in `Env`; the two that are needed concretely (`MultiLevelList` and
  the rule table of the task state machine) are modelled from the
  specification and say so.
-/

namespace Peloton

/-! ## Protocol types -/

/-- The peloton `task.TaskState` enumeration. -/
inductive TaskState where
  | UNKNOWN | INITIALIZED | PENDING | READY | PLACING | PLACED | LAUNCHING
  | LAUNCHED | RUNNING | SUCCEEDED | FAILED | LOST | PREEMPTING | PREEMPTED
  | KILLING | KILLED
  deriving DecidableEq, Repr, Inhabited

/-- The `resmgr.TaskType` enumeration. -/
inductive TaskType where
  | UNKNOWN | BATCH | STATELESS | DAEMON | STATEFUL
  deriving DecidableEq, Repr, Inhabited

/-- Modelled from the spec: the resource vector `(cpu, mem, disk, gpu)` of
`resmgr/scalar`, which is not among the sources; quantities are exact
non-negative numbers. -/
structure Resources where
  CPU : Nat
  MEMORY : Nat
  DISK : Nat
  GPU : Nat
  deriving DecidableEq, Repr, Inhabited

/-- Modelled from the spec: `Resources.Add` of `resmgr/scalar`, the sum on
every dimension. -/
def Resources.Add (a b : Resources) : Resources :=
  { CPU := a.CPU + b.CPU, MEMORY := a.MEMORY + b.MEMORY,
    DISK := a.DISK + b.DISK, GPU := a.GPU + b.GPU }

/-- The `resmgr.Task` message, with the fields the embedded code reads:
`Id` is `Id.Value`, `TaskId` is the mesos task id `TaskId.Value`, `JobId` is
`JobId.Value`, `Priority` is a `uint32`, `Type_` is the field `Type`, and
`Resource` is the resource configuration already converted by
`scalar.ConvertToResmgrResource`. -/
structure Task where
  Id : String
  TaskId : String
  JobId : String
  Priority : Nat
  Type_ : TaskType
  Hostname : String
  Resource : Resources
  deriving DecidableEq, Repr, Inhabited

/-- The `resmgrsvc.Gang` message: the tasks to be scheduled together. -/
structure Gang where
  Tasks : List Task
  deriving DecidableEq, Repr, Inhabited

/-! ## Go maps as association lists -/

/-- Go `m[k]` with the comma-ok form: the value stored under `k`, if any. -/
def mapGet {κ α : Type} [DecidableEq κ] : List (κ × α) → κ → Option α
  | [], _ => none
  | (k', v) :: m, k => if k' = k then some v else mapGet m k

/-- Go `m[k] = v`: replaces the value of an existing key, else adds the key. -/
def mapSet {κ α : Type} [DecidableEq κ] : List (κ × α) → κ → α → List (κ × α)
  | [], k, v => [(k, v)]
  | (k', v') :: m, k, v => if k' = k then (k, v) :: m else (k', v') :: mapSet m k v

/-- Go `delete(m, k)`. -/
def mapDel {κ α : Type} [DecidableEq κ] : List (κ × α) → κ → List (κ × α)
  | [], _ => []
  | (k', v') :: m, k => if k' = k then mapDel m k else (k', v') :: mapDel m k

/-! ## `resmgr/queue`: the priority queue -/

/-- Modelled from the spec: `MultiLevelList`, the "ordered container keyed by
integer priority, FIFO within level" that `PriorityQueue` is built on; its
source file is not among the sources. The entries are kept in the order in
which they were pushed, each with its level. -/
structure MultiLevelList (α : Type) where
  items : List (Int × α)

/-- Modelled from the spec: `NewMultiLevelList`, the empty container. -/
def NewMultiLevelList {α : Type} : MultiLevelList α := { items := [] }

/-- Modelled from the spec: `MultiLevelList.Push`, which adds the element at
the back of its level. -/
def MultiLevelList.Push {α : Type} (l : MultiLevelList α) (level : Int) (element : α) :
    MultiLevelList α :=
  { items := l.items ++ [(level, element)] }

/-- The largest level among the entries, starting from `acc`. -/
def highestOf {α : Type} : List (Int × α) → Int → Int
  | [], acc => acc
  | (lvl, _) :: rest, acc => highestOf rest (if acc < lvl then lvl else acc)

/-- Modelled from the spec: `MultiLevelList.GetHighestLevel`, the highest level
that holds an element (`0` for the empty container). -/
def MultiLevelList.GetHighestLevel {α : Type} (l : MultiLevelList α) : Int :=
  match l.items with
  | [] => 0
  | (lvl, _) :: rest => highestOf rest lvl

/-- Removes the first entry stored at `level`, returning its element. -/
def popLevel {α : Type} : List (Int × α) → Int → Option (α × List (Int × α))
  | [], _ => none
  | (lvl, x) :: rest, level =>
    if lvl = level then some (x, rest)
    else match popLevel rest level with
      | none => none
      | some (y, rest') => some (y, (lvl, x) :: rest')

/-- Modelled from the spec: `MultiLevelList.Pop`, which removes and returns the
element at the front of `level`, and fails on a level that holds nothing,
leaving the container as it was. -/
def MultiLevelList.Pop {α : Type} (l : MultiLevelList α) (level : Int) :
    Except String α × MultiLevelList α :=
  match popLevel l.items level with
  | none => (.error "No items found in queue for given priority", l)
  | some (x, rest) => (.ok x, { items := rest })

/-- Modelled from the spec: `MultiLevelList.Len`, the number of elements at
`level`. -/
def MultiLevelList.Len {α : Type} (l : MultiLevelList α) (level : Int) : Nat :=
  (l.items.filter (fun e => e.1 = level)).length

/-- The `PriorityQueue` of `priority.go`: a `MultiLevelList` of gangs (each a
`*list.List` of tasks), a limit and the running count (both `int64`). -/
structure PriorityQueue where
  list : MultiLevelList (List Task)
  limit : Int
  count : Int

/-- The Go function `NewPriorityQueue`. -/
def NewPriorityQueue (limit : Int) : PriorityQueue :=
  { list := NewMultiLevelList, limit := limit, count := 0 }

/-- The Go function `PriorityQueue.Enqueue`: the gang is pushed at the priority of its first
task. -/
def PriorityQueue.Enqueue (f : PriorityQueue) (tlist : List Task) :
    PriorityQueue × Option String :=
  if f.count ≥ f.limit then (f, some "queue Limit is reached")
  else match tlist with
    | [] => (f, some "enqueue of empty list")
    | firstItem :: _ =>
      let priority := firstItem.Priority
      ({ f with list := f.list.Push (Int.ofNat priority) tlist, count := f.count + 1 }, none)

/-- The retry loop of `PriorityQueue.Dequeue` and `Peek`
(`for highestPriority != f.list.GetHighestLevel() { ... }`), entered after a
failed `Pop`; every iteration takes one unit of `fuel`, and `none` is the loop
still running when the fuel is spent. -/
def dequeueRetry : Nat → MultiLevelList (List Task) → Int → String →
    Option (Except String (List Task) × MultiLevelList (List Task))
  | fuel, l, highestPriority, err =>
    if highestPriority = l.GetHighestLevel then some (.error err, l)
    else match fuel with
      | 0 => none
      | fuel' + 1 =>
        let highestPriority := l.GetHighestLevel
        match l.Pop highestPriority with
        | (.ok item, l') => some (.ok item, l')
        | (.error err', l') => dequeueRetry fuel' l' highestPriority err'

/-- The Go function `PriorityQueue.Dequeue`. The items of the list are the `*list.List` values
that `Enqueue` pushed, none of them `nil`, so the `item == nil` test of the
source has no case here. -/
def PriorityQueue.Dequeue (fuel : Nat) (f : PriorityQueue) :
    Option (Except String (List Task) × PriorityQueue) :=
  let highestPriority := f.list.GetHighestLevel
  match f.list.Pop highestPriority with
  | (.ok item, l') => some (.ok item, { f with list := l', count := f.count - 1 })
  | (.error err, l') =>
    match dequeueRetry fuel l' highestPriority err with
    | none => none
    | some (.ok item, l'') => some (.ok item, { f with list := l'', count := f.count - 1 })
    | some (.error err', l'') => some (.error err', { f with list := l'' })

/-- The gangs a queue holds, in the order in which they were enqueued. -/
def PriorityQueue.gangs (f : PriorityQueue) : List (List Task) :=
  f.list.items.map Prod.snd

/-- The priority of a gang: the `Priority` of its first task. -/
def gangPriority : List Task → Int
  | [] => 0
  | firstItem :: _ => Int.ofNat firstItem.Priority

/-- One call on a queue. -/
inductive QueueCall where
  | enqueue (tlist : List Task)
  | dequeue
  deriving DecidableEq, Repr

/-- A queue together with the history of the calls made on it: the gangs that
`Enqueue` accepted and the gangs that `Dequeue` returned, oldest first. -/
structure QueueRun where
  queue : PriorityQueue
  accepted : List (List Task)
  dequeued : List (List Task)

/-- Makes one call and records its outcome. -/
def QueueRun.step (fuel : Nat) (r : QueueRun) : QueueCall → QueueRun
  | .enqueue tlist =>
    match r.queue.Enqueue tlist with
    | (f, none) => { r with queue := f, accepted := r.accepted ++ [tlist] }
    | (f, some _) => { r with queue := f }
  | .dequeue =>
    match r.queue.Dequeue fuel with
    | none => r
    | some (.ok item, f) => { r with queue := f, dequeued := r.dequeued ++ [item] }
    | some (.error _, f) => { r with queue := f }

/-- Makes the calls one after another on a new queue. -/
def QueueRun.run (fuel : Nat) (limit : Int) (calls : List QueueCall) : QueueRun :=
  calls.foldl (QueueRun.step fuel)
    { queue := NewPriorityQueue limit, accepted := [], dequeued := [] }

/-! ## `resmgr/task`: the RM task and the tracker -/

/-- Modelled from the spec: the terminal states of the RM task state machine
(the states with no successor in the chain of section 4.2). -/
def terminalState : TaskState → Bool
  | .SUCCEEDED | .FAILED | .KILLED | .LOST | .PREEMPTED => true
  | _ => false

/-- Modelled from the spec: the rule table of the RM task state machine
(`resmgr/task/rmtask.go` is not among the sources). The chain
`INITIALIZED → PENDING → READY → PLACING → PLACED → LAUNCHING → LAUNCHED →
RUNNING → {SUCCEEDED, FAILED, KILLED, LOST, PREEMPTING → PREEMPTED}`, the
additional edges "any non-terminal state → READY on requeue" and "any state →
terminal on kill", and the preemptor's `READY → PENDING`. -/
def transitionAllowed (source target : TaskState) : Bool :=
  match source, target with
  | .INITIALIZED, .PENDING => true
  | .PENDING, .READY => true
  | .READY, .PLACING => true
  | .PLACING, .PLACED => true
  | .PLACED, .LAUNCHING => true
  | .LAUNCHING, .LAUNCHED => true
  | .LAUNCHED, .RUNNING => true
  | .RUNNING, .SUCCEEDED => true
  | .RUNNING, .FAILED => true
  | .RUNNING, .LOST => true
  | .RUNNING, .PREEMPTING => true
  | .PREEMPTING, .PREEMPTED => true
  | .READY, .PENDING => true
  | _, .KILLED => true
  | s, .READY => !terminalState s
  | _, _ => false

/-- The `RMTask` object: the task message it wraps (`Task()`), the current
state of its state machine (`GetCurrentState()`) and the resource pool it
belongs to (a reference into the pool store). -/
structure RMTask where
  task : Task
  state : TaskState
  respool : Nat
  deriving DecidableEq, Repr, Inhabited

/-- Modelled from the spec: `RMTask.TransitTo`. "Each transition is guarded by
a declarative rule table; illegal transitions return an error and leave state
unchanged." -/
def RMTask.TransitTo (rmTask : RMTask) (stateTo : TaskState) : RMTask × Option String :=
  if transitionAllowed rmTask.state stateTo then ({ rmTask with state := stateTo }, none)
  else (rmTask, some "invalid state transition")

/-- The `tracker` of `tracker.go`. `tasks` maps a task id to its `*RMTask` and
`placements` maps hostname, task type and task id to a `*RMTask`, as in the
source; `rmTasks` is the store of the `RMTask` objects that `CreateRMTask` has
allocated and `nextRef` the next free reference. -/
structure tracker where
  tasks : List (String × Nat)
  placements : List (String × List (TaskType × List (String × Nat)))
  rmTasks : Nat → RMTask
  nextRef : Nat

/-- The Go function `InitTaskTracker`: no task, no placement. -/
def InitTaskTracker : tracker :=
  { tasks := [], placements := [], rmTasks := fun _ => default, nextRef := 0 }

/-- Writes through a `*RMTask`: the object at `ref` becomes `f` of itself. -/
def tracker.modify (tr : tracker) (ref : Nat) (f : RMTask → RMTask) : tracker :=
  { tr with rmTasks := fun r => if r = ref then f (tr.rmTasks r) else tr.rmTasks r }

/-- The Go function `tracker.GetTask`: the `*RMTask` of the task id, `none` for `nil`. -/
def tracker.GetTask (tr : tracker) (t : String) : Option Nat :=
  mapGet tr.tasks t

/-- The Go function `tracker.clearPlacement`. Reading a missing key of a Go map yields the
empty (nil) map, and `delete` on it does nothing. -/
def tracker.clearPlacement (tr : tracker) (rmTask : Nat) : tracker :=
  let task := (tr.rmTasks rmTask).task
  if task.Hostname = "" then tr
  else
    -- delete(tr.placements[Hostname][Type], Id.Value)
    let p1 :=
      match mapGet tr.placements task.Hostname with
      | none => tr.placements
      | some byType =>
        match mapGet byType task.Type_ with
        | none => tr.placements
        | some byID =>
          mapSet tr.placements task.Hostname (mapSet byType task.Type_ (mapDel byID task.Id))
    -- if len(tr.placements[Hostname][Type]) == 0 { delete(tr.placements[Hostname], Type) }
    let p2 :=
      match mapGet p1 task.Hostname with
      | none => p1
      | some byType =>
        if ((mapGet byType task.Type_).getD []).length = 0 then
          mapSet p1 task.Hostname (mapDel byType task.Type_)
        else p1
    -- if len(tr.placements[Hostname]) == 0 { delete(tr.placements, Hostname) }
    let p3 :=
      if ((mapGet p2 task.Hostname).getD []).length = 0 then mapDel p2 task.Hostname else p2
    { tr with placements := p3 }

/-- The Go function `tracker.setPlacement`. -/
def tracker.setPlacement (tr : tracker) (t : String) (hostname : String) : tracker :=
  match mapGet tr.tasks t with
  | none => tr
  | some rmTask =>
    let tr := tr.clearPlacement rmTask
    let tr := tr.modify rmTask (fun o => { o with task := { o.task with Hostname := hostname } })
    let taskType := (tr.rmTasks rmTask).task.Type_
    let p1 :=
      match mapGet tr.placements hostname with
      | none => mapSet tr.placements hostname []
      | some _ => tr.placements
    let byType := (mapGet p1 hostname).getD []
    let byType :=
      match mapGet byType taskType with
      | none => mapSet byType taskType []
      | some _ => byType
    let byID := (mapGet byType taskType).getD []
    let byID :=
      match mapGet byID t with
      | none => mapSet byID t rmTask
      | some _ => byID
    { tr with placements := mapSet p1 hostname (mapSet byType taskType byID) }

/-- The Go function `tracker.SetPlacement`. -/
def tracker.SetPlacement (tr : tracker) (t : String) (hostname : String) : tracker :=
  tr.setPlacement t hostname

/-- The Go function `tracker.SetPlacementHost`, over the task ids of the placement. -/
def tracker.SetPlacementHost (tr : tracker) (placementTasks : List String) (hostname : String) :
    tracker :=
  placementTasks.foldl (fun tr t => tr.setPlacement t hostname) tr

/-- The Go function `tracker.DeleteTask`. -/
def tracker.DeleteTask (tr : tracker) (t : String) : tracker :=
  let tr :=
    match mapGet tr.tasks t with
    | some rmTask => tr.clearPlacement rmTask
    | none => tr
  { tr with tasks := mapDel tr.tasks t }

/-- The Go function `tracker.GetSize`. -/
def tracker.GetSize (tr : tracker) : Int := Int.ofNat tr.tasks.length

/-- The Go function `tracker.Clear`. -/
def tracker.Clear (tr : tracker) : tracker :=
  { tr with tasks := [], placements := [] }

/-! ## The collaborators that are parameters -/

/-- The collaborators of the handler and the tracker whose code is not among
the sources. `σ` is the state of the scheduler (`rmtask.GetScheduler()`), `ρ`
the state of one resource pool, `μ` the mesos task state. A method returns the
new state of its receiver next to its Go result. -/
structure Env (σ ρ μ : Type) where
  /-- The Go function `CreateRMTask(t, handler, respool, config)`. -/
  CreateRMTask : Task → Nat → Except String RMTask
  /-- The Go function `Scheduler.EnqueueGang(gang)`. -/
  SchedulerEnqueueGang : σ → Gang → σ × Option String
  /-- The Go function `Scheduler.DequeueGang(maxWaitTime, taskType)`. -/
  SchedulerDequeueGang : σ → Nat → TaskType → σ × Except String Gang
  /-- The Go function `ResPool.EnqueueGang(gang)`. -/
  ResPoolEnqueueGang : ρ → Gang → ρ × Option String
  /-- The Go function `ResPool.AddToDemand(res)`. -/
  AddToDemand : ρ → Resources → ρ × Option String
  /-- The Go function `ResPool.SubtractFromAllocation(res)`. -/
  SubtractFromAllocation : ρ → Resources → ρ × Option String
  /-- The Go function `util.MesosStateToPelotonState`. -/
  MesosStateToPelotonState : μ → TaskState
  /-- The Go function `util.IsPelotonStateTerminal`. -/
  IsPelotonStateTerminal : TaskState → Bool
  /-- The Go function `util.ParseTaskIDFromMesosTaskID`. -/
  ParseTaskIDFromMesosTaskID : String → Except String String

/-- The Go function `tracker.AddTask`: the new `RMTask` object is stored under a fresh
reference. -/
def tracker.AddTask {σ ρ μ : Type} (env : Env σ ρ μ) (tr : tracker) (t : Task) (respool : Nat) :
    tracker × Option String :=
  match env.CreateRMTask t respool with
  | .error err => (tr, some err)
  | .ok rmTask =>
    let ref := tr.nextRef
    let tr : tracker :=
      { tr with
        rmTasks := fun r => if r = ref then rmTask else tr.rmTasks r
        nextRef := ref + 1
        tasks := mapSet tr.tasks rmTask.task.Id ref }
    let tr :=
      if rmTask.task.Hostname ≠ "" then tr.setPlacement rmTask.task.Id rmTask.task.Hostname
      else tr
    (tr, none)

/-- The Go function `tracker.MarkItDone`: the receiver and the pool store are both written. -/
def tracker.MarkItDone {σ ρ μ : Type} (env : Env σ ρ μ) (tr : tracker) (pools : Nat → ρ)
    (tID : String) : tracker × (Nat → ρ) × Option String :=
  match tr.GetTask tID with
  | none => (tr, pools, some ("task " ++ tID ++ " is not in tracker"))
  | some ref =>
    let task := tr.rmTasks ref
    match env.SubtractFromAllocation (pools task.respool) task.task.Resource with
    | (pool, some _) =>
      (tr, fun r => if r = task.respool then pool else pools r,
        some ("Not able to update task " ++ tID ++ " "))
    | (pool, none) =>
      (tr.DeleteTask tID, fun r => if r = task.respool then pool else pools r, none)

/-! ## `resmgr/handler.go`: the service handler -/

/-- The error `errFailingGangMemberTask`. -/
def errFailingGangMemberTask : String := "task fail because other gang member failed"

/-- The error `errSameTaskPresent`. -/
def errSameTaskPresent : String := "same task present in tracker, Ignoring new task"

/-- The error `errGangNotEnqueued`. -/
def errGangNotEnqueued : String := "Could not enqueue gang to ready after retry"

/-- The error `errEnqueuedAgain`. -/
def errEnqueuedAgain : String := "enqueued again after retry"

/-- The `ServiceHandler` and the process-wide objects it reaches: `rmTracker`
(also `rmtask.GetTracker()`, the same singleton), `maxOffset` (a `uint64`),
`resPoolTree` (`respool.GetTree().Get`, from a pool id to the pool or the error
of the lookup), `resPools` (the store of the pool objects) and `scheduler`
(`rmtask.GetScheduler()`). -/
structure ServiceHandler (σ ρ : Type) where
  rmTracker : tracker
  maxOffset : Nat
  resPoolTree : String → Except String Nat
  resPools : Nat → ρ
  scheduler : σ

/-- The message `EnqueueGangsFailure_FailedTask`. -/
structure FailedTask where
  Task : Task
  Message : String
  deriving DecidableEq, Repr

/-- The message `ResourcePoolNotFound`. -/
structure ResourcePoolNotFound where
  Id : String
  Message : String
  deriving DecidableEq, Repr

/-- The message `EnqueueGangsFailure`. -/
structure EnqueueGangsFailure where
  Failed : List FailedTask
  deriving DecidableEq, Repr

/-- The message `EnqueueGangsResponse_Error`. -/
structure EnqueueGangsResponse_Error where
  NotFound : Option ResourcePoolNotFound
  Failure : Option EnqueueGangsFailure
  deriving DecidableEq, Repr

/-- The message `EnqueueGangsResponse`. -/
structure EnqueueGangsResponse where
  Error : Option EnqueueGangsResponse_Error
  deriving DecidableEq, Repr

/-- The message `EnqueueGangsRequest`. -/
structure EnqueueGangsRequest where
  ResPool : String
  Gangs : List Gang
  deriving DecidableEq, Repr

/-- The method `ServiceHandler.requeueTask`. -/
def ServiceHandler.requeueTask {σ ρ μ : Type} (env : Env σ ρ μ) (h : ServiceHandler σ ρ)
    (requeuedTask : Task) : ServiceHandler σ ρ × Option String :=
  match h.rmTracker.GetTask requeuedTask.Id with
  | none => (h, none)
  | some rmTask =>
    if requeuedTask.TaskId = (h.rmTracker.rmTasks rmTask).task.TaskId then
      (h, some errSameTaskPresent)
    else
      let currentTaskState := (h.rmTracker.rmTasks rmTask).state
      if currentTaskState = TaskState.LAUNCHING ∨ currentTaskState = TaskState.RUNNING then
        -- rmTask.Task().TaskId = requeuedTask.TaskId
        let tr := h.rmTracker.modify rmTask
          (fun o => { o with task := { o.task with TaskId := requeuedTask.TaskId } })
        -- rmTask.TransitTo(READY), its error dropped
        let tr := tr.modify rmTask (fun o => (o.TransitTo TaskState.READY).1)
        let gang : Gang := { Tasks := [] ++ [(tr.rmTasks rmTask).task] }
        match env.SchedulerEnqueueGang h.scheduler gang with
        | (sched, some err) => ({ h with rmTracker := tr, scheduler := sched }, some err)
        | (sched, none) => ({ h with rmTracker := tr, scheduler := sched }, some errEnqueuedAgain)
      else (h, some errSameTaskPresent)

/-- The body of the loop of `enqueueGang` over the tasks of the gang; the
state of the loop is the handler, `totalGangResources` and `failed`. -/
def ServiceHandler.enqueueGangTask {σ ρ μ : Type} (env : Env σ ρ μ) (respool : Nat)
    (acc : ServiceHandler σ ρ × Resources × List FailedTask) (task : Task) :
    ServiceHandler σ ρ × Resources × List FailedTask :=
  let (h, totalGangResources, failed) := acc
  match h.requeueTask env task with
  | (h, some err) => (h, totalGangResources, failed ++ [{ Task := task, Message := err }])
  | (h, none) =>
    match h.rmTracker.AddTask env task respool with
    | (tr, some err) =>
      ({ h with rmTracker := tr }, totalGangResources,
        failed ++ [{ Task := task, Message := err }])
    | (tr, none) =>
      let totalGangResources := totalGangResources.Add task.Resource
      let tr :=
        match tr.GetTask task.Id with
        | some rmTask => tr.modify rmTask (fun o => (o.TransitTo TaskState.PENDING).1)
        | none => tr
      ({ h with rmTracker := tr }, totalGangResources, failed)

/-- The method `ServiceHandler.removeTasksFromTracker`. -/
def ServiceHandler.removeTasksFromTracker {σ ρ : Type} (h : ServiceHandler σ ρ) (gang : Gang) :
    ServiceHandler σ ρ :=
  { h with rmTracker := gang.Tasks.foldl (fun tr task => tr.DeleteTask task.Id) h.rmTracker }

/-- The method `ServiceHandler.enqueueGang`. -/
def ServiceHandler.enqueueGang {σ ρ μ : Type} (env : Env σ ρ μ) (h : ServiceHandler σ ρ)
    (gang : Gang) (respool : Nat) : ServiceHandler σ ρ × List FailedTask × Option String :=
  let (h, totalGangResources, failed) :=
    gang.Tasks.foldl (ServiceHandler.enqueueGangTask env respool)
      (h, { CPU := 0, MEMORY := 0, DISK := 0, GPU := 0 }, [])
  if failed.length = 0 then
    match env.ResPoolEnqueueGang (h.resPools respool) gang with
    | (pool, none) =>
      match env.AddToDemand pool totalGangResources with
      | (pool, err) =>
        ({ h with resPools := fun r => if r = respool then pool else h.resPools r }, failed, err)
    | (pool, some err) =>
      let h := { h with resPools := fun r => if r = respool then pool else h.resPools r }
      (h.removeTasksFromTracker gang, failed, some err)
  else (h, failed, some errFailingGangMemberTask)

/-- The body of the loop of `EnqueueGangs` over the gangs of the request; the
state of the loop is the handler and `failed`. -/
def ServiceHandler.enqueueGangsStep {σ ρ μ : Type} (env : Env σ ρ μ) (respool : Nat)
    (acc : ServiceHandler σ ρ × List FailedTask) (gang : Gang) :
    ServiceHandler σ ρ × List FailedTask :=
  -- failed, err = h.enqueueGang(gang, respool)
  match acc.1.enqueueGang env gang respool with
  | (h, failed, err) =>
    (h, gang.Tasks.foldl
      (fun failed task =>
        match err with
        | some e => failed ++ [{ Task := task, Message := e }]
        | none => failed)
      failed)

/-- The method `ServiceHandler.EnqueueGangs`. -/
def ServiceHandler.EnqueueGangs {σ ρ μ : Type} (env : Env σ ρ μ) (h : ServiceHandler σ ρ)
    (req : EnqueueGangsRequest) : ServiceHandler σ ρ × EnqueueGangsResponse :=
  match h.resPoolTree req.ResPool with
  | .error err =>
    let notFound : ResourcePoolNotFound := { Id := req.ResPool, Message := err }
    (h, { Error := some { NotFound := some notFound, Failure := none } })
  | .ok respool =>
    let (h, failed) := req.Gangs.foldl (ServiceHandler.enqueueGangsStep env respool) (h, [])
    if failed.length > 0 then
      (h, { Error := some { NotFound := none, Failure := some { Failed := failed } } })
    else (h, { Error := none })

/-- The message `DequeueGangsRequest`; `Limit` and `Timeout` are `uint32`. -/
structure DequeueGangsRequest where
  Limit : Nat
  Type_ : TaskType
  Timeout : Nat
  deriving DecidableEq, Repr

/-- The message `DequeueGangsResponse`. -/
structure DequeueGangsResponse where
  Gangs : List Gang
  deriving DecidableEq, Repr

/-- The method `ServiceHandler.removeFromGang`. -/
def ServiceHandler.removeFromGang (gang : Gang) (tasksToRemove : List (String × Task)) : Gang :=
  if tasksToRemove.length = 0 then gang
  else
    { gang with
      Tasks := gang.Tasks.foldl
        (fun newTasks gt =>
          match mapGet tasksToRemove gt.Id with
          | none => newTasks ++ [gt]
          | some _ => newTasks)
        [] }

/-- The body of the loop of `DequeueGangs` over the tasks of a dequeued gang;
the state of the loop is the tracker and `tasksToRemove`. -/
def ServiceHandler.dequeueGangTask (acc : tracker × List (String × Task)) (task : Task) :
    tracker × List (String × Task) :=
  match acc.1.GetTask task.Id with
  | some rmTask =>
    -- h.rmTracker.GetTask(task.Id).TransitTo(PLACING), its error logged
    (acc.1.modify rmTask (fun o => (o.TransitTo TaskState.PLACING).1), acc.2)
  | none => (acc.1, mapSet acc.2 task.Id task)

/-- The loop `for i := uint32(0); i < limit; i++` of `DequeueGangs`, with
`n` iterations to go. -/
def ServiceHandler.dequeueGangsLoop {σ ρ μ : Type} (env : Env σ ρ μ)
    (req : DequeueGangsRequest) :
    Nat → ServiceHandler σ ρ → List Gang → ServiceHandler σ ρ × List Gang
  | 0, h, gangs => (h, gangs)
  | n + 1, h, gangs =>
    match env.SchedulerDequeueGang h.scheduler req.Timeout req.Type_ with
    | (sched, .error _) => ({ h with scheduler := sched }, gangs)
    | (sched, .ok gang) =>
      let (tr, tasksToRemove) :=
        gang.Tasks.foldl ServiceHandler.dequeueGangTask (h.rmTracker, [])
      let gang := ServiceHandler.removeFromGang gang tasksToRemove
      ServiceHandler.dequeueGangsLoop env req n
        { h with scheduler := sched, rmTracker := tr } (gangs ++ [gang])

/-- The method `ServiceHandler.DequeueGangs`. -/
def ServiceHandler.DequeueGangs {σ ρ μ : Type} (env : Env σ ρ μ) (h : ServiceHandler σ ρ)
    (req : DequeueGangsRequest) : ServiceHandler σ ρ × DequeueGangsResponse :=
  let (h, gangs) := ServiceHandler.dequeueGangsLoop env req req.Limit h []
  (h, { Gangs := gangs })

/-- The message `mesos.TaskStatus`, with its state and `TaskId.Value`. -/
structure MesosTaskStatus (μ : Type) where
  State : μ
  TaskId : String

/-- The message `eventstream.Event`; `Offset` is a `uint64`. -/
structure Event (μ : Type) where
  Offset : Nat
  MesosTaskStatus : MesosTaskStatus μ

/-- The message `NotifyTaskUpdatesRequest`. -/
structure NotifyTaskUpdatesRequest (μ : Type) where
  Events : List (Event μ)

/-- The message `NotifyTaskUpdatesResponse`; `PurgeOffset` is a `uint64`. -/
structure NotifyTaskUpdatesResponse where
  PurgeOffset : Nat
  deriving DecidableEq, Repr

/-- The method `ServiceHandler.acknowledgeEvent`. -/
def ServiceHandler.acknowledgeEvent {σ ρ : Type} (h : ServiceHandler σ ρ) (offset : Nat) :
    ServiceHandler σ ρ :=
  if offset > h.maxOffset then { h with maxOffset := offset } else h

/-- The body of the loop of `NotifyTaskUpdates` over the events. -/
def ServiceHandler.notifyEvent {σ ρ μ : Type} (env : Env σ ρ μ) (h : ServiceHandler σ ρ)
    (event : Event μ) : ServiceHandler σ ρ :=
  let taskState := env.MesosStateToPelotonState event.MesosTaskStatus.State
  if taskState ≠ TaskState.RUNNING ∧ ¬ env.IsPelotonStateTerminal taskState = true then
    h.acknowledgeEvent event.Offset
  else
    match env.ParseTaskIDFromMesosTaskID event.MesosTaskStatus.TaskId with
    | .error _ => h.acknowledgeEvent event.Offset
    | .ok ptID =>
      match h.rmTracker.GetTask ptID with
      | none => h.acknowledgeEvent event.Offset
      | some rmTask =>
        if (h.rmTracker.rmTasks rmTask).task.TaskId ≠ event.MesosTaskStatus.TaskId then
          h.acknowledgeEvent event.Offset
        else if taskState = TaskState.RUNNING then
          -- rmTask.TransitTo(RUNNING), its error logged
          let h := { h with
            rmTracker := h.rmTracker.modify rmTask (fun o => (o.TransitTo TaskState.RUNNING).1) }
          h.acknowledgeEvent event.Offset
        else
          -- rmtask.GetTracker().MarkItDone(taskID), its error logged
          match h.rmTracker.MarkItDone env h.resPools ptID with
          | (tr, pools, _) =>
            let h := { h with rmTracker := tr, resPools := pools }
            h.acknowledgeEvent event.Offset

/-- The method `ServiceHandler.NotifyTaskUpdates`. -/
def ServiceHandler.NotifyTaskUpdates {σ ρ μ : Type} (env : Env σ ρ μ) (h : ServiceHandler σ ρ)
    (req : NotifyTaskUpdatesRequest μ) : ServiceHandler σ ρ × NotifyTaskUpdatesResponse :=
  if req.Events.length = 0 then (h, { PurgeOffset := 0 })
  else
    let h := req.Events.foldl (ServiceHandler.notifyEvent env) h
    (h, { PurgeOffset := h.maxOffset })

/-- A run of `NotifyTaskUpdates` calls made one after another: the handler
after the last call and the responses, oldest first. -/
def ServiceHandler.notifyAll {σ ρ μ : Type} (env : Env σ ρ μ) (h : ServiceHandler σ ρ)
    (reqs : List (NotifyTaskUpdatesRequest μ)) :
    ServiceHandler σ ρ × List NotifyTaskUpdatesResponse :=
  reqs.foldl
    (fun acc req =>
      let (h, resp) := acc.1.NotifyTaskUpdates env req
      (h, acc.2 ++ [resp]))
    (h, [])

/-! ## Notions used to state the properties -/

/-- Every entry of the list is a non-empty gang stored at the priority of its
first task. -/
def LevelsOk (items : List (Int × List Task)) : Prop :=
  ∀ e ∈ items, e.2 ≠ [] ∧ e.1 = gangPriority e.2

/-- The gangs of a list whose priority is `p`, in the order of the list. -/
def atPriority (p : Int) (gangs : List (List Task)) : List (List Task) :=
  gangs.filter (fun g => gangPriority g = p)

/-- A task with the given id, mesos task id and priority. -/
def mkTask (id mesosId : String) (priority : Nat) : Task :=
  { Id := id, TaskId := mesosId, JobId := "job1", Priority := priority,
    Type_ := TaskType.BATCH, Hostname := "", Resource := { CPU := 1, MEMORY := 100, DISK := 10, GPU := 0 } }

/-- Two gangs of priority 1 and one of priority 3 are enqueued. -/
def sampleCalls : List QueueCall :=
  [.enqueue [mkTask "job1-0" "job1-0-1" 1], .enqueue [mkTask "job1-1" "job1-1-1" 3],
   .enqueue [mkTask "job1-2" "job1-2-1" 1]]

/-- The constructor `InitServiceHandler`: the acknowledged offset starts at
zero. -/
def InitServiceHandler {σ ρ : Type} (rmTracker : tracker) (resPoolTree : String → Except String Nat)
    (resPools : Nat → ρ) (scheduler : σ) : ServiceHandler σ ρ :=
  { rmTracker := rmTracker, maxOffset := 0, resPoolTree := resPoolTree, resPools := resPools,
    scheduler := scheduler }

/-- The events of a list of requests, in the order in which they are
received. -/
def eventsOf {μ : Type} : List (NotifyTaskUpdatesRequest μ) → List (Event μ)
  | [] => []
  | req :: reqs => req.Events ++ eventsOf reqs

/-- The gangs the scheduler hands out over at most `n` calls of `DequeueGang`
made one after another, up to the first call that fails. -/
def schedulerDequeues {σ ρ μ : Type} (env : Env σ ρ μ) (req : DequeueGangsRequest) :
    Nat → σ → List Gang
  | 0, _ => []
  | n + 1, sched =>
    match env.SchedulerDequeueGang sched req.Timeout req.Type_ with
    | (_, .error _) => []
    | (sched', .ok gang) => gang :: schedulerDequeues env req n sched'

/-- The tracked task of the given task message, if there is one, is asked to
transit to `PLACING`. -/
def askPlacing (tr : tracker) (task : Task) : tracker :=
  match tr.GetTask task.Id with
  | some rmTask => tr.modify rmTask (fun o => (o.TransitTo TaskState.PLACING).1)
  | none => tr

/-- The tasks of a list of gangs, gang after gang. -/
def tasksOf : List Gang → List Task
  | [] => []
  | gang :: gangs => gang.Tasks ++ tasksOf gangs

/-! ## An instance of the collaborators, for the examples -/

/-- A ready queue that holds at most `limit` gangs, oldest first. -/
structure ReadyQueue where
  gangs : List Gang
  limit : Nat
  deriving DecidableEq, Repr

/-- A resource pool with its pending gangs, its demand and its allocation. -/
structure SamplePool where
  pending : List Gang
  demand : Resources
  allocation : Resources
  deriving DecidableEq, Repr

/-- The task id of a mesos task id: the text before its last dash. -/
def sampleParse (mesosTaskID : String) : Except String String :=
  match (mesosTaskID.data.reverse.dropWhile (fun c => c ≠ '-')) with
  | [] => .error "invalid mesos task id"
  | _ :: rest => .ok (String.mk rest.reverse)

/-- An instance of the collaborators: the scheduler is a bounded ready queue
served oldest first, a pool accepts every gang that has a task, the mesos
states are the peloton states, and a new RM task starts in `INITIALIZED`. -/
def sampleEnv : Env ReadyQueue SamplePool TaskState where
  CreateRMTask := fun t respool => .ok { task := t, state := TaskState.INITIALIZED, respool := respool }
  SchedulerEnqueueGang := fun s gang =>
    if s.gangs.length < s.limit then ({ s with gangs := s.gangs ++ [gang] }, none)
    else (s, some "queue is full")
  SchedulerDequeueGang := fun s _ _ =>
    match s.gangs with
    | [] => (s, .error "dequeue timed out")
    | gang :: gangs => ({ s with gangs := gangs }, .ok gang)
  ResPoolEnqueueGang := fun pool gang =>
    if gang.Tasks.length = 0 then (pool, some "gang has no elements")
    else ({ pool with pending := pool.pending ++ [gang] }, none)
  AddToDemand := fun pool res => ({ pool with demand := pool.demand.Add res }, none)
  SubtractFromAllocation := fun pool res =>
    ({ pool with allocation :=
        { CPU := pool.allocation.CPU - res.CPU, MEMORY := pool.allocation.MEMORY - res.MEMORY,
          DISK := pool.allocation.DISK - res.DISK, GPU := pool.allocation.GPU - res.GPU } }, none)
  MesosStateToPelotonState := fun s => s
  IsPelotonStateTerminal := terminalState
  ParseTaskIDFromMesosTaskID := sampleParse

/-- A pool with nothing pending and nothing allocated. -/
def emptyPool : SamplePool :=
  { pending := [], demand := { CPU := 0, MEMORY := 0, DISK := 0, GPU := 0 },
    allocation := { CPU := 0, MEMORY := 0, DISK := 0, GPU := 0 } }

/-- A pool tree with the single pool `respool1`. -/
def sampleTree (id : String) : Except String Nat :=
  if id = "respool1" then .ok 0 else .error "resource pool not found"

/-- A new handler over an empty tracker, with the given ready queue. -/
def sampleHandler (sched : ReadyQueue) : ServiceHandler ReadyQueue SamplePool :=
  InitServiceHandler InitTaskTracker sampleTree (fun _ => emptyPool) sched

/-- The sample handler after task `job1-0` (run 1) has been added to the
tracker and has reached the given state. -/
def trackingHandler (sched : ReadyQueue) (state : TaskState) :
    ServiceHandler ReadyQueue SamplePool :=
  let h := sampleHandler sched
  let tr := (h.rmTracker.AddTask sampleEnv (mkTask "job1-0" "job1-0-1" 1) 0).1
  { h with rmTracker := tr.modify 0 (fun o => { o with state := state }) }

/-- A ready queue that is full: it holds one gang and its limit is one. -/
def fullQueue : ReadyQueue :=
  { gangs := [{ Tasks := [mkTask "job1-9" "job1-9-1" 1] }], limit := 1 }

/-- A ready queue with room: it holds one gang and its limit is ten. -/
def roomyQueue : ReadyQueue :=
  { gangs := [{ Tasks := [mkTask "job1-9" "job1-9-1" 1] }], limit := 10 }

/-- An event with the given offset, state and mesos task id. -/
def mkEvent (offset : Nat) (state : TaskState) (mesosId : String) : Event TaskState :=
  { Offset := offset, MesosTaskStatus := { State := state, TaskId := mesosId } }

/-- The largest offset among the events, `0` when there is none. -/
def largestOffset {μ : Type} : List (Event μ) → Nat
  | [] => 0
  | e :: es => max e.Offset (largestOffset es)

/-- The gang of task `job1-0`, run 1. -/
def gangA : Gang := { Tasks := [mkTask "job1-0" "job1-0-1" 1] }

/-- The gang of task `job1-1`, run 1. -/
def gangB : Gang := { Tasks := [mkTask "job1-1" "job1-1-1" 1] }

/-- The sample handler after a first `EnqueueGangs` request has enqueued
`gangA` into `respool1`. -/
def enqueuedHandler : ServiceHandler ReadyQueue SamplePool :=
  ((sampleHandler roomyQueue).EnqueueGangs sampleEnv
    { ResPool := "respool1", Gangs := [gangA] }).1

/-- The tasks of the gang that the tracker holds, in the order of the gang. -/
def trackedOnly (tr : tracker) (gang : Gang) : Gang :=
  { Tasks := gang.Tasks.filter (fun t => (tr.GetTask t.Id).isSome) }

/-- The sample handler tracking `job1-0` in state `READY`, with a ready queue
that holds a gang of the tracked `job1-0` and the untracked `job1-1`, and then
`gangB`. -/
def readyHandler : ServiceHandler ReadyQueue SamplePool :=
  trackingHandler
    { gangs := [{ Tasks := [mkTask "job1-0" "job1-0-1" 1, mkTask "job1-1" "job1-1-1" 1] }, gangB],
      limit := 10 }
    TaskState.READY

/-! ## `resmgr/handler.go`: placements and kills -/

/-- The message `KillTasksRequest`, with the ids of the tasks to kill. -/
structure KillTasksRequest where
  Tasks : List String
  deriving DecidableEq, Repr

/-- The message `KillTasksResponse_Error`. -/
structure KillTasksResponse_Error where
  Message : String
  deriving DecidableEq, Repr

/-- The message `KillTasksResponse`. -/
structure KillTasksResponse where
  Error : Option KillTasksResponse_Error
  deriving DecidableEq, Repr

/-- The body of the loop of `KillTasks` over the task ids; the state of the
loop is the handler and the text `tasksNotKilled`. -/
def ServiceHandler.killTask {σ ρ μ : Type} (env : Env σ ρ μ)
    (acc : ServiceHandler σ ρ × String) (killedTask : String) : ServiceHandler σ ρ × String :=
  match acc.1.rmTracker.GetTask killedTask with
  | none => (acc.1, acc.2 ++ (killedTask ++ " , "))
  | some _ =>
    match acc.1.rmTracker.MarkItDone env acc.1.resPools killedTask with
    | (tr, pools, some _) =>
      ({ acc.1 with rmTracker := tr, resPools := pools }, acc.2 ++ (killedTask ++ " , "))
    | (tr, pools, none) => ({ acc.1 with rmTracker := tr, resPools := pools }, acc.2)

/-- The method `ServiceHandler.KillTasks`. -/
def ServiceHandler.KillTasks {σ ρ μ : Type} (env : Env σ ρ μ) (h : ServiceHandler σ ρ)
    (req : KillTasksRequest) : ServiceHandler σ ρ × KillTasksResponse :=
  if req.Tasks.length = 0 then
    (h, { Error := some { Message := "Killed tasks called with no tasks" } })
  else
    let (h, tasksNotKilled) := req.Tasks.foldl (ServiceHandler.killTask env) (h, "")
    if tasksNotKilled = "" then (h, { Error := none })
    else (h, { Error := some { Message := "tasks can't be killed " ++ tasksNotKilled } })

/-- Whether the kill of the task id fails on the handler: the task is absent
from the tracker or cannot be marked done. -/
def killFails {σ ρ μ : Type} (env : Env σ ρ μ) (h : ServiceHandler σ ρ) (killedTask : String) :
    Bool :=
  match h.rmTracker.GetTask killedTask with
  | none => true
  | some _ => (h.rmTracker.MarkItDone env h.resPools killedTask).2.2.isSome

/-- The task ids, in the order of the request, whose kill fails when it is
their turn, the kills being made one after another. -/
def notKilled {σ ρ μ : Type} (env : Env σ ρ μ) : ServiceHandler σ ρ → List String → List String
  | _, [] => []
  | h, t :: ts =>
    (if killFails env h t then [t] else []) ++
      notKilled env (ServiceHandler.killTask env (h, "") t).1 ts

/-- The text that lists the task ids, each followed by `" , "`. -/
def listed : List String → String
  | [] => ""
  | t :: ts => (t ++ " , ") ++ listed ts

/-! ## `resmgr/task/tracker.go`: the host query -/

/-- The keys of the map `resmgr.TaskType_name`: every task type. Go ranges
over a map in no fixed order; the order taken here is that of the values. -/
def TaskType_name : List TaskType :=
  [TaskType.UNKNOWN, TaskType.BATCH, TaskType.STATELESS, TaskType.DAEMON, TaskType.STATEFUL]

/-- The Go function `tracker.TasksByHosts`; the result maps a hostname to the
`*RMTask` references collected for it. -/
def tracker.TasksByHosts (tr : tracker) (hosts : List String) (taskType : TaskType) :
    List (String × List Nat) :=
  let types : List TaskType :=
    if taskType = TaskType.UNKNOWN then TaskType_name.foldl (fun types t => types ++ [t]) []
    else [] ++ [taskType]
  hosts.foldl
    (fun result hostname =>
      types.foldl
        (fun result tType =>
          ((mapGet ((mapGet tr.placements hostname).getD []) tType).getD []).foldl
            (fun result entry =>
              mapSet result hostname ((mapGet result hostname).getD [] ++ [entry.2]))
            result)
        result)
    []

/-- The task types a query for `taskType` asks for: every type for `UNKNOWN`,
else the type itself. -/
def typesAsked (taskType : TaskType) : List TaskType :=
  if taskType = TaskType.UNKNOWN then TaskType_name else [taskType]

/-- The tasks that the placement index holds for the host under the given
type. -/
def indexedOn (tr : tracker) (hostname : String) (tType : TaskType) : List Nat :=
  ((mapGet ((mapGet tr.placements hostname).getD []) tType).getD []).map Prod.snd

/-- The tasks of the asked types that the placement index holds for the host,
each entry of the index once. -/
def placedOn (tr : tracker) (hostname : String) (taskType : TaskType) : List Nat :=
  (typesAsked taskType).foldr (fun tType rest => indexedOn tr hostname tType ++ rest) []

/-- The list `l` written `n` times in a row. -/
def repeated (l : List Nat) : Nat → List Nat
  | 0 => []
  | n + 1 => l ++ repeated l n

/-- A tracker with `job1-0` and `job1-1` placed on `host1` and `job1-2` placed
on `host2`. -/
def placedTracker : tracker :=
  let tr := (InitTaskTracker.AddTask sampleEnv (mkTask "job1-0" "job1-0-1" 1) 0).1
  let tr := (tr.AddTask sampleEnv (mkTask "job1-1" "job1-1-1" 1) 0).1
  let tr := (tr.AddTask sampleEnv (mkTask "job1-2" "job1-2-1" 1) 0).1
  ((tr.SetPlacement "job1-0" "host1").SetPlacement "job1-1" "host1").SetPlacement "job1-2" "host2"

/-- The result of `TasksByHosts` after the tasks `l` have been appended, one
by one, to the entry of the hostname. -/
def appendAt (result : List (String × List Nat)) (hostname : String) (l : List Nat) :
    List (String × List Nat) :=
  if l = [] then result else mapSet result hostname ((mapGet result hostname).getD [] ++ l)

/-! ## `resmgr/queue/queue.go`: the queue factory -/

/-- The `respool.SchedulingPolicy` enumeration; an unset policy is `UNKNOWN`,
the zero value. -/
inductive SchedulingPolicy where
  | UNKNOWN | PriorityFIFO
  deriving DecidableEq, Repr, Inhabited

/-- The Go function `CreateQueue`: the queue and no error, or no queue and the
error. -/
def CreateQueue (policy : SchedulingPolicy) (limit : Int) : Except String PriorityQueue :=
  match policy with
  | .PriorityFIFO => .ok (NewPriorityQueue limit)
  | _ => .error "Invalid queue Type"

/-! ## `storage/orm/table.go`: rows and objects -/

/-- A Go value held in an `interface{}`: a plain value (here a text) or a
pointer to a value. The `nil` interface is `none` of `Option Value`. -/
inductive Value where
  | plain (v : String)
  | pointer (v : Value)
  deriving DecidableEq, Repr

/-- The value `reflect.Indirect(reflect.ValueOf(v))`: what a pointer points
to, and `v` itself when it is not a pointer. -/
def Value.Indirect : Value → Value
  | .pointer v => v
  | .plain v => .plain v

/-- The `base.Column`: a column name and its value. -/
structure Column where
  Name : String
  Value : Option Value
  deriving DecidableEq, Repr

/-- The `Table`, with its map from column name to field name. -/
structure Table where
  ColToField : List (String × String)
  deriving DecidableEq, Repr

/-- A storage object seen through reflection: `FieldByName`, from the name of
a field to the value it holds. Fields are not typed here: a `Set` that Go
refuses for the type of the field has no counterpart. -/
abbrev Object := String → Option Value

/-- The Go function `Table.GetRowFromObject`. Go ranges over `ColToField` in
no fixed order; the order taken here is that of the association list. -/
def Table.GetRowFromObject (t : Table) (e : Object) : List Column :=
  t.ColToField.foldl (fun row cf => row ++ [{ Name := cf.1, Value := e cf.2 }]) []

/-- The Go function `Table.SetObjectFromRow`. -/
def Table.SetObjectFromRow (t : Table) (e : Object) (row : List Column) : Object :=
  let columnsMap : List (String × Option Value) :=
    row.foldl (fun m column => mapSet m column.Name column.Value) []
  t.ColToField.foldl
    (fun (r : Object) cf =>
      let columnValue := (mapGet columnsMap cf.1).getD none
      match columnValue with
      | none => r
      | some fv => fun field => if field = cf.2 then some fv.Indirect else r field)
    e

/-- Whether the value is neither `nil` nor a pointer. -/
def plainValue : Option Value → Bool
  | some (.plain _) => true
  | _ => false

/-- A table with the columns `name` and `data`. -/
def sampleTable : Table := { ColToField := [("name", "Name"), ("data", "Data")] }

/-- An object whose field `Name` holds `old` and whose field `Data` holds
`bytes`. -/
def sampleObject : Object := fun field =>
  if field = "Name" then some (.plain "old")
  else if field = "Data" then some (.plain "bytes")
  else none

/-- An object whose fields hold nothing. -/
def emptyObject : Object := fun _ => none

/-! ## `resmgr/preemption/preemptor.go`: the preemptor -/

/-- Modelled from the spec: `Resources.Subtract` of `resmgr/scalar`, which is
not among the sources: the difference on every dimension, and zero on a
dimension where it would be negative ("saturates at zero"). -/
def Resources.Subtract (a b : Resources) : Resources :=
  { CPU := a.CPU - b.CPU, MEMORY := a.MEMORY - b.MEMORY,
    DISK := a.DISK - b.DISK, GPU := a.GPU - b.GPU }

/-- Modelled from the spec: `scalar.ZeroResource`, zero on every dimension. -/
def ZeroResource : Resources := { CPU := 0, MEMORY := 0, DISK := 0, GPU := 0 }

/-- Modelled from the spec: `Resources.Equal`, equality on every dimension. -/
def Resources.Equal (a b : Resources) : Bool :=
  decide (a.CPU = b.CPU) && decide (a.MEMORY = b.MEMORY) && decide (a.DISK = b.DISK) &&
    decide (a.GPU = b.GPU)

/-- The collaborators of the preemptor whose code is not among the sources:
the accessors of a resource pool, the ranker (which reads the tracker) and the
preemption queue, whose state is `θ`. -/
structure PreemptorEnv (ρ θ : Type) where
  /-- The method `ResPool.ID()`. -/
  ID : ρ → String
  /-- The method `ResPool.GetAllocation()`. -/
  GetAllocation : ρ → Resources
  /-- The method `ResPool.GetEntitlement()`. -/
  GetEntitlement : ρ → Resources
  /-- The method `ranker.GetTasksToEvict(respoolID, resourcesToFree)`. -/
  GetTasksToEvict : tracker → (Nat → ρ) → String → Resources → List Nat
  /-- The method `preemptionQueue.Enqueue(task)`. -/
  QueueEnqueue : θ → Task → θ × Option String

/-- The `preemptor` and the objects it reaches: its threshold, its map from
pool id to the count of over-allocated cycles, the preemption queue, the
tracker, the pool tree (`resTree.Get`, and the leaves that
`resTree.GetAllNodes(true)` lists) and the store of the pool objects. -/
structure preemptor (ρ θ : Type) where
  sustainedOverAllocationCount : Int
  respoolState : List (String × Int)
  preemptionQueue : θ
  tracker : tracker
  resTree : String → Except String Nat
  leafNodes : List Nat
  resPools : Nat → ρ

/-- The body of the loop of `updateResourcePoolsState` over the leaf nodes,
on the map `respoolState`. -/
def updateCount {ρ θ : Type} (penv : PreemptorEnv ρ θ) (resPools : Nat → ρ)
    (respoolState : List (String × Int)) (node : Nat) : List (String × Int) :=
  let n := resPools node
  let resourcesAboveEntitlement := (penv.GetAllocation n).Subtract (penv.GetEntitlement n)
  if ZeroResource.Equal resourcesAboveEntitlement then
    -- reset counter to zero
    mapSet respoolState (penv.ID n) 0
  else
    -- increment the count
    let count := (mapGet respoolState (penv.ID n)).getD 0
    mapSet respoolState (penv.ID n) (count + 1)

/-- The method `preemptor.updateResourcePoolsState`. -/
def preemptor.updateResourcePoolsState {ρ θ : Type} (penv : PreemptorEnv ρ θ)
    (p : preemptor ρ θ) : preemptor ρ θ :=
  { p with respoolState := p.leafNodes.foldl (updateCount penv p.resPools) p.respoolState }

/-- The method `preemptor.markProcessed`. -/
def preemptor.markProcessed {ρ θ : Type} (p : preemptor ρ θ) (respoolID : String) :
    preemptor ρ θ :=
  { p with respoolState := mapSet p.respoolState respoolID 0 }

/-- The method `preemptor.getEligibleResPools`. Go ranges over the map in no
fixed order; the order taken here is that of the association list. -/
def preemptor.getEligibleResPools {ρ θ : Type} (p : preemptor ρ θ) : List String :=
  p.respoolState.foldl
    (fun resPools entry =>
      if entry.2 ≥ p.sustainedOverAllocationCount then resPools ++ [entry.1] else resPools)
    []

/-- The method `preemptor.evictReadyTask`; `rmTask` is the `*RMTask` and
`respool` the pool it is evicted from. -/
def preemptor.evictReadyTask {σ ρ μ θ : Type} (env : Env σ ρ μ) (p : preemptor ρ θ)
    (rmTask : Nat) (respool : Nat) : preemptor ρ θ × Option String :=
  let task := (p.tracker.rmTasks rmTask).task
  match p.tracker.GetTask task.Id with
  | none => (p, some ("task not found in tracker ID:" ++ task.Id))
  | some trackedTask =>
    -- Transit task to PENDING
    match (p.tracker.rmTasks trackedTask).TransitTo TaskState.PENDING with
    | (o, some _) => ({ p with tracker := p.tracker.modify trackedTask (fun _ => o) }, none)
    | (o, none) =>
      let p := { p with tracker := p.tracker.modify trackedTask (fun _ => o) }
      -- Enqueue task to the resource pool
      match env.ResPoolEnqueueGang (p.resPools respool) { Tasks := [task] } with
      | (pool, some err) =>
        ({ p with resPools := fun r => if r = respool then pool else p.resPools r },
          some ("unable to enqueue gang to resource pool: " ++ err))
      | (pool, none) =>
        -- Add the task resources back to demand
        match env.AddToDemand pool task.Resource with
        | (pool, some err) =>
          ({ p with resPools := fun r => if r = respool then pool else p.resPools r },
            some ("unable to add task resources to resource pool demand: " ++ err))
        | (pool, none) =>
          -- Subtract the task resources from the resource pool allocation
          match env.SubtractFromAllocation pool task.Resource with
          | (pool, some err) =>
            ({ p with resPools := fun r => if r = respool then pool else p.resPools r },
              some ("unable to subtract allocation from resource pool: " ++ err))
          | (pool, none) =>
            ({ p with resPools := fun r => if r = respool then pool else p.resPools r }, none)

/-- The body of the loop of `processResourcePool` over the tasks to evict; the
state of the loop is the preemptor and the errors gathered so far. -/
def preemptor.processTask {σ ρ μ θ : Type} (env : Env σ ρ μ) (penv : PreemptorEnv ρ θ)
    (resourcePool : Nat) (acc : preemptor ρ θ × List String) (t : Nat) :
    preemptor ρ θ × List String :=
  match (acc.1.tracker.rmTasks t).state with
  | TaskState.RUNNING =>
    match penv.QueueEnqueue acc.1.preemptionQueue (acc.1.tracker.rmTasks t).task with
    | (queue, some err) =>
      ({ acc.1 with preemptionQueue := queue },
        acc.2 ++ ["unable to add RUNNING task to preemption queue task ID:" ++
          (acc.1.tracker.rmTasks t).task.Id ++ ": " ++ err])
    | (queue, none) => ({ acc.1 with preemptionQueue := queue }, acc.2)
  | TaskState.READY =>
    match acc.1.evictReadyTask env t resourcePool with
    | (p, some err) =>
      (p, acc.2 ++ ["unable to evict READY task ID:" ++
        (acc.1.tracker.rmTasks t).task.Id ++ ": " ++ err])
    | (p, none) => (p, acc.2)
  | _ => acc

/-- The method `preemptor.processResourcePool`; the result carries the errors
that `multierr` gathers, none for `nil`. -/
def preemptor.processResourcePool {σ ρ μ θ : Type} (env : Env σ ρ μ) (penv : PreemptorEnv ρ θ)
    (p : preemptor ρ θ) (respoolID : String) : preemptor ρ θ × List String :=
  match p.resTree respoolID with
  | .error err => (p, ["unable to get resource pool: " ++ err])
  | .ok resourcePool =>
    let pool := p.resPools resourcePool
    let resourcesToFree := (penv.GetAllocation pool).Subtract (penv.GetEntitlement pool)
    let tasks := penv.GetTasksToEvict p.tracker p.resPools respoolID resourcesToFree
    let (p, errs) := tasks.foldl (preemptor.processTask env penv resourcePool) (p, [])
    -- we've processed the pool
    (p.markProcessed respoolID, errs)

/-- The method `preemptor.preemptTasks`. -/
def preemptor.preemptTasks {σ ρ μ θ : Type} (env : Env σ ρ μ) (penv : PreemptorEnv ρ θ)
    (p : preemptor ρ θ) : preemptor ρ θ × List String :=
  -- collect resource allocation from all resource pools
  let p := p.updateResourcePoolsState penv
  p.getEligibleResPools.foldl
    (fun acc respoolID =>
      match acc.1.processResourcePool env penv respoolID with
      | (p, []) => (p, acc.2)
      | (p, errs) =>
        (p, acc.2 ++ errs.map
          (fun err => "unable to preempt tasks from resource pool :" ++ respoolID ++ ": " ++ err)))
    (p, [])

/-- Whether the allocation is above the entitlement on some dimension. -/
def exceeds (allocation entitlement : Resources) : Bool :=
  decide (allocation.CPU > entitlement.CPU) || decide (allocation.MEMORY > entitlement.MEMORY) ||
    decide (allocation.DISK > entitlement.DISK) || decide (allocation.GPU > entitlement.GPU)

/-- An instance of the collaborators of the preemptor: a pool has the given id
and entitlement, the ranker returns every tracked task, oldest first, and the
preemption queue holds at most 10000 tasks. -/
def samplePenv (id : String) (entitlement : Resources) : PreemptorEnv SamplePool (List Task) where
  ID := fun _ => id
  GetAllocation := fun pool => pool.allocation
  GetEntitlement := fun _ => entitlement
  GetTasksToEvict := fun tr _ _ _ => tr.tasks.map Prod.snd
  QueueEnqueue := fun queue task =>
    if queue.length < 10000 then (queue ++ [task], none) else (queue, some "queue is full")

/-- A preemptor with the given threshold over the tracker and the pools of a
handler, with the single leaf pool `respool1`. -/
def samplePreemptor (threshold : Int) (h : ServiceHandler ReadyQueue SamplePool) :
    preemptor SamplePool (List Task) :=
  { sustainedOverAllocationCount := threshold, respoolState := [], preemptionQueue := [],
    tracker := h.rmTracker, resTree := h.resPoolTree, leafNodes := [0], resPools := h.resPools }

/-- The entitlement used in the examples. -/
def sampleEntitlement : Resources := { CPU := 10, MEMORY := 1000, DISK := 100, GPU := 2 }

/-- A pool whose allocation is above the sample entitlement on the cpu. -/
def overPool : SamplePool :=
  { emptyPool with allocation := { CPU := 20, MEMORY := 100, DISK := 10, GPU := 0 } }

/-- One cycle of `updateResourcePoolsState` with the given leaves of the tree,
in the examples. -/
def sampleCycle (leaves : List Nat) (p : preemptor SamplePool (List Task)) :
    preemptor SamplePool (List Task) :=
  ({ p with leafNodes := leaves }).updateResourcePoolsState (samplePenv "respool1" sampleEntitlement)

/-- The preemption queue after the tasks to evict that are `RUNNING` in the
tracker have been handed to its `Enqueue`, in their order. -/
def pushRunning {ρ θ : Type} (penv : PreemptorEnv ρ θ) (tr : tracker) (victims : List Nat)
    (queue : θ) : θ :=
  victims.foldl
    (fun queue t =>
      if (tr.rmTasks t).state = TaskState.RUNNING then
        (penv.QueueEnqueue queue (tr.rmTasks t).task).1
      else queue)
    queue

/-- The tracker `tr` holds the task messages of `tr0`, every task object that
is `RUNNING` in `tr0` is the same in `tr`, and no other is `RUNNING` in `tr`. -/
def sameRunning (tr tr0 : tracker) : Prop :=
  (∀ r, (tr.rmTasks r).task = (tr0.rmTasks r).task) ∧
  (∀ r, (tr0.rmTasks r).state = TaskState.RUNNING → tr.rmTasks r = tr0.rmTasks r) ∧
  (∀ r, (tr.rmTasks r).state = TaskState.RUNNING → (tr0.rmTasks r).state = TaskState.RUNNING)

/-- The sample collaborators, with a pool whose `AddToDemand` fails. -/
def demandFailsEnv : Env ReadyQueue SamplePool TaskState :=
  { sampleEnv with AddToDemand := fun pool _ => (pool, some "demand not updated") }

/-- A preemptor over the tracker in which task `job1-0` has the given state,
with the pool `respool1` over its entitlement. -/
def evictingPreemptor (state : TaskState) : preemptor SamplePool (List Task) :=
  { samplePreemptor 1 (trackingHandler roomyQueue state) with resPools := fun _ => overPool }

/-! ## `resmgr/queue`: `Peek`, `Remove` and `Len` -/

/-- Modelled from the spec: `MultiLevelList.PeekItem`, which returns the
element at the front of `level` and leaves it in the container; it fails on a
level that holds nothing. -/
def MultiLevelList.PeekItem {α : Type} (l : MultiLevelList α) (level : Int) : Except String α :=
  match popLevel l.items level with
  | none => .error "No items found in queue for given priority"
  | some (x, _) => .ok x

/-- Removes the first entry of `level` that holds `element`. -/
def removeEntry {α : Type} [DecidableEq α] : List (Int × α) → Int → α → Option (List (Int × α))
  | [], _, _ => none
  | (lvl, x) :: rest, level, element =>
    if lvl = level ∧ x = element then some rest
    else match removeEntry rest level element with
      | none => none
      | some rest' => some ((lvl, x) :: rest')

/-- Modelled from the spec: `MultiLevelList.Remove`, which takes the given
element out of `level`, and fails, leaving the container as it was, when the
level does not hold it. -/
def MultiLevelList.Remove {α : Type} [DecidableEq α] (l : MultiLevelList α) (level : Int)
    (element : α) : MultiLevelList α × Option String :=
  match removeEntry l.items level element with
  | none => (l, some "No items found in queue for given priority")
  | some rest => ({ items := rest }, none)

/-- The retry loop of `PriorityQueue.Peek`, entered after a failed `PeekItem`;
every iteration takes one unit of `fuel`, and `none` is the loop still running
when the fuel is spent. -/
def peekRetry : Nat → MultiLevelList (List Task) → Int → String →
    Option (Except String (List Task))
  | fuel, l, highestPriority, err =>
    if highestPriority = l.GetHighestLevel then some (.error err)
    else match fuel with
      | 0 => none
      | fuel' + 1 =>
        let highestPriority := l.GetHighestLevel
        match l.PeekItem highestPriority with
        | .ok item => some (.ok item)
        | .error err' => peekRetry fuel' l highestPriority err'

/-- The Go function `PriorityQueue.Peek`; the queue is not written. -/
def PriorityQueue.Peek (fuel : Nat) (f : PriorityQueue) : Option (Except String (List Task)) :=
  let highestPriority := f.list.GetHighestLevel
  match f.list.PeekItem highestPriority with
  | .ok item => some (.ok item)
  | .error err => peekRetry fuel f.list highestPriority err

/-- The Go function `PriorityQueue.Remove`; a `nil` list and a list without
element are both the empty list here. The count is not written. -/
def PriorityQueue.Remove (f : PriorityQueue) (rlist : List Task) : PriorityQueue × Option String :=
  match rlist with
  | [] => (f, some "removal of empty list")
  | firstItem :: _ =>
    let priority := firstItem.Priority
    match f.list.Remove (Int.ofNat priority) rlist with
    | (l, err) => ({ f with list := l }, err)

/-- The Go function `PriorityQueue.Len`. -/
def PriorityQueue.Len (f : PriorityQueue) (priority : Int) : Nat :=
  f.list.Len priority

/-- The task `job1-0` with the given run (mesos task id `job1-0-run`) and
hostname. -/
def placedTask (run hostname : String) : Task :=
  { mkTask "job1-0" ("job1-0-" ++ run) 1 with Hostname := hostname }

/-- A tracker to which task `job1-0` has been added twice: run 1, placed on
`host1`, and then run 2 with the given hostname. -/
def readdedTracker (hostname : String) : tracker :=
  (((InitTaskTracker.AddTask sampleEnv (placedTask "1" "host1") 0).1).AddTask sampleEnv
    (placedTask "2" hostname) 0).1

/-- The gang of the tasks `job1-1` and `job1-0`, both run 1. -/
def gangBA : Gang := { Tasks := [mkTask "job1-1" "job1-1-1" 1, mkTask "job1-0" "job1-0-1" 1] }

/-- The sample collaborators, with a pool whose `EnqueueGang` refuses every
gang. -/
def refusingEnv : Env ReadyQueue SamplePool TaskState :=
  { sampleEnv with ResPoolEnqueueGang := fun pool _ => (pool, some "queue Limit is reached") }

/-! ## `jobmgr/tracked/task.go`: the tracked task -/

namespace tracked

/-- The revision message of a runtime, with the field that is read: `Version`,
a `uint64`. -/
structure Revision where
  Version : Nat
  deriving DecidableEq, Repr

/-- The `pb_task.RuntimeInfo` message, with the fields the embedded code
reads; `Revision` is a pointer, `none` for `nil`. -/
structure RuntimeInfo where
  State : TaskState
  ConfigVersion : Nat
  Revision : Option Revision
  deriving DecidableEq, Repr

/-- The generated getter `RuntimeInfo.GetRevision`, which accepts a `nil`
receiver. -/
def GetRevision : Option RuntimeInfo → Option Revision
  | none => none
  | some runtime => runtime.Revision

/-- The generated getter `GetVersion` of the revision, which accepts a `nil`
receiver and then returns zero. -/
def GetVersion : Option Revision → Nat
  | none => 0
  | some revision => revision.Version

/-- The type `TaskAction`, a string. -/
abbrev TaskAction := String

/-- The action `NoAction`. -/
def NoAction : TaskAction := "no_action"

/-- The action `UntrackAction`. -/
def UntrackAction : TaskAction := "untrack"

/-- The action `InitializeAction`. -/
def InitializeAction : TaskAction := "initialize_task"

/-- The action `StartAction`. -/
def StartAction : TaskAction := "start_task"

/-- The action `StopAction`. -/
def StopAction : TaskAction := "stop_task"

/-- The action `UseGoalVersionAction`. -/
def UseGoalVersionAction : TaskAction := "use_goal_state"

/-- The `task` of `task.go`: its instance id, its runtime (a pointer, `none`
for `nil`), the two state times and the last action with its time. Times are
numbers; the job the task belongs to is reached through the commands below. -/
structure task where
  id : Nat
  runtime : Option RuntimeInfo
  stateTime : Nat
  goalStateTime : Nat
  lastAction : TaskAction
  lastActionTime : Nat
  deriving DecidableEq, Repr

/-- The commands that `RunAction` dispatches to, whose code is not among the
sources: `t.job.m.clearTask(t)`, `t.initialize(ctx)`, `t.start(ctx)` and
`t.stop(ctx)`. `ω` is the state they act on besides the task (the manager, the
job, the stores). -/
structure Commands (ω : Type) where
  /-- The call `t.job.m.clearTask(t)`. -/
  clearTask : ω → task → ω × task
  /-- The method `task.initialize` (the name is reserved in Lean). -/
  initialize_ : ω → task → (ω × task) × Option String
  /-- The method `task.start`. -/
  start : ω → task → (ω × task) × Option String
  /-- The method `task.stop`. -/
  stop : ω → task → (ω × task) × Option String

/-- The method `task.LastAction`. -/
def task.LastAction (t : task) : TaskAction × Nat :=
  (t.lastAction, t.lastActionTime)

/-- The method `task.RunAction`; `now` is what `time.Now()` returns. -/
def task.RunAction {ω : Type} (cmds : Commands ω) (w : ω) (t : task) (action : TaskAction)
    (now : Nat) : (ω × task) × Option String :=
  let t := { t with lastAction := action, lastActionTime := now }
  if action = NoAction then ((w, t), none)
  else if action = UntrackAction then (cmds.clearTask w t, none)
  else if action = InitializeAction then cmds.initialize_ w t
  else if action = StartAction then cmds.start w t
  else if action = StopAction then cmds.stop w t
  else ((w, t), some ("no command configured for running task action `" ++ action ++ "`"))

/-- The method `task.updateRuntime`; `now` is what `time.Now()` returns. -/
def task.updateRuntime (t : task) (runtime : Option RuntimeInfo) (now : Nat) : task :=
  -- Ignore older revisions of the task runtime.
  if GetVersion (GetRevision runtime) < GetVersion (GetRevision t.runtime) then t
  else { t with runtime := runtime, goalStateTime := now, stateTime := now }

/-- A run of `updateRuntime` calls, each with its runtime and its time. -/
def task.updateAll (t : task) (calls : List (Option RuntimeInfo × Nat)) : task :=
  calls.foldl (fun t call => t.updateRuntime call.1 call.2) t

/-- The revision version of the runtime that the task caches. -/
def task.cachedVersion (t : task) : Nat :=
  GetVersion (GetRevision t.runtime)

/-- Commands that do nothing and succeed, on a state that counts the calls. -/
def idleCommands : Commands Nat where
  clearTask := fun w t => (w + 1, t)
  initialize_ := fun w t => ((w + 1, t), none)
  start := fun w t => ((w + 1, t), none)
  stop := fun w t => ((w + 1, t), none)

/-- A tracked task without runtime that has run no action. -/
def newTask (id : Nat) : task :=
  { id := id, runtime := none, stateTime := 0, goalStateTime := 0, lastAction := "",
    lastActionTime := 0 }

end tracked

/-! ## `leader/id.go`: the address to listen on -/

/-- The flag `net.FlagUp` of the Go standard library (`1 << 0`). -/
def FlagUp : Nat := 1

/-- The flag `net.FlagLoopback` of the Go standard library (`1 << 2`). -/
def FlagLoopback : Nat := 4

/-- The `net.Interface` of the Go standard library, with its flags as a bit
set. -/
structure Interface where
  Index : Nat
  Name : String
  Flags : Nat
  deriving DecidableEq, Repr

/-- The `net.Addr` values that `scoreAddr` tells apart: a `*net.IPNet`, a
`*net.IPAddr`, and an address of any other type. `ι` is the type `net.IP`. -/
inductive Addr (ι : Type) where
  | IPNet (IP : ι)
  | IPAddr (IP : ι) (Zone : String)
  | other (network : String)
  deriving DecidableEq, Repr

/-- The two methods of `net.IP` (Go standard library) that `scoreAddr` calls;
`To4` returns `none` for `nil`. -/
structure IPMethods (ι : Type) where
  To4 : ι → Option ι
  IsLoopback : ι → Bool

/-- The type switch at the head of `scoreAddr`: the IP of an IP network or of
an IP address, `none` for any other address. -/
def Addr.ip {ι : Type} : Addr ι → Option ι
  | .IPNet ip => some ip
  | .IPAddr ip _ => some ip
  | .other _ => none

/-- The Go function `scoreAddr`; the IP returned is `none` for `nil`. -/
def scoreAddr {ι : Type} (lib : IPMethods ι) (iface : Interface) (addr : Addr ι) :
    Int × Option ι :=
  match addr.ip with
  | none => (-1, none)
  | some ip =>
    let score : Int := 0
    let score := if (lib.To4 ip).isSome then score + 300 else score
    let score :=
      if iface.Flags &&& FlagLoopback = 0 ∧ lib.IsLoopback ip = false then
        let score := score + 100
        if iface.Flags &&& FlagUp ≠ 0 then score + 100 else score
      else score
    (score, some ip)

/-- The body of the inner loop of `listenIP`: the state is `bestScore` and
`bestIP`. -/
def listenStep {ι : Type} (lib : IPMethods ι) (iface : Interface) (best : Int × Option ι)
    (addr : Addr ι) : Int × Option ι :=
  let (score, ip) := scoreAddr lib iface addr
  if score > best.1 then (score, ip) else best

/-- The Go function `listenIP`. Its input is what `net.Interfaces()` returns,
each interface with what its `Addrs()` returns. -/
def listenIP {ι : Type} (lib : IPMethods ι)
    (interfaces : Except String (List (Interface × Except String (List (Addr ι))))) :
    Except String (Option ι) :=
  match interfaces with
  | .error err => .error err
  | .ok interfaces =>
    let best : Int × Option ι := (-1, none)
    -- Select the highest scoring IP as the best IP.
    let best := interfaces.foldl
      (fun best entry =>
        match entry.2 with
        | .error _ => best -- Skip this interface if there is an error.
        | .ok addrs => addrs.foldl (listenStep lib entry.1) best)
      best
    if best.1 = -1 then .error "no addresses to listen on" else .ok best.2

/-- The addresses of the interfaces whose addresses can be listed, each with
its interface, in the order of the interfaces and of their addresses. -/
def candidatesOf {ι : Type} :
    List (Interface × Except String (List (Addr ι))) → List (Interface × Addr ι)
  | [] => []
  | (_, .error _) :: rest => candidatesOf rest
  | (iface, .ok addrs) :: rest => addrs.map (fun a => (iface, a)) ++ candidatesOf rest

/-- The addresses that `listenIP` scores, each with its interface, in the
order in which it visits them: none when the interfaces cannot be listed, and
none for an interface whose addresses cannot be listed. -/
def candidates {ι : Type} :
    Except String (List (Interface × Except String (List (Addr ι)))) →
    List (Interface × Addr ι)
  | .error _ => []
  | .ok interfaces => candidatesOf interfaces

/-- The score that `scoreAddr` gives to an address of an interface. -/
def scoreOf {ι : Type} (lib : IPMethods ι) (c : Interface × Addr ι) : Int :=
  (scoreAddr lib c.1 c.2).1

/-- An implementation of the two `net.IP` methods on IPs given by their bytes:
an IP of four bytes is an IPv4 address, and the loopback addresses are those
that start with 127 and the IPv6 address `::1`. -/
def bytesIP : IPMethods (List Nat) where
  To4 := fun ip => if ip.length = 4 then some ip else none
  IsLoopback := fun ip =>
    if ip.length = 4 then decide (ip.head? = some 127)
    else decide (ip = [0, 0, 0, 0, 0, 0, 0, 0, 0, 0, 0, 0, 0, 0, 0, 1])

/-! ## `jobmgr/goalstate`: the job runtime updater

Only the tests of the job runtime updater are among the sources
(`job_runtime_updater_test.go`); the updater is modelled from the
specification, and the inputs and expectations of its tests are kept as data. -/

namespace goalstate

/-- The peloton `job.JobState` enumeration, with the states the tests use. -/
inductive JobState where
  | UNKNOWN | INITIALIZED | PENDING | RUNNING | SUCCEEDED | FAILED | KILLED | KILLING
  deriving DecidableEq, Repr, Inhabited

/-- The `pbjob.RuntimeInfo` message, with the fields the tests read or write;
`TaskStats` is the map from task state to count. -/
structure JobRuntimeInfo where
  State : JobState
  GoalState : JobState
  TaskStats : List (TaskState × Nat)
  StartTime : String
  CompletionTime : String
  deriving DecidableEq, Repr

/-- Modelled from the spec: the terminal job states (`SUCCEEDED`, `FAILED` and
`KILLED`; `util.IsPelotonJobStateTerminal` is not among the sources). -/
def terminalJobState : JobState → Bool
  | .SUCCEEDED | .FAILED | .KILLED => true
  | _ => false

/-- Whether the summary counts a task in a state that satisfies `p`. -/
def anyTask (stateCounts : List (TaskState × Nat)) (p : TaskState → Bool) : Bool :=
  stateCounts.any (fun e => decide (e.2 > 0) && p e.1)

/-- The number of tasks that the summary counts in the state: Go
`stateCounts[state]`, zero for a state that the map does not hold. -/
def countOf (stateCounts : List (TaskState × Nat)) (state : TaskState) : Nat :=
  (mapGet stateCounts state).getD 0

/-- The number of tasks that the summary counts in a terminal state (the
terminal states of the task state machine, `terminalState`). -/
def terminalCount (stateCounts : List (TaskState × Nat)) : Nat :=
  countOf stateCounts TaskState.SUCCEEDED + countOf stateCounts TaskState.FAILED +
    countOf stateCounts TaskState.KILLED + countOf stateCounts TaskState.LOST +
    countOf stateCounts TaskState.PREEMPTED

/-- Modelled from the spec: the job state that the job runtime updater rolls
the task-state counts into (`job_runtime_updater.go` is not among the sources),
for a job of `instanceCount` instances.

When all instances are in terminal states (no task is counted in a
non-terminal state and the counts of the terminal states add up to the
number of instances): "if goal is `KILLED`: state progresses `KILLING →
KILLED` when no task is in a non-terminal state"; for another goal "state is
`SUCCEEDED` iff all tasks in `SUCCEEDED`", and otherwise `KILLED` if a task is
`KILLED`, and `FAILED` if none is. The specification puts `FAILED` before
`KILLED`; the order taken here is the one that the test
`TestJobUpdateJobRuntime` of the sources expects (`killedCase` below).

When some instance is not in a terminal state: a job that is `INITIALIZED`
and only partially created stays `INITIALIZED` (the case "Simulate INITIALIZED
job" of the test, `initializedCase` below); otherwise the job is `KILLING` when
its goal is `KILLED`, and "`RUNNING` (or `PENDING` if no task has started)",
where what counts as started is the parameter `started`. -/
def rollUp (started : List (TaskState × Nat) → Bool) (partiallyCreated : Bool)
    (instanceCount : Nat) (runtime : JobRuntimeInfo) (stateCounts : List (TaskState × Nat)) :
    JobState :=
  if anyTask stateCounts (fun s => !terminalState s) = false ∧
      terminalCount stateCounts = instanceCount then
    if runtime.GoalState = JobState.KILLED then JobState.KILLED
    else if countOf stateCounts TaskState.SUCCEEDED = instanceCount then JobState.SUCCEEDED
    else if countOf stateCounts TaskState.KILLED > 0 then JobState.KILLED
    else JobState.FAILED
  else if runtime.State = JobState.INITIALIZED ∧ partiallyCreated = true then
    JobState.INITIALIZED
  else if runtime.GoalState = JobState.KILLED then JobState.KILLING
  else if started stateCounts then JobState.RUNNING
  else JobState.PENDING

/-- The job state by the words of the specification for a job whose tasks are
all terminal and whose goal is `SUCCEEDED`: "`SUCCEEDED` iff all tasks in
`SUCCEEDED`; else `FAILED` if any `FAILED`; else `KILLED` if any `KILLED`";
`none` where these words give no state. -/
def rollUpAsSpecified (instanceCount : Nat) (stateCounts : List (TaskState × Nat)) :
    Option JobState :=
  if countOf stateCounts TaskState.SUCCEEDED = instanceCount then some JobState.SUCCEEDED
  else if countOf stateCounts TaskState.FAILED > 0 then some JobState.FAILED
  else if countOf stateCounts TaskState.KILLED > 0 then some JobState.KILLED
  else none

/-- Modelled from the spec: `JobRuntimeUpdater`, given the runtime of the job,
whether the job is partially created, its number of instances, the task-state
summary and the first and last task update times; the result is the runtime
that it writes. "`start_time` = first non-zero `first_task_update_time`";
"`completion_time` is set exactly when entering a terminal state. If the job
was killed before any task ran (`last_task_update_time = 0`) use current wall
clock so completion is never empty." `format` renders a time and `now` is the
wall clock. -/
def JobRuntimeUpdater (started : List (TaskState × Nat) → Bool) (format : Nat → String)
    (now : Nat) (partiallyCreated : Bool) (instanceCount : Nat) (runtime : JobRuntimeInfo)
    (stateCounts : List (TaskState × Nat)) (firstTaskUpdateTime lastTaskUpdateTime : Nat) :
    JobRuntimeInfo :=
  let jobState := rollUp started partiallyCreated instanceCount runtime stateCounts
  let startTime :=
    if runtime.StartTime = "" ∧ firstTaskUpdateTime ≠ 0 then format firstTaskUpdateTime
    else runtime.StartTime
  let completionTime :=
    if terminalJobState jobState then
      if lastTaskUpdateTime = 0 then format now else format lastTaskUpdateTime
    else runtime.CompletionTime
  { runtime with
    State := jobState, TaskStats := stateCounts, StartTime := startTime,
    CompletionTime := completionTime }

/-- Whether the updater writes no runtime at all: the case "Simulate killed job
with no tasks created" of the test expects no write for a job in a terminal
state whose task stats are the summary, and the case before it expects a write
when the stats are the summary and the state is not terminal. -/
def skipsUpdate (runtime : JobRuntimeInfo) (stateCounts : List (TaskState × Nat)) : Bool :=
  terminalJobState runtime.State && decide (runtime.TaskStats = stateCounts)

/-- A case of the tests of the updater: the runtime that the job store
returns, whether the job is partially created, its number of instances, the
task-state summary, the two task update times, and the job state that the
test expects in the runtime written, `none` when it expects no write. -/
structure UpdaterCase where
  runtime : JobRuntimeInfo
  partiallyCreated : Bool
  instanceCount : Nat
  stateCounts : List (TaskState × Nat)
  firstTaskUpdateTime : Nat
  lastTaskUpdateTime : Nat
  expected : Option JobState
  deriving DecidableEq, Repr

/-- The runtime of the tests: the given state and goal state, nothing else
set. -/
def testRuntime (state goal : JobState) : JobRuntimeInfo :=
  { State := state, GoalState := goal, TaskStats := [], StartTime := "", CompletionTime := "" }

/-- The test `TestJobCompletionTimeNotEmpty`: a killed job that never ran, 100
instances all `KILLED`, last task update time 0. The test expects a completion
time that is not empty. -/
def killedNeverRan : UpdaterCase :=
  { runtime := testRuntime .KILLED .SUCCEEDED, partiallyCreated := false, instanceCount := 100,
    stateCounts := [(TaskState.KILLED, 100)],
    firstTaskUpdateTime := 1483369445, lastTaskUpdateTime := 0, expected := some .KILLED }

/-- The case "Simulate RUNNING job" of `TestJobUpdateJobRuntime`. In this case
and the five that follow the test hands the same runtime object to the
updater, declared `PENDING` with goal `SUCCEEDED`; the rules do not depend on
what the earlier cases have written to it. -/
def runningCase : UpdaterCase :=
  { runtime := testRuntime .PENDING .SUCCEEDED, partiallyCreated := false, instanceCount := 100,
    stateCounts := [(TaskState.PENDING, 25), (TaskState.RUNNING, 25), (TaskState.LAUNCHED, 25),
      (TaskState.SUCCEEDED, 25)],
    firstTaskUpdateTime := 0, lastTaskUpdateTime := 0, expected := some .RUNNING }

/-- The case "Simulate SUCCEEDED job" of `TestJobUpdateJobRuntime`. -/
def succeededCase : UpdaterCase :=
  { runtime := testRuntime .PENDING .SUCCEEDED, partiallyCreated := false, instanceCount := 100,
    stateCounts := [(TaskState.SUCCEEDED, 100)],
    firstTaskUpdateTime := 1483369445, lastTaskUpdateTime := 1483466645,
    expected := some .SUCCEEDED }

/-- The case "Simulate PENDING job" of `TestJobUpdateJobRuntime`. -/
def pendingCase : UpdaterCase :=
  { runtime := testRuntime .PENDING .SUCCEEDED, partiallyCreated := false, instanceCount := 100,
    stateCounts := [(TaskState.PENDING, 50), (TaskState.SUCCEEDED, 50)],
    firstTaskUpdateTime := 1483369445, lastTaskUpdateTime := 0, expected := some .PENDING }

/-- The case "Simulate FAILED job" of `TestJobUpdateJobRuntime`. -/
def failedCase : UpdaterCase :=
  { runtime := testRuntime .PENDING .SUCCEEDED, partiallyCreated := false, instanceCount := 100,
    stateCounts := [(TaskState.FAILED, 50), (TaskState.SUCCEEDED, 50)],
    firstTaskUpdateTime := 1483369445, lastTaskUpdateTime := 1483466645,
    expected := some .FAILED }

/-- The case "Simulate KILLING job" of `TestJobUpdateJobRuntime`, which has a
runtime of its own, `KILLING` with goal `KILLED`. -/
def killingCase : UpdaterCase :=
  { runtime := testRuntime .KILLING .KILLED, partiallyCreated := false, instanceCount := 100,
    stateCounts := [(TaskState.KILLING, 25), (TaskState.KILLED, 50), (TaskState.SUCCEEDED, 25)],
    firstTaskUpdateTime := 1483369445, lastTaskUpdateTime := 0, expected := some .KILLING }

/-- The case "Simulate KILLED job" of `TestJobUpdateJobRuntime`: the goal of
the job is `SUCCEEDED`, 25 tasks are `FAILED`, 50 `KILLED` and 25 `SUCCEEDED`,
and the test expects the state `KILLED`. -/
def killedCase : UpdaterCase :=
  { runtime := testRuntime .PENDING .SUCCEEDED, partiallyCreated := false, instanceCount := 100,
    stateCounts := [(TaskState.FAILED, 25), (TaskState.KILLED, 50), (TaskState.SUCCEEDED, 25)],
    firstTaskUpdateTime := 1483369445, lastTaskUpdateTime := 1483466645,
    expected := some .KILLED }

/-- The case "Simulate INITIALIZED job" of `TestJobUpdateJobRuntime`: the job
is `INITIALIZED` and partially created, 50 of its 100 instances are
`SUCCEEDED`, and the test expects the state `INITIALIZED`. -/
def initializedCase : UpdaterCase :=
  { runtime := testRuntime .INITIALIZED .SUCCEEDED, partiallyCreated := true,
    instanceCount := 100, stateCounts := [(TaskState.SUCCEEDED, 50)],
    firstTaskUpdateTime := 1483369445, lastTaskUpdateTime := 0, expected := some .INITIALIZED }

/-- The case "Simulate SUCCEEDED job with correct task stats in runtime but
incorrect state" of `TestJobUpdateJobRuntime`. -/
def staleStateCase : UpdaterCase :=
  { runtime := { testRuntime .RUNNING .SUCCEEDED with TaskStats := [(TaskState.SUCCEEDED, 100)] },
    partiallyCreated := false, instanceCount := 100,
    stateCounts := [(TaskState.SUCCEEDED, 100)],
    firstTaskUpdateTime := 1483369445, lastTaskUpdateTime := 1483466645,
    expected := some .SUCCEEDED }

/-- The case "Simulate killed job with no tasks created" of
`TestJobUpdateJobRuntime`: the job is `KILLED`, no task is counted, and the
test expects no write. -/
def noTasksCase : UpdaterCase :=
  { runtime := testRuntime .KILLED .KILLED, partiallyCreated := false, instanceCount := 100,
    stateCounts := [], firstTaskUpdateTime := 0, lastTaskUpdateTime := 0, expected := none }

/-- The cases of the two tests that say which state is written. -/
def testCases : List UpdaterCase :=
  [killedNeverRan, runningCase, succeededCase, pendingCase, failedCase, killingCase, killedCase,
   initializedCase, staleStateCase, noTasksCase]

/-- The runtime that the model of the updater writes in a case of the tests;
what counts as started is that a task is `RUNNING`, and a time is rendered as
its number of seconds. -/
def UpdaterCase.written (c : UpdaterCase) : JobRuntimeInfo :=
  JobRuntimeUpdater (fun stats => anyTask stats (fun s => decide (s = TaskState.RUNNING)))
    (fun t => "@" ++ toString t) 1483500000 c.partiallyCreated c.instanceCount c.runtime
    c.stateCounts c.firstTaskUpdateTime c.lastTaskUpdateTime

/-- The job state that the model of the updater writes in a case of the
tests, `none` when it writes nothing. -/
def UpdaterCase.outcome (c : UpdaterCase) : Option JobState :=
  if skipsUpdate c.runtime c.stateCounts then none else some c.written.State

end goalstate

/-! ## `jobmgr/goalstate`: the retry of a terminated task

Only the tests of the action are among the sources
(`task_terminated_retry_test.go`); the action is modelled from the
specification. -/

namespace goalstate

/-- The mesos task id of a run, "encoded as `mesos_task_id =
job_id-instance-run`", kept as its three parts. -/
structure MesosTaskID where
  JobId : String
  InstanceId : Nat
  RunId : Nat
  deriving DecidableEq, Repr

/-- The `pbtask.RuntimeInfo` message of the job manager, with the fields the
tests of the action read or write. -/
structure TaskRuntime where
  State : TaskState
  MesosTaskId : MesosTaskID
  PrevMesosTaskId : Option MesosTaskID
  FailureCount : Nat
  deriving DecidableEq, Repr

/-- What the action loads besides the runtime of the task: whether the job has
an active update, whether the task is in the progress set of that update, the
`max_instance_attempts` of the update, and the `max_failures` of the restart
policy (`none` without restart policy). -/
structure RetryContext where
  activeUpdate : Bool
  inUpdateProgress : Bool
  MaxInstanceAttempts : Nat
  MaxFailures : Option Nat
  deriving DecidableEq, Repr

/-- What the action does: the runtime that it writes (`none` when it writes
none), whether it enqueues the task, and whether it marks the instance failed
in the update. -/
structure RetryResult where
  written : Option TaskRuntime
  enqueued : Bool
  markedFailed : Bool
  deriving DecidableEq, Repr

/-- Modelled from the spec: whether a terminated task is retried
(`task_terminated_retry.go` is not among the sources). "If job has no active
update, consult `restart_policy.max_failures`; if `failure_count ≥
max_failures` do not retry. If job has active update and task is in update's
progress set, consult `update.max_instance_attempts`; if `failure_count ≥
max_instance_attempts` mark instance failed in update (do not retry)." -/
def shouldRetry (ctx : RetryContext) (runtime : TaskRuntime) : Bool :=
  if ctx.activeUpdate then
    if ctx.inUpdateProgress then decide (runtime.FailureCount < ctx.MaxInstanceAttempts)
    else true
  else
    match ctx.MaxFailures with
    | some maxFailures => decide (runtime.FailureCount < maxFailures)
    | none => true

/-- Modelled from the spec: `TaskTerminatedRetry`, run for a task that is
`FAILED` or `LOST`. When the task is retried: "generate new `run_id`, set
`prev_mesos_task_id`, transition to `INITIALIZED`, enqueue task"; the new run
is the next one of the instance. -/
def TaskTerminatedRetry (ctx : RetryContext) (runtime : TaskRuntime) : RetryResult :=
  if shouldRetry ctx runtime then
    { written := some (
        { runtime with
          MesosTaskId := { runtime.MesosTaskId with RunId := runtime.MesosTaskId.RunId + 1 }
          PrevMesosTaskId := some runtime.MesosTaskId
          State := TaskState.INITIALIZED }),
      enqueued := true, markedFailed := false }
  else
    { written := none, enqueued := false,
      markedFailed := ctx.activeUpdate && ctx.inUpdateProgress }

/-- The runtime of the task in the tests of the action: run 1 of instance 0,
`FAILED`, with the given failure count. -/
def failedRuntime (failureCount : Nat) : TaskRuntime :=
  { State := TaskState.FAILED, MesosTaskId := { JobId := "job1", InstanceId := 0, RunId := 1 },
    PrevMesosTaskId := none, FailureCount := failureCount }

/-- The context of the tests `TestTaskTerminatedRetryNoFailure` and
`TestTaskTooManyFailuresNoRetry`: the update is rolling forward, the task is
in its progress set, and `MaxInstanceAttempts` is 3. -/
def rollingForward : RetryContext :=
  { activeUpdate := true, inUpdateProgress := true, MaxInstanceAttempts := 3, MaxFailures := none }

end goalstate

/-! ## `resmgr/respool`: admission against the entitlement

Only the tests of the resource pool are among the sources (`respool_test.go`);
the pool is modelled from the specification, over the `PriorityQueue` of the
sources. -/

namespace respool

/-- Modelled from the spec: `Resources.LessThanOrEqual` of `resmgr/scalar`,
"less-than-or-equal (all dimensions)". -/
def LessThanOrEqual (a b : Resources) : Bool :=
  decide (a.CPU ≤ b.CPU) && decide (a.MEMORY ≤ b.MEMORY) && decide (a.DISK ≤ b.DISK) &&
    decide (a.GPU ≤ b.GPU)

/-- The resources of a gang: the sum of the resources of its tasks. -/
def gangResources (gang : List Task) : Resources :=
  gang.foldr (fun t total => t.Resource.Add total) ZeroResource

/-- The resources of a list of gangs. -/
def usedBy (gangs : List (List Task)) : Resources :=
  gangs.foldr (fun gang total => (gangResources gang).Add total) ZeroResource

/-- Modelled from the spec: a leaf resource pool (`respool.go` is not among
the sources), with its pending queue, its entitlement and its allocation. -/
structure resPool where
  pendingQueue : PriorityQueue
  entitlement : Resources
  allocation : Resources

/-- Modelled from the spec: `SetEntitlement`. -/
def resPool.SetEntitlement (n : resPool) (entitlement : Resources) : resPool :=
  { n with entitlement := entitlement }

/-- Modelled from the spec: `EnqueueGang`, which puts the gang on the pending
queue of the pool. -/
def resPool.EnqueueGang (n : resPool) (gang : List Task) : resPool × Option String :=
  match n.pendingQueue.Enqueue gang with
  | (queue, err) => ({ n with pendingQueue := queue }, err)

/-- Modelled from the spec: "a gang is admissible at its leaf when the pool's
`allocation + gang_resources ≤ entitlement` on every dimension". -/
def resPool.admissible (n : resPool) (gang : List Task) : Bool :=
  LessThanOrEqual (n.allocation.Add (gangResources gang)) n.entitlement

/-- Modelled from the spec: the loop of `DequeueGangList`, which takes gangs
from the head of the pending queue ("highest priority first, FIFO within")
while they are admissible, at most `limit` of them, and adds the resources of
each to the allocation (the test `TestUsage` reads them there). The state of
the loop is the pool and the gangs taken so far; the retry loops of the queue
need no fuel (`Dequeue_eq`). -/
def resPool.dequeueGangs : Nat → resPool → List (List Task) → resPool × List (List Task)
  | 0, n, gangs => (n, gangs)
  | limit + 1, n, gangs =>
    match n.pendingQueue.Peek 0 with
    | some (.ok gang) =>
      if n.admissible gang then
        match n.pendingQueue.Dequeue 0 with
        | some (.ok _, queue) =>
          resPool.dequeueGangs limit
            { n with pendingQueue := queue, allocation := n.allocation.Add (gangResources gang) }
            (gangs ++ [gang])
        | _ => (n, gangs)
      else (n, gangs)
    | _ => (n, gangs)

/-- Modelled from the spec: `DequeueGangList(limit)`, which "returns up to
`limit` admissible gangs"; it fails for a limit that is not positive (the test
`TestResPoolDequeueError`) and when it can take no gang (the test
`TestResPoolTaskCanBeDequeued`), leaving the pool as it was. -/
def resPool.DequeueGangList (n : resPool) (limit : Int) :
    resPool × Except String (List (List Task)) :=
  if limit ≤ 0 then (n, .error ("limit " ++ toString limit ++ " is not valid"))
  else
    match resPool.dequeueGangs limit.toNat n [] with
    | (_, []) => (n, .error "no gang of the pending queue can be admitted")
    | (n', gang :: gangs) => (n', .ok (gang :: gangs))

/-- A task of the tests of the pool: the given id, priority and cpu, with 100
of memory and 10 of disk. -/
def poolTask (id : String) (priority cpu : Nat) : Task :=
  { Id := id, TaskId := id ++ "-1", JobId := "job", Priority := priority,
    Type_ := TaskType.BATCH, Hostname := "",
    Resource := { CPU := cpu, MEMORY := 100, DISK := 10, GPU := 0 } }

/-- The entitlement of the tests (`getEntitlement`). -/
def testEntitlement : Resources := { CPU := 100, MEMORY := 1000, DISK := 100, GPU := 2 }

/-- A pool with the entitlement of the tests, nothing allocated, and the
given gangs enqueued in turn on a queue of limit 100. -/
def poolOf (gangs : List (List Task)) : resPool :=
  gangs.foldl (fun n gang => (n.EnqueueGang gang).1)
    { pendingQueue := NewPriorityQueue 100, entitlement := testEntitlement,
      allocation := ZeroResource }

/-- The pool of the test `TestResPoolTaskCanBeDequeued` at the point where
the big task has been enqueued: the two tasks of priority 2 have been
dequeued, the tasks of priority 0 and 1 are pending, and so is the big task of
priority 3, which asks for 200 of cpu. -/
def bigTaskPool : resPool :=
  ((((((poolOf [[poolTask "job1-1" 0 1], [poolTask "job1-2" 1 1], [poolTask "job2-1" 2 1],
      [poolTask "job2-2" 2 1]]).DequeueGangList 1).1).DequeueGangList 1).1).EnqueueGang
    [poolTask "job3-1" 3 200]).1

end respool

/-! ## The preemptor over several cycles -/

/-- A call on the preemptor in the course of its life: a cycle of
`updateResourcePoolsState`, run on the leaves of the tree and on the pool
objects as they are at that time, or a call of `processResourcePool`. -/
inductive PreemptorEvent (ρ : Type) where
  | cycle (leafNodes : List Nat) (resPools : Nat → ρ)
  | process (respoolID : String)

/-- Whether the event is a cycle. -/
def PreemptorEvent.isCycle {ρ : Type} : PreemptorEvent ρ → Bool
  | .cycle _ _ => true
  | .process _ => false

/-- The preemptor after one event. -/
def preemptor.step {σ ρ μ θ : Type} (env : Env σ ρ μ) (penv : PreemptorEnv ρ θ)
    (p : preemptor ρ θ) : PreemptorEvent ρ → preemptor ρ θ
  | .cycle leafNodes resPools =>
    ({ p with leafNodes := leafNodes, resPools := resPools }).updateResourcePoolsState penv
  | .process respoolID => (p.processResourcePool env penv respoolID).1

/-- The preemptor after the events, in their order. -/
def preemptor.run {σ ρ μ θ : Type} (env : Env σ ρ μ) (penv : PreemptorEnv ρ θ)
    (p : preemptor ρ θ) (events : List (PreemptorEvent ρ)) : preemptor ρ θ :=
  events.foldl (preemptor.step env penv) p

/-- Whether the pool `id` is a leaf in the event, when the event is a cycle:
exactly one of the leaves has that id. -/
def leafIn {ρ θ : Type} (penv : PreemptorEnv ρ θ) (id : String) : PreemptorEvent ρ → Bool
  | .cycle leafNodes resPools =>
    decide ((leafNodes.map (fun n => penv.ID (resPools n))).count id = 1)
  | .process _ => true

/-- Whether a leaf with the id `id` has its allocation above its entitlement
on some dimension. -/
def overAllocatedIn {ρ θ : Type} (penv : PreemptorEnv ρ θ) (id : String)
    (leafNodes : List Nat) (resPools : Nat → ρ) : Bool :=
  leafNodes.any (fun n =>
    decide (penv.ID (resPools n) = id) &&
      exceeds (penv.GetAllocation (resPools n)) (penv.GetEntitlement (resPools n)))

/-- Whether the tree holds the pool id. -/
def found (resTree : String → Except String Nat) (respoolID : String) : Bool :=
  match resTree respoolID with
  | .ok _ => true
  | .error _ => false

/-- Whether the event leaves a run of over-allocated cycles of the pool `id`
unbroken: a cycle does when the pool is over-allocated in it, and a call of
`processResourcePool` does unless it is for that pool and finds it in the
tree. -/
def continuesStreak {ρ θ : Type} (penv : PreemptorEnv ρ θ)
    (resTree : String → Except String Nat) (id : String) : PreemptorEvent ρ → Bool
  | .cycle leafNodes resPools => overAllocatedIn penv id leafNodes resPools
  | .process respoolID => !(decide (respoolID = id) && found resTree respoolID)

/-- The number of the last consecutive cycles in which the pool `id` was
over-allocated, counted since it was last found not over-allocated or was last
processed. -/
def streak {ρ θ : Type} (penv : PreemptorEnv ρ θ) (resTree : String → Except String Nat)
    (id : String) (events : List (PreemptorEvent ρ)) : Nat :=
  ((events.reverse.takeWhile (continuesStreak penv resTree id)).filter
    PreemptorEvent.isCycle).length

/-- A cycle in which the single leaf `respool1` is over-allocated. -/
def overCycle : PreemptorEvent SamplePool := .cycle [0] (fun _ => overPool)

/-- A cycle in which the single leaf `respool1` has nothing allocated. -/
def calmCycle : PreemptorEvent SamplePool := .cycle [0] (fun _ => emptyPool)

/-- A new preemptor with threshold 2 over the sample handler. -/
def newPreemptor : preemptor SamplePool (List Task) :=
  samplePreemptor 2 (sampleHandler roomyQueue)

/-! ## Properties of the priority queue -/

theorem highestOf_ge_acc {α : Type} (l : List (Int × α)) (acc : Int) : acc ≤ highestOf l acc := by
  induction l generalizing acc with
  | nil => simp [highestOf]
  | cons e rest ih =>
    obtain ⟨lvl, x⟩ := e
    simp only [highestOf]
    split
    · exact le_trans (le_of_lt ‹acc < lvl›) (ih lvl)
    · exact ih acc

theorem highestOf_ge_mem {α : Type} (l : List (Int × α)) (acc : Int) :
    ∀ e ∈ l, e.1 ≤ highestOf l acc := by
  induction l generalizing acc with
  | nil => simp
  | cons e rest ih =>
    obtain ⟨lvl, x⟩ := e
    intro e' he'
    simp only [highestOf]
    rcases List.mem_cons.mp he' with h | h
    · subst h
      split
      · exact highestOf_ge_acc rest lvl
      · exact le_trans (not_lt.mp ‹¬ acc < lvl›) (highestOf_ge_acc rest acc)
    · exact ih _ e' h

theorem highestOf_mem {α : Type} (l : List (Int × α)) (acc : Int) :
    highestOf l acc = acc ∨ ∃ e ∈ l, e.1 = highestOf l acc := by
  induction l generalizing acc with
  | nil => simp [highestOf]
  | cons e rest ih =>
    obtain ⟨lvl, x⟩ := e
    simp only [highestOf]
    split
    · rcases ih lvl with h | ⟨e', he', h⟩
      · exact Or.inr ⟨(lvl, x), by simp, h.symm⟩
      · exact Or.inr ⟨e', by simp [he'], h⟩
    · rcases ih acc with h | ⟨e', he', h⟩
      · exact Or.inl h
      · exact Or.inr ⟨e', by simp [he'], h⟩

/-- The highest level of a container that holds something is the level of one
of its entries and bounds the level of every entry. -/
theorem GetHighestLevel_spec {α : Type} (l : MultiLevelList α) (hne : l.items ≠ []) :
    (∃ e ∈ l.items, e.1 = l.GetHighestLevel) ∧ ∀ e ∈ l.items, e.1 ≤ l.GetHighestLevel := by
  obtain ⟨items⟩ := l
  cases items with
  | nil => exact absurd rfl hne
  | cons e rest =>
    obtain ⟨lvl, x⟩ := e
    simp only [MultiLevelList.GetHighestLevel]
    refine ⟨?_, ?_⟩
    · rcases highestOf_mem rest lvl with h | ⟨e', he', h⟩
      · exact ⟨(lvl, x), by simp, h.symm⟩
      · exact ⟨e', by simp [he'], h⟩
    · intro e' he'
      rcases List.mem_cons.mp he' with h | h
      · subst h
        exact highestOf_ge_acc rest lvl
      · exact highestOf_ge_mem rest lvl e' h

/-- What `popLevel` removes: the first entry stored at the level. -/
theorem popLevel_some {α : Type} (l : List (Int × α)) (level : Int) (x : α)
    (rest : List (Int × α)) (h : popLevel l level = some (x, rest)) :
    ∃ pre post, l = pre ++ (level, x) :: post ∧ rest = pre ++ post ∧
      ∀ e ∈ pre, e.1 ≠ level := by
  induction l generalizing x rest with
  | nil => simp [popLevel] at h
  | cons e l ih =>
    obtain ⟨lvl, y⟩ := e
    simp only [popLevel] at h
    by_cases hl : lvl = level
    · simp only [hl, if_true, Option.some.injEq, Prod.mk.injEq] at h
      obtain ⟨rfl, rfl⟩ := h
      exact ⟨[], l, by simp [hl], by simp, by simp⟩
    · simp only [hl, if_false] at h
      cases hp : popLevel l level with
      | none => simp [hp] at h
      | some r =>
        obtain ⟨z, rest'⟩ := r
        simp only [hp, Option.some.injEq, Prod.mk.injEq] at h
        obtain ⟨rfl, rfl⟩ := h
        obtain ⟨pre, post, h1, h2, h3⟩ := ih z rest' hp
        refine ⟨(lvl, y) :: pre, post, by simp [h1], by simp [h2], ?_⟩
        intro e he
        rcases List.mem_cons.mp he with h | h
        · subst h; exact hl
        · exact h3 e h

/-- When `popLevel` fails: no entry is stored at the level. -/
theorem popLevel_none {α : Type} (l : List (Int × α)) (level : Int)
    (h : popLevel l level = none) : ∀ e ∈ l, e.1 ≠ level := by
  induction l with
  | nil => simp
  | cons e l ih =>
    obtain ⟨lvl, y⟩ := e
    simp only [popLevel] at h
    by_cases hl : lvl = level
    · simp [hl] at h
    · simp only [hl, if_false] at h
      cases hp : popLevel l level with
      | none =>
        intro e he
        rcases List.mem_cons.mp he with h' | h'
        · subst h'; exact hl
        · exact ih hp e h'
      | some r => simp [hp] at h

/-- The retry loop of `Dequeue` ends at once, with the error it was given, when
the level that was tried is still the highest one. -/
theorem dequeueRetry_same (fuel : Nat) (l : MultiLevelList (List Task)) (err : String) :
    dequeueRetry fuel l l.GetHighestLevel err = some (.error err, l) := by
  unfold dequeueRetry
  simp

/-- The outcome of `Dequeue` in closed form, for every amount of fuel: the
first gang of the highest level is removed, or the queue is left as it was. -/
theorem Dequeue_eq (fuel : Nat) (f : PriorityQueue) :
    f.Dequeue fuel =
      match popLevel f.list.items f.list.GetHighestLevel with
      | some (x, rest) => some (.ok x, { f with list := { items := rest }, count := f.count - 1 })
      | none => some (.error "No items found in queue for given priority", f) := by
  unfold PriorityQueue.Dequeue MultiLevelList.Pop
  cases hp : popLevel f.list.items f.list.GetHighestLevel with
  | none => simp only [hp, dequeueRetry_same]
  | some r => obtain ⟨x, rest⟩ := r; simp only [hp]

theorem LevelsOk_step (fuel : Nat) (r : QueueRun) (c : QueueCall)
    (h : LevelsOk r.queue.list.items) : LevelsOk (r.step fuel c).queue.list.items := by
  cases c with
  | enqueue tlist =>
    simp only [QueueRun.step, PriorityQueue.Enqueue]
    by_cases hc : r.queue.count ≥ r.queue.limit
    · simpa [hc] using h
    · cases tlist with
      | nil => simpa [hc] using h
      | cons t ts =>
        simp only [hc, if_false, MultiLevelList.Push]
        intro e he
        rcases List.mem_append.mp he with h' | h'
        · exact h e h'
        · simp only [List.mem_singleton] at h'
          subst h'
          exact ⟨by simp, rfl⟩
  | dequeue =>
    simp only [QueueRun.step, Dequeue_eq]
    cases hp : popLevel r.queue.list.items r.queue.list.GetHighestLevel with
    | none => simpa using h
    | some v =>
      obtain ⟨x, rest⟩ := v
      obtain ⟨pre, post, h1, h2, -⟩ := popLevel_some _ _ _ _ hp
      simp only
      intro e he
      apply h e
      rw [h1]
      rw [h2] at he
      rcases List.mem_append.mp he with h' | h'
      · exact List.mem_append.mpr (Or.inl h')
      · exact List.mem_append.mpr (Or.inr (List.mem_cons_of_mem _ h'))

theorem LevelsOk_foldl (fuel : Nat) (calls : List QueueCall) (r : QueueRun)
    (h : LevelsOk r.queue.list.items) :
    LevelsOk (calls.foldl (QueueRun.step fuel) r).queue.list.items := by
  induction calls generalizing r with
  | nil => exact h
  | cons c cs ih => exact ih _ (LevelsOk_step fuel r c h)

theorem LevelsOk_run (fuel : Nat) (limit : Int) (calls : List QueueCall) :
    LevelsOk (QueueRun.run fuel limit calls).queue.list.items := by
  apply LevelsOk_foldl
  intro e he
  simp [NewPriorityQueue, NewMultiLevelList] at he

/-- C1 (priority dominance of `Dequeue`). On every queue reached from a new
queue by `Enqueue` and `Dequeue` calls that holds at least one gang, `Dequeue`
returns, for every amount of fuel, a gang (with a first task) whose priority
is at least the priority of every gang the queue holds afterwards. -/
theorem Dequeue_priority_dominance (fuel fuel' : Nat) (limit : Int) (calls : List QueueCall)
    (hne : (QueueRun.run fuel limit calls).queue.gangs ≠ []) :
    ∃ item f', (QueueRun.run fuel limit calls).queue.Dequeue fuel' = some (.ok item, f') ∧
      item ≠ [] ∧ ∀ g ∈ f'.gangs, gangPriority g ≤ gangPriority item := by
  have hok := LevelsOk_run fuel limit calls
  generalize (QueueRun.run fuel limit calls).queue = f at hne hok
  have hne' : f.list.items ≠ [] := by
    intro h0
    exact hne (by simp [PriorityQueue.gangs, h0])
  obtain ⟨⟨e, he, hlvl⟩, hmax⟩ := GetHighestLevel_spec f.list hne'
  rw [Dequeue_eq]
  cases hp : popLevel f.list.items f.list.GetHighestLevel with
  | none => exact absurd hlvl (popLevel_none _ _ hp e he)
  | some v =>
    obtain ⟨x, rest⟩ := v
    obtain ⟨pre, post, h1, h2, -⟩ := popLevel_some _ _ _ _ hp
    have hx : ((f.list.GetHighestLevel, x) : Int × List Task) ∈ f.list.items := by
      rw [h1]; simp
    obtain ⟨hxne, hxlvl⟩ := hok _ hx
    refine ⟨x, _, rfl, hxne, ?_⟩
    intro g hg
    simp only [PriorityQueue.gangs, List.mem_map] at hg
    obtain ⟨e', he', rfl⟩ := hg
    have he'' : e' ∈ f.list.items := by
      rw [h1]
      rw [h2] at he'
      rcases List.mem_append.mp he' with h' | h'
      · exact List.mem_append.mpr (Or.inl h')
      · exact List.mem_append.mpr (Or.inr (List.mem_cons_of_mem _ h'))
    have := hmax e' he''
    rw [(hok e' he'').2] at this
    simp only at hxlvl
    rw [hxlvl] at this
    exact this

/-- C1, at a queue that holds two gangs of priority 1 and one of priority 3. -/
theorem Dequeue_priority_dominance_witness :
    (QueueRun.run 0 10 sampleCalls).queue.gangs ≠ [] ∧
    ∃ item f', (QueueRun.run 0 10 sampleCalls).queue.Dequeue 0 = some (.ok item, f') ∧
      item ≠ [] ∧ ∀ g ∈ f'.gangs, gangPriority g ≤ gangPriority item :=
  ⟨by decide, Dequeue_priority_dominance 0 0 10 sampleCalls (by decide)⟩

theorem atPriority_append (p : Int) (a b : List (List Task)) :
    atPriority p (a ++ b) = atPriority p a ++ atPriority p b := by
  simp [atPriority]

/-- The bookkeeping of a run: at every priority, the accepted gangs are the
dequeued ones followed by the ones still held. -/
theorem fifo_step (fuel : Nat) (r : QueueRun) (c : QueueCall)
    (hok : LevelsOk r.queue.list.items)
    (h : ∀ p, atPriority p r.accepted = atPriority p r.dequeued ++ atPriority p r.queue.gangs) :
    ∀ p, atPriority p (r.step fuel c).accepted =
      atPriority p (r.step fuel c).dequeued ++ atPriority p (r.step fuel c).queue.gangs := by
  intro p
  cases c with
  | enqueue tlist =>
    simp only [QueueRun.step, PriorityQueue.Enqueue]
    by_cases hc : r.queue.count ≥ r.queue.limit
    · simpa [hc] using h p
    · cases tlist with
      | nil => simpa [hc] using h p
      | cons t ts =>
        simp only [hc, if_false, MultiLevelList.Push, PriorityQueue.gangs, List.map_append,
          atPriority_append, List.map_cons, List.map_nil]
        rw [h p, PriorityQueue.gangs, List.append_assoc]
  | dequeue =>
    simp only [QueueRun.step, Dequeue_eq]
    cases hp : popLevel r.queue.list.items r.queue.list.GetHighestLevel with
    | none => simpa using h p
    | some v =>
      obtain ⟨x, rest⟩ := v
      obtain ⟨pre, post, h1, h2, h3⟩ := popLevel_some _ _ _ _ hp
      simp only [atPriority_append]
      have hx : ((r.queue.list.GetHighestLevel, x) : Int × List Task) ∈ r.queue.list.items := by
        rw [h1]; simp
      have hxlvl := (hok _ hx).2
      simp only at hxlvl
      have hgs : r.queue.gangs = pre.map Prod.snd ++ x :: post.map Prod.snd := by
        simp [PriorityQueue.gangs, h1]
      have hgs' : PriorityQueue.gangs
          { r.queue with list := { items := rest }, count := r.queue.count - 1 } =
          pre.map Prod.snd ++ post.map Prod.snd := by
        simp [PriorityQueue.gangs, h2]
      rw [hgs', h p, hgs]
      simp only [atPriority_append]
      by_cases hpx : gangPriority x = p
      · have hpre : atPriority p (pre.map Prod.snd) = [] := by
          simp only [atPriority, List.filter_eq_nil_iff, List.mem_map, decide_eq_true_eq]
          rintro g ⟨e, he, rfl⟩ hg
          have hmem : e ∈ r.queue.list.items := by rw [h1]; exact List.mem_append.mpr (Or.inl he)
          have := (hok e hmem).2
          apply h3 e he
          rw [this, hg, hxlvl, hpx]
        have hxs : atPriority p (x :: post.map Prod.snd) = x :: atPriority p (post.map Prod.snd) := by
          simp [atPriority, hpx]
        have hx1 : atPriority p [x] = [x] := by simp [atPriority, hpx]
        rw [hpre, hxs, hx1]
        simp
      · have hxs : atPriority p (x :: post.map Prod.snd) = atPriority p (post.map Prod.snd) := by
          simp [atPriority, hpx]
        have hx1 : atPriority p [x] = [] := by simp [atPriority, hpx]
        rw [hxs, hx1]
        simp

theorem fifo_foldl (fuel : Nat) (calls : List QueueCall) (r : QueueRun)
    (hok : LevelsOk r.queue.list.items)
    (h : ∀ p, atPriority p r.accepted = atPriority p r.dequeued ++ atPriority p r.queue.gangs) :
    ∀ p, atPriority p (calls.foldl (QueueRun.step fuel) r).accepted =
      atPriority p (calls.foldl (QueueRun.step fuel) r).dequeued ++
        atPriority p (calls.foldl (QueueRun.step fuel) r).queue.gangs := by
  induction calls generalizing r with
  | nil => exact h
  | cons c cs ih => exact ih _ (LevelsOk_step fuel r c hok) (fifo_step fuel r c hok h)

/-- C2 (FIFO within a priority level). After any calls of `Enqueue` and
`Dequeue` on a new queue, for every priority `p` the gangs of priority `p`
that `Dequeue` has returned, in the order in which it returned them, followed
by the gangs of priority `p` still held, are the gangs of priority `p` that
`Enqueue` accepted, in the order in which it accepted them: of two accepted
gangs of one priority the earlier one is returned first. -/
theorem Dequeue_fifo_within_priority (fuel : Nat) (limit : Int) (calls : List QueueCall)
    (p : Int) :
    atPriority p (QueueRun.run fuel limit calls).accepted =
      atPriority p (QueueRun.run fuel limit calls).dequeued ++
        atPriority p (QueueRun.run fuel limit calls).queue.gangs := by
  apply fifo_foldl
  · intro e he
    simp [NewPriorityQueue, NewMultiLevelList] at he
  · intro p
    simp [atPriority, PriorityQueue.gangs, NewPriorityQueue, NewMultiLevelList]

/-! ## Properties of the service handler -/

theorem modify_rmTasks_self (tr : tracker) (ref : Nat) (f : RMTask → RMTask) :
    (tr.modify ref f).rmTasks ref = f (tr.rmTasks ref) := by
  simp [tracker.modify]

theorem modify_GetTask (tr : tracker) (ref : Nat) (f : RMTask → RMTask) (t : String) :
    (tr.modify ref f).GetTask t = tr.GetTask t := rfl

/-- C3, as amended (requeue with a new run supersedes). For a tracked task
whose mesos task id differs from the requeued one and whose state is
`LAUNCHING` or `RUNNING`, after `requeueTask` the tracked task carries the new
mesos task id and is in state `READY`, and the scheduler's `EnqueueGang` has
been called on a gang of exactly that tracked task: the scheduler is as that
call left it, and `requeueTask` returns the scheduler's error when the call
failed and `errEnqueuedAgain` when the gang was enqueued. -/
theorem requeueTask_supersedes {σ ρ μ : Type} (env : Env σ ρ μ) (h : ServiceHandler σ ρ)
    (requeuedTask : Task) (rmTask : Nat)
    (htracked : h.rmTracker.GetTask requeuedTask.Id = some rmTask)
    (hid : requeuedTask.TaskId ≠ (h.rmTracker.rmTasks rmTask).task.TaskId)
    (hstate : (h.rmTracker.rmTasks rmTask).state = TaskState.LAUNCHING ∨
      (h.rmTracker.rmTasks rmTask).state = TaskState.RUNNING) :
    (h.requeueTask env requeuedTask).1.rmTracker.GetTask requeuedTask.Id = some rmTask ∧
    ((h.requeueTask env requeuedTask).1.rmTracker.rmTasks rmTask).task =
      { (h.rmTracker.rmTasks rmTask).task with TaskId := requeuedTask.TaskId } ∧
    ((h.requeueTask env requeuedTask).1.rmTracker.rmTasks rmTask).state = TaskState.READY ∧
    (h.requeueTask env requeuedTask).1.scheduler =
      (env.SchedulerEnqueueGang h.scheduler
        { Tasks := [((h.requeueTask env requeuedTask).1.rmTracker.rmTasks rmTask).task] }).1 ∧
    (h.requeueTask env requeuedTask).2 =
      (match (env.SchedulerEnqueueGang h.scheduler
        { Tasks := [((h.requeueTask env requeuedTask).1.rmTracker.rmTasks rmTask).task] }).2 with
      | some err => some err
      | none => some errEnqueuedAgain) := by
  have hallowed : transitionAllowed (h.rmTracker.rmTasks rmTask).state TaskState.READY = true := by
    rcases hstate with hs | hs <;> rw [hs] <;> rfl
  have hobj : ((h.rmTracker.modify rmTask
      (fun o => { o with task := { o.task with TaskId := requeuedTask.TaskId } })).modify rmTask
      (fun o => (o.TransitTo TaskState.READY).1)).rmTasks rmTask =
      { task := { (h.rmTracker.rmTasks rmTask).task with TaskId := requeuedTask.TaskId },
        state := TaskState.READY, respool := (h.rmTracker.rmTasks rmTask).respool } := by
    simp [tracker.modify, RMTask.TransitTo, hallowed]
  unfold ServiceHandler.requeueTask
  simp only [htracked, hid, if_false, hstate, if_true, List.nil_append, hobj]
  cases henq : env.SchedulerEnqueueGang h.scheduler
      { Tasks := [{ (h.rmTracker.rmTasks rmTask).task with TaskId := requeuedTask.TaskId }] } with
  | mk sched err =>
    simp only at henq
    cases err with
    | none => simp [modify_GetTask, htracked, hobj, henq]
    | some e => simp [modify_GetTask, htracked, hobj, henq]

/-- C3, as amended, at a handler that tracks `job1-0` with run 1 in state
`RUNNING` and is asked to requeue it with run 2. -/
theorem requeueTask_supersedes_witness :
    ((trackingHandler roomyQueue TaskState.RUNNING).requeueTask sampleEnv
        (mkTask "job1-0" "job1-0-2" 1)).1.rmTracker.GetTask "job1-0" = some 0 ∧
    (((trackingHandler roomyQueue TaskState.RUNNING).requeueTask sampleEnv
        (mkTask "job1-0" "job1-0-2" 1)).1.rmTracker.rmTasks 0).state = TaskState.READY :=
  have key := requeueTask_supersedes sampleEnv (trackingHandler roomyQueue TaskState.RUNNING)
    (mkTask "job1-0" "job1-0-2" 1) 0 (by decide) (by decide) (by decide)
  ⟨key.1, key.2.2.1⟩

/-- C3 as stated fails when the scheduler refuses the gang. The handler tracks
`job1-0` with run 1 in state `RUNNING` and the ready queue is full; after
`requeueTask` with run 2 the tracked task carries run 2 and is `READY`, yet the
ready queue holds what it held before, not the gang of `job1-0`, and
`requeueTask` returns the scheduler's error. -/
theorem requeueTask_supersedes_counterexample :
    (trackingHandler fullQueue TaskState.RUNNING).rmTracker.GetTask "job1-0" = some 0 ∧
    ((trackingHandler fullQueue TaskState.RUNNING).rmTracker.rmTasks 0).task.TaskId = "job1-0-1" ∧
    ((trackingHandler fullQueue TaskState.RUNNING).rmTracker.rmTasks 0).state = TaskState.RUNNING ∧
    (((trackingHandler fullQueue TaskState.RUNNING).requeueTask sampleEnv
      (mkTask "job1-0" "job1-0-2" 1)).1.rmTracker.rmTasks 0).task.TaskId = "job1-0-2" ∧
    (((trackingHandler fullQueue TaskState.RUNNING).requeueTask sampleEnv
      (mkTask "job1-0" "job1-0-2" 1)).1.rmTracker.rmTasks 0).state = TaskState.READY ∧
    ((trackingHandler fullQueue TaskState.RUNNING).requeueTask sampleEnv
      (mkTask "job1-0" "job1-0-2" 1)).1.scheduler.gangs =
        [{ Tasks := [mkTask "job1-9" "job1-9-1" 1] }] ∧
    ((trackingHandler fullQueue TaskState.RUNNING).requeueTask sampleEnv
      (mkTask "job1-0" "job1-0-2" 1)).2 = some "queue is full" := by
  decide

/-- C4 (requeue rejection). When every tracked task of the requeued id has
the requeued mesos task id, or has another one and is neither `LAUNCHING` nor
`RUNNING`, `requeueTask` leaves the whole handler as it was (the tracked task,
its mesos task id and state, and the ready queue included) and returns
`errSameTaskPresent` if the task is tracked and no error if it is not. -/
theorem requeueTask_rejects {σ ρ μ : Type} (env : Env σ ρ μ) (h : ServiceHandler σ ρ)
    (requeuedTask : Task)
    (hrej : ∀ rmTask, h.rmTracker.GetTask requeuedTask.Id = some rmTask →
      requeuedTask.TaskId = (h.rmTracker.rmTasks rmTask).task.TaskId ∨
      ((h.rmTracker.rmTasks rmTask).state ≠ TaskState.LAUNCHING ∧
        (h.rmTracker.rmTasks rmTask).state ≠ TaskState.RUNNING)) :
    h.requeueTask env requeuedTask =
      (h, (h.rmTracker.GetTask requeuedTask.Id).map (fun _ => errSameTaskPresent)) := by
  unfold ServiceHandler.requeueTask
  cases hget : h.rmTracker.GetTask requeuedTask.Id with
  | none => rfl
  | some rmTask =>
    simp only [Option.map_some']
    by_cases hid : requeuedTask.TaskId = (h.rmTracker.rmTasks rmTask).task.TaskId
    · simp [hid]
    · rcases hrej rmTask hget with h1 | ⟨h1, h2⟩
      · exact absurd h1 hid
      · simp [hid, h1, h2]

/-- C4, at a handler that tracks `job1-0` with run 1 in state `PLACED`: the
same run is rejected, run 2 is rejected, and the untracked `job1-5` passes;
the ready queue is untouched every time. -/
theorem requeueTask_rejects_witness :
    ((trackingHandler roomyQueue TaskState.PLACED).requeueTask sampleEnv
        (mkTask "job1-0" "job1-0-1" 1)).2 = some errSameTaskPresent ∧
    ((trackingHandler roomyQueue TaskState.PLACED).requeueTask sampleEnv
        (mkTask "job1-0" "job1-0-2" 1)).2 = some errSameTaskPresent ∧
    ((trackingHandler roomyQueue TaskState.PLACED).requeueTask sampleEnv
        (mkTask "job1-0" "job1-0-2" 1)).1.scheduler = roomyQueue ∧
    ((trackingHandler roomyQueue TaskState.PLACED).requeueTask sampleEnv
        (mkTask "job1-5" "job1-5-1" 1)).2 = none := by
  have hget : (trackingHandler roomyQueue TaskState.PLACED).rmTracker.GetTask "job1-0" = some 0 := by
    decide
  have h1 := requeueTask_rejects sampleEnv (trackingHandler roomyQueue TaskState.PLACED)
    (mkTask "job1-0" "job1-0-1" 1)
    (fun r hr => by
      have hr0 : r = 0 := (Option.some.inj (hr.symm.trans hget)).symm ▸ rfl
      subst hr0
      exact Or.inl (by decide))
  have h2 := requeueTask_rejects sampleEnv (trackingHandler roomyQueue TaskState.PLACED)
    (mkTask "job1-0" "job1-0-2" 1)
    (fun r hr => by
      have hr0 : r = 0 := (Option.some.inj (hr.symm.trans hget)).symm ▸ rfl
      subst hr0
      exact Or.inr (by decide))
  have h3 := requeueTask_rejects sampleEnv (trackingHandler roomyQueue TaskState.PLACED)
    (mkTask "job1-5" "job1-5-1" 1)
    (fun r hr => by
      have hnone : (trackingHandler roomyQueue TaskState.PLACED).rmTracker.GetTask "job1-5" = none := by
        decide
      exact absurd (hr.symm.trans hnone) (by simp))
  refine ⟨?_, ?_, ?_, ?_⟩
  · rw [h1]; decide
  · rw [h2]; decide
  · rw [h2]; decide
  · rw [h3]; decide

theorem acknowledgeEvent_maxOffset {σ ρ : Type} (h : ServiceHandler σ ρ) (offset : Nat) :
    (h.acknowledgeEvent offset).maxOffset = max h.maxOffset offset := by
  unfold ServiceHandler.acknowledgeEvent
  by_cases hlt : offset > h.maxOffset
  · simp only [hlt, if_true]
    exact (max_eq_right (le_of_lt hlt)).symm
  · simp only [hlt, if_false]
    exact (max_eq_left (not_lt.mp hlt)).symm

/-- Every path through the body of the loop acknowledges the event. -/
theorem notifyEvent_maxOffset {σ ρ μ : Type} (env : Env σ ρ μ) (h : ServiceHandler σ ρ)
    (event : Event μ) :
    (h.notifyEvent env event).maxOffset = max h.maxOffset event.Offset := by
  unfold ServiceHandler.notifyEvent
  simp only
  split
  · exact acknowledgeEvent_maxOffset _ _
  · split
    · exact acknowledgeEvent_maxOffset _ _
    · split
      · exact acknowledgeEvent_maxOffset _ _
      · split
        · exact acknowledgeEvent_maxOffset _ _
        · split
          · exact acknowledgeEvent_maxOffset _ _
          · exact acknowledgeEvent_maxOffset _ _

/-- The largest of `m` and the offsets of the events. -/
theorem foldl_notifyEvent_maxOffset {σ ρ μ : Type} (env : Env σ ρ μ) (events : List (Event μ))
    (h : ServiceHandler σ ρ) :
    (events.foldl (ServiceHandler.notifyEvent env) h).maxOffset =
      events.foldl (fun m e => max m e.Offset) h.maxOffset := by
  induction events generalizing h with
  | nil => rfl
  | cons e es ih => simp only [List.foldl_cons, ih, notifyEvent_maxOffset]

theorem NotifyTaskUpdates_maxOffset {σ ρ μ : Type} (env : Env σ ρ μ) (h : ServiceHandler σ ρ)
    (req : NotifyTaskUpdatesRequest μ) :
    (h.NotifyTaskUpdates env req).1.maxOffset =
      req.Events.foldl (fun m e => max m e.Offset) h.maxOffset := by
  unfold ServiceHandler.NotifyTaskUpdates
  by_cases h0 : req.Events.length = 0
  · have : req.Events = [] := List.length_eq_zero.mp h0
    simp [this]
  · simp only [h0, if_false]
    exact foldl_notifyEvent_maxOffset env req.Events h

theorem foldl_max_ge (offsets : List Nat) (m : Nat) :
    m ≤ offsets.foldl max m ∧ ∀ o ∈ offsets, o ≤ offsets.foldl max m := by
  induction offsets generalizing m with
  | nil => simp
  | cons o os ih =>
    simp only [List.foldl_cons]
    refine ⟨le_trans (le_max_left m o) (ih (max m o)).1, ?_⟩
    intro o' ho'
    rcases List.mem_cons.mp ho' with h | h
    · subst h
      exact le_trans (le_max_right m o') (ih (max m o')).1
    · exact (ih (max m o)).2 o' h

theorem foldl_max_mem (offsets : List Nat) (m : Nat) :
    offsets.foldl max m = m ∨ offsets.foldl max m ∈ offsets := by
  induction offsets generalizing m with
  | nil => simp
  | cons o os ih =>
    simp only [List.foldl_cons]
    rcases ih (max m o) with h | h
    · rcases le_total m o with hmo | hmo
      · right
        rw [h, max_eq_right hmo]
        simp
      · left
        rw [h, max_eq_left hmo]
    · right
      exact List.mem_cons_of_mem _ h

theorem foldl_max_map {μ : Type} (events : List (Event μ)) (m : Nat) :
    events.foldl (fun m e => max m e.Offset) m = (events.map (fun e => e.Offset)).foldl max m := by
  induction events generalizing m with
  | nil => rfl
  | cons e es ih => simp only [List.foldl_cons, List.map_cons, ih]

theorem NotifyTaskUpdates_maxOffset_le {σ ρ μ : Type} (env : Env σ ρ μ) (h : ServiceHandler σ ρ)
    (req : NotifyTaskUpdatesRequest μ) :
    h.maxOffset ≤ (h.NotifyTaskUpdates env req).1.maxOffset := by
  rw [NotifyTaskUpdates_maxOffset, foldl_max_map]
  exact (foldl_max_ge _ _).1

theorem NotifyTaskUpdates_purge_le {σ ρ μ : Type} (env : Env σ ρ μ) (h : ServiceHandler σ ρ)
    (req : NotifyTaskUpdatesRequest μ) :
    (h.NotifyTaskUpdates env req).2.PurgeOffset ≤ (h.NotifyTaskUpdates env req).1.maxOffset := by
  unfold ServiceHandler.NotifyTaskUpdates
  by_cases h0 : req.Events.length = 0
  · simp [h0]
  · simp [h0]

theorem NotifyTaskUpdates_purge_eq {σ ρ μ : Type} (env : Env σ ρ μ) (h : ServiceHandler σ ρ)
    (req : NotifyTaskUpdatesRequest μ) (hne : req.Events ≠ []) :
    (h.NotifyTaskUpdates env req).2.PurgeOffset = (h.NotifyTaskUpdates env req).1.maxOffset := by
  unfold ServiceHandler.NotifyTaskUpdates
  have h0 : ¬ req.Events.length = 0 := fun h0 => hne (List.length_eq_zero.mp h0)
  simp [h0]

theorem notifyAll_append {σ ρ μ : Type} (env : Env σ ρ μ) (h : ServiceHandler σ ρ)
    (reqs : List (NotifyTaskUpdatesRequest μ)) (req : NotifyTaskUpdatesRequest μ) :
    h.notifyAll env (reqs ++ [req]) =
      (((h.notifyAll env reqs).1.NotifyTaskUpdates env req).1,
        (h.notifyAll env reqs).2 ++ [((h.notifyAll env reqs).1.NotifyTaskUpdates env req).2]) := by
  simp [ServiceHandler.notifyAll, List.foldl_append]

/-- All responses of a run are bounded by the offset acknowledged at its end. -/
theorem notifyAll_purge_le {σ ρ μ : Type} (env : Env σ ρ μ) (h : ServiceHandler σ ρ)
    (reqs : List (NotifyTaskUpdatesRequest μ)) :
    h.maxOffset ≤ (h.notifyAll env reqs).1.maxOffset ∧
    ∀ resp ∈ (h.notifyAll env reqs).2, resp.PurgeOffset ≤ (h.notifyAll env reqs).1.maxOffset := by
  induction reqs using List.reverseRecOn with
  | nil => simp [ServiceHandler.notifyAll]
  | append_singleton reqs req ih =>
    rw [notifyAll_append]
    refine ⟨le_trans ih.1 (NotifyTaskUpdates_maxOffset_le env _ req), ?_⟩
    intro resp hresp
    rcases List.mem_append.mp hresp with hm | hm
    · exact le_trans (ih.2 resp hm) (NotifyTaskUpdates_maxOffset_le env _ req)
    · simp only [List.mem_singleton] at hm
      subst hm
      exact NotifyTaskUpdates_purge_le env _ req

/-- C5, as amended (ack monotonicity). In every run of `NotifyTaskUpdates`
calls on one handler, a call whose request carries at least one event returns
a `PurgeOffset` that is at least the `PurgeOffset` returned by every earlier
call. -/
theorem NotifyTaskUpdates_ack_monotone {σ ρ μ : Type} (env : Env σ ρ μ) (h : ServiceHandler σ ρ)
    (reqs : List (NotifyTaskUpdatesRequest μ)) (req : NotifyTaskUpdatesRequest μ)
    (hne : req.Events ≠ []) :
    ∀ resp ∈ (h.notifyAll env reqs).2,
      resp.PurgeOffset ≤ ((h.notifyAll env reqs).1.NotifyTaskUpdates env req).2.PurgeOffset := by
  intro resp hresp
  rw [NotifyTaskUpdates_purge_eq env _ req hne]
  exact le_trans ((notifyAll_purge_le env h reqs).2 resp hresp)
    (NotifyTaskUpdates_maxOffset_le env _ req)

/-- C5, as amended, at a new handler: after the offsets 5 and then no event,
a request with the offset 3 is answered with 5. -/
theorem NotifyTaskUpdates_ack_monotone_witness :
    ([mkEvent 3 TaskState.RUNNING "job1-0-1"] ≠ []) ∧
    ∀ resp ∈ ((sampleHandler roomyQueue).notifyAll sampleEnv
        [{ Events := [mkEvent 5 TaskState.RUNNING "job1-0-1"] }, { Events := [] }]).2,
      resp.PurgeOffset ≤ (((sampleHandler roomyQueue).notifyAll sampleEnv
        [{ Events := [mkEvent 5 TaskState.RUNNING "job1-0-1"] }, { Events := [] }]).1.NotifyTaskUpdates
          sampleEnv { Events := [mkEvent 3 TaskState.RUNNING "job1-0-1"] }).2.PurgeOffset :=
  ⟨by simp, NotifyTaskUpdates_ack_monotone sampleEnv (sampleHandler roomyQueue)
    [{ Events := [mkEvent 5 TaskState.RUNNING "job1-0-1"] }, { Events := [] }]
    { Events := [mkEvent 3 TaskState.RUNNING "job1-0-1"] } (by simp)⟩

/-- C5 as stated fails on a request that carries no events. On a new handler a
request with the offset 5 is answered with `PurgeOffset` 5, and the request
with no events that follows is answered with `PurgeOffset` 0. -/
theorem NotifyTaskUpdates_ack_monotone_counterexample :
    ((sampleHandler roomyQueue).notifyAll sampleEnv
      [{ Events := [mkEvent 5 TaskState.RUNNING "job1-0-1"] }, { Events := [] }]).2 =
      [{ PurgeOffset := 5 }, { PurgeOffset := 0 }] := by
  decide

theorem foldl_max_largestOffset {μ : Type} (events : List (Event μ)) (m : Nat) :
    events.foldl (fun m e => max m e.Offset) m = max m (largestOffset events) := by
  induction events generalizing m with
  | nil => simp [largestOffset]
  | cons e es ih => simp only [List.foldl_cons, ih, largestOffset, max_assoc]

theorem largestOffset_append {μ : Type} (a b : List (Event μ)) :
    largestOffset (a ++ b) = max (largestOffset a) (largestOffset b) := by
  induction a with
  | nil => simp [largestOffset]
  | cons e es ih =>
    show max e.Offset (largestOffset (es ++ b)) = max (max e.Offset (largestOffset es)) (largestOffset b)
    rw [ih, max_assoc]

theorem notifyAll_cons {σ ρ μ : Type} (env : Env σ ρ μ) (h : ServiceHandler σ ρ)
    (req : NotifyTaskUpdatesRequest μ) (reqs : List (NotifyTaskUpdatesRequest μ)) :
    (h.notifyAll env (req :: reqs)).1 = ((h.NotifyTaskUpdates env req).1.notifyAll env reqs).1 := by
  have key : ∀ (reqs : List (NotifyTaskUpdatesRequest μ)) (h : ServiceHandler σ ρ)
      (acc : List NotifyTaskUpdatesResponse),
      (reqs.foldl (fun (acc : ServiceHandler σ ρ × List NotifyTaskUpdatesResponse) req =>
        ((acc.1.NotifyTaskUpdates env req).1, acc.2 ++ [(acc.1.NotifyTaskUpdates env req).2]))
        (h, acc)).1 = (h.notifyAll env reqs).1 := by
    intro reqs
    induction reqs with
    | nil => intro h acc; rfl
    | cons r rs ih =>
      intro h acc
      simp only [ServiceHandler.notifyAll, List.foldl_cons]
      rw [ih, ih]
  simp only [ServiceHandler.notifyAll, List.foldl_cons]
  exact key reqs _ _

/-- The acknowledged offset after a run of calls, from any handler. -/
theorem notifyAll_maxOffset {σ ρ μ : Type} (env : Env σ ρ μ)
    (reqs : List (NotifyTaskUpdatesRequest μ)) (h : ServiceHandler σ ρ) :
    (h.notifyAll env reqs).1.maxOffset = max h.maxOffset (largestOffset (eventsOf reqs)) := by
  induction reqs generalizing h with
  | nil => simp [ServiceHandler.notifyAll, eventsOf, largestOffset]
  | cons req reqs ih =>
    rw [notifyAll_cons, ih, NotifyTaskUpdates_maxOffset, foldl_max_largestOffset, eventsOf,
      largestOffset_append, max_assoc]

/-- C6 (the acknowledged offset is the maximum offset ever seen). After any
run of `NotifyTaskUpdates` calls on a new handler, `maxOffset` is the largest
`Offset` among all events of all requests (`0` when there was none), whatever
the handler did with each event. -/
theorem maxOffset_is_largest_offset {σ ρ μ : Type} (env : Env σ ρ μ) (rmTracker : tracker)
    (resPoolTree : String → Except String Nat) (resPools : Nat → ρ) (scheduler : σ)
    (reqs : List (NotifyTaskUpdatesRequest μ)) :
    ((InitServiceHandler rmTracker resPoolTree resPools scheduler).notifyAll env reqs).1.maxOffset =
      largestOffset (eventsOf reqs) := by
  rw [notifyAll_maxOffset]
  simp [InitServiceHandler]

theorem acknowledgeEvent_eq {σ ρ : Type} (h : ServiceHandler σ ρ) (offset : Nat) :
    h.acknowledgeEvent offset = { h with maxOffset := max h.maxOffset offset } := by
  unfold ServiceHandler.acknowledgeEvent
  by_cases hlt : offset > h.maxOffset
  · simp only [hlt, if_true, max_eq_right (le_of_lt hlt)]
  · simp only [hlt, if_false, max_eq_left (not_lt.mp hlt)]

/-- C7 (stale-run events are acknowledged and dropped). An event whose mesos
task id differs from the mesos task id of the tracked task with the same task
id leaves the handler as it was when the event is processed (the tracked
task, the task map and the placement index of the tracker, the resource pools
and the scheduler), but for the acknowledged offset, which becomes the larger
of its value and the offset of the event; a request with just that event is
answered with that offset. -/
theorem NotifyTaskUpdates_stale_event {σ ρ μ : Type} (env : Env σ ρ μ) (h : ServiceHandler σ ρ)
    (event : Event μ) (ptID : String) (rmTask : Nat)
    (hparse : env.ParseTaskIDFromMesosTaskID event.MesosTaskStatus.TaskId = .ok ptID)
    (htracked : h.rmTracker.GetTask ptID = some rmTask)
    (hstale : (h.rmTracker.rmTasks rmTask).task.TaskId ≠ event.MesosTaskStatus.TaskId) :
    h.notifyEvent env event = { h with maxOffset := max h.maxOffset event.Offset } ∧
    h.NotifyTaskUpdates env { Events := [event] } =
      ({ h with maxOffset := max h.maxOffset event.Offset },
        { PurgeOffset := max h.maxOffset event.Offset }) := by
  have hstep : h.notifyEvent env event = { h with maxOffset := max h.maxOffset event.Offset } := by
    unfold ServiceHandler.notifyEvent
    simp only [hparse, htracked, hstale]
    split
    · exact acknowledgeEvent_eq _ _
    · exact acknowledgeEvent_eq _ _
  refine ⟨hstep, ?_⟩
  unfold ServiceHandler.NotifyTaskUpdates
  simp [hstep]

/-- C7, at a handler that tracks `job1-0` with run 2 in state `LAUNCHING` and
receives a `RUNNING` event of run 1 with offset 7. -/
theorem NotifyTaskUpdates_stale_event_witness :
    ((trackingHandler roomyQueue TaskState.LAUNCHING).notifyEvent sampleEnv
        (mkEvent 7 TaskState.RUNNING "job1-0-0")).maxOffset = 7 ∧
    (((trackingHandler roomyQueue TaskState.LAUNCHING).notifyEvent sampleEnv
        (mkEvent 7 TaskState.RUNNING "job1-0-0")).rmTracker.rmTasks 0).state =
      TaskState.LAUNCHING := by
  have key := (NotifyTaskUpdates_stale_event sampleEnv (trackingHandler roomyQueue TaskState.LAUNCHING)
    (mkEvent 7 TaskState.RUNNING "job1-0-0") "job1-0" 0 (by rfl) (by decide) (by decide)).1
  rw [key]
  decide

/-- C8 fails on the code: the failures of a gang are lost when another gang
follows it. The handler has already enqueued `gangA`; the request
`[gangA, gangB]` to the same pool finds `job1-0` tracked with the same run, so
`enqueueGang` fails for `gangA`, which is not enqueued again (the pool holds
`gangA` once, then `gangB`), and still the response carries no failure; the
request `[gangA]` alone does report `job1-0`. -/
theorem EnqueueGangs_loses_failures :
    (enqueuedHandler.enqueueGang sampleEnv gangA 0).2.2 = some errFailingGangMemberTask ∧
    (enqueuedHandler.EnqueueGangs sampleEnv
      { ResPool := "respool1", Gangs := [gangA, gangB] }).2 = { Error := none } ∧
    ((enqueuedHandler.EnqueueGangs sampleEnv
      { ResPool := "respool1", Gangs := [gangA, gangB] }).1.resPools 0).pending =
        [gangA, gangB] ∧
    (enqueuedHandler.EnqueueGangs sampleEnv
      { ResPool := "respool1", Gangs := [gangA] }).2 =
        { Error := some { NotFound := none, Failure := some { Failed :=
          [{ Task := mkTask "job1-0" "job1-0-1" 1, Message := errSameTaskPresent },
           { Task := mkTask "job1-0" "job1-0-1" 1, Message := errFailingGangMemberTask }] } } } := by
  decide

/-- C9 (`POOL_NOT_FOUND`). When the lookup of the pool id of the request
fails, `EnqueueGangs` answers with a `NotFound` error that holds the requested
pool id and the message of the lookup, and with no failure list, and the
handler is as it was: no task was added to the tracker and no gang was
enqueued to a pool or to the scheduler. -/
theorem EnqueueGangs_pool_not_found {σ ρ μ : Type} (env : Env σ ρ μ) (h : ServiceHandler σ ρ)
    (req : EnqueueGangsRequest) (err : String)
    (hnotfound : h.resPoolTree req.ResPool = .error err) :
    h.EnqueueGangs env req =
      (h, { Error := some (
        { NotFound := some { Id := req.ResPool, Message := err }, Failure := none }) }) := by
  unfold ServiceHandler.EnqueueGangs
  simp only [hnotfound]

/-- C9, at the sample handler and a request for the unknown pool `respool9`. -/
theorem EnqueueGangs_pool_not_found_witness :
    (sampleHandler roomyQueue).EnqueueGangs sampleEnv
        { ResPool := "respool9", Gangs := [gangA, gangB] } =
      (sampleHandler roomyQueue, { Error := some (
        { NotFound := some { Id := "respool9", Message := "resource pool not found" },
          Failure := none }) }) :=
  EnqueueGangs_pool_not_found sampleEnv (sampleHandler roomyQueue)
    { ResPool := "respool9", Gangs := [gangA, gangB] } "resource pool not found" (by rfl)

theorem mapGet_mapSet {κ α : Type} [DecidableEq κ] (m : List (κ × α)) (k k' : κ) (v : α) :
    mapGet (mapSet m k v) k' = if k = k' then some v else mapGet m k' := by
  induction m with
  | nil => simp [mapSet, mapGet]
  | cons e m ih =>
    obtain ⟨k0, v0⟩ := e
    by_cases h0 : k0 = k
    · subst h0
      by_cases h1 : k0 = k' <;> simp [mapSet, mapGet, h1]
    · by_cases h1 : k0 = k'
      · subst h1
        have : ¬ k = k0 := fun h => h0 h.symm
        simp [mapSet, mapGet, h0, this]
      · simp [mapSet, mapGet, h0, h1, ih]

theorem mapSet_ne_nil {κ α : Type} [DecidableEq κ] (m : List (κ × α)) (k : κ) (v : α) :
    mapSet m k v ≠ [] := by
  cases m with
  | nil => simp [mapSet]
  | cons e m =>
    obtain ⟨k0, v0⟩ := e
    by_cases h0 : k0 = k <;> simp [mapSet, h0]

theorem foldl_mapSet_ne_nil (ts : List Task) (m : List (String × Task)) (hm : m ≠ []) :
    ts.foldl (fun m t => mapSet m t.Id t) m ≠ [] := by
  induction ts generalizing m with
  | nil => exact hm
  | cons t ts ih => exact ih _ (mapSet_ne_nil m t.Id t)

theorem foldl_mapSet_get_none (ts : List Task) (m : List (String × Task)) (k : String) :
    mapGet (ts.foldl (fun m t => mapSet m t.Id t) m) k = none ↔
      mapGet m k = none ∧ ∀ t ∈ ts, t.Id ≠ k := by
  induction ts generalizing m with
  | nil => simp
  | cons t ts ih =>
    simp only [List.foldl_cons, ih, mapGet_mapSet, List.mem_cons, forall_eq_or_imp]
    by_cases hk : t.Id = k
    · simp [hk]
    · simp [hk]

theorem askPlacing_tasks (tr : tracker) (t : Task) : (askPlacing tr t).tasks = tr.tasks := by
  unfold askPlacing
  split <;> rfl

theorem foldl_askPlacing_tasks (ts : List Task) (tr : tracker) :
    (ts.foldl askPlacing tr).tasks = tr.tasks := by
  induction ts generalizing tr with
  | nil => rfl
  | cons t ts ih => simp only [List.foldl_cons, ih, askPlacing_tasks]

theorem GetTask_congr {tr tr' : tracker} (h : tr'.tasks = tr.tasks) (k : String) :
    tr'.GetTask k = tr.GetTask k := by
  simp [tracker.GetTask, h]

theorem trackedOnly_congr {tr tr' : tracker} (h : tr'.tasks = tr.tasks) (gang : Gang) :
    trackedOnly tr' gang = trackedOnly tr gang := by
  simp [trackedOnly, GetTask_congr h]

/-- The loop of `DequeueGangs` over the tasks of one gang: the tracked tasks
are asked to transit to `PLACING`, the others are collected. -/
theorem foldl_dequeueGangTask (ts : List Task) (tr : tracker) (rem : List (String × Task)) :
    ts.foldl ServiceHandler.dequeueGangTask (tr, rem) =
      (ts.foldl askPlacing tr,
        (ts.filter (fun t => (tr.GetTask t.Id).isNone)).foldl (fun m t => mapSet m t.Id t) rem) := by
  induction ts generalizing tr rem with
  | nil => rfl
  | cons t ts ih =>
    simp only [List.foldl_cons]
    cases hget : tr.GetTask t.Id with
    | none =>
      have h1 : ServiceHandler.dequeueGangTask (tr, rem) t = (tr, mapSet rem t.Id t) := by
        simp [ServiceHandler.dequeueGangTask, hget]
      have h2 : askPlacing tr t = tr := by simp [askPlacing, hget]
      rw [h1, h2, ih]
      simp [List.filter_cons, hget]
    | some r =>
      have h1 : ServiceHandler.dequeueGangTask (tr, rem) t = (askPlacing tr t, rem) := by
        simp [ServiceHandler.dequeueGangTask, askPlacing, hget]
      rw [h1, ih]
      have h3 : ∀ k, (askPlacing tr t).GetTask k = tr.GetTask k :=
        GetTask_congr (askPlacing_tasks tr t)
      simp [List.filter_cons, hget, h3]

theorem foldl_keep (f : Task → Option Task) (ts : List Task) (init : List Task) :
    ts.foldl (fun newTasks gt => match f gt with
        | none => newTasks ++ [gt]
        | some _ => newTasks) init =
      init ++ ts.filter (fun gt => (f gt).isNone) := by
  induction ts generalizing init with
  | nil => simp
  | cons t ts ih =>
    simp only [List.foldl_cons, ih]
    cases hf : f t with
    | none => simp [List.filter_cons, hf]
    | some v => simp [List.filter_cons, hf]

/-- What `removeFromGang` returns for the tasks that the loop collected: the
tasks of the gang that the tracker holds. -/
theorem removeFromGang_collected (tr : tracker) (gang : Gang) :
    ServiceHandler.removeFromGang gang
        ((gang.Tasks.filter (fun t => (tr.GetTask t.Id).isNone)).foldl
          (fun m t => mapSet m t.Id t) []) =
      trackedOnly tr gang := by
  unfold ServiceHandler.removeFromGang trackedOnly
  by_cases hlen : ((gang.Tasks.filter (fun t => (tr.GetTask t.Id).isNone)).foldl
      (fun m t => mapSet m t.Id t) ([] : List (String × Task))).length = 0
  · simp only [hlen, if_true]
    have hnil : gang.Tasks.filter (fun t => (tr.GetTask t.Id).isNone) = [] := by
      cases hf : gang.Tasks.filter (fun t => (tr.GetTask t.Id).isNone) with
      | nil => rfl
      | cons t ts =>
        rw [hf] at hlen
        simp only [List.foldl_cons] at hlen
        exact absurd (List.length_eq_zero.mp hlen) (foldl_mapSet_ne_nil ts _ (mapSet_ne_nil _ _ _))
    have hall : gang.Tasks.filter (fun t => (tr.GetTask t.Id).isSome) = gang.Tasks := by
      rw [List.filter_eq_self]
      intro t ht
      rw [List.filter_eq_nil_iff] at hnil
      have := hnil t ht
      cases hg : tr.GetTask t.Id with
      | none => simp [hg] at this
      | some r => rfl
    rw [hall]
  · simp only [hlen, if_false, foldl_keep, List.nil_append]
    congr 1
    apply List.filter_congr
    intro t ht
    cases hg : tr.GetTask t.Id with
    | none =>
      have hne : mapGet ((gang.Tasks.filter (fun t => (tr.GetTask t.Id).isNone)).foldl
          (fun m t => mapSet m t.Id t) ([] : List (String × Task))) t.Id ≠ none := by
        intro hnone
        rw [foldl_mapSet_get_none] at hnone
        exact hnone.2 t (List.mem_filter.mpr ⟨ht, by simp [hg]⟩) rfl
      cases hm : mapGet ((gang.Tasks.filter (fun t => (tr.GetTask t.Id).isNone)).foldl
          (fun m t => mapSet m t.Id t) ([] : List (String × Task))) t.Id with
      | none => exact absurd hm hne
      | some v => rfl
    | some r =>
      have hnone : mapGet ((gang.Tasks.filter (fun t => (tr.GetTask t.Id).isNone)).foldl
          (fun m t => mapSet m t.Id t) ([] : List (String × Task))) t.Id = none := by
        rw [foldl_mapSet_get_none]
        refine ⟨rfl, ?_⟩
        intro t' ht' hid
        have := (List.mem_filter.mp ht').2
        rw [hid, hg] at this
        simp at this
      rw [hnone]
      rfl

theorem schedulerDequeues_length {σ ρ μ : Type} (env : Env σ ρ μ) (req : DequeueGangsRequest)
    (n : Nat) (sched : σ) : (schedulerDequeues env req n sched).length ≤ n := by
  induction n generalizing sched with
  | zero => simp [schedulerDequeues]
  | succ n ih =>
    unfold schedulerDequeues
    cases hd : env.SchedulerDequeueGang sched req.Timeout req.Type_ with
    | mk sched' res =>
      cases res with
      | error e => simp
      | ok gang =>
        simp only [List.length_cons]
        exact Nat.succ_le_succ (ih sched')

/-- The loop of `DequeueGangs` in closed form. -/
theorem dequeueGangsLoop_eq {σ ρ μ : Type} (env : Env σ ρ μ) (req : DequeueGangsRequest)
    (n : Nat) (h : ServiceHandler σ ρ) (gangs : List Gang) :
    (ServiceHandler.dequeueGangsLoop env req n h gangs).2 =
      gangs ++ (schedulerDequeues env req n h.scheduler).map (trackedOnly h.rmTracker) ∧
    (ServiceHandler.dequeueGangsLoop env req n h gangs).1.rmTracker =
      (tasksOf (schedulerDequeues env req n h.scheduler)).foldl askPlacing h.rmTracker := by
  induction n generalizing h gangs with
  | zero => simp [ServiceHandler.dequeueGangsLoop, schedulerDequeues, tasksOf]
  | succ n ih =>
    unfold ServiceHandler.dequeueGangsLoop schedulerDequeues
    cases hd : env.SchedulerDequeueGang h.scheduler req.Timeout req.Type_ with
    | mk sched res =>
      cases res with
      | error e => simp [tasksOf]
      | ok gang =>
        simp only [foldl_dequeueGangTask, removeFromGang_collected]
        obtain ⟨ih1, ih2⟩ := ih
          { h with scheduler := sched, rmTracker := gang.Tasks.foldl askPlacing h.rmTracker }
          (gangs ++ [trackedOnly h.rmTracker gang])
        refine ⟨?_, ?_⟩
        · rw [ih1]
          have hc : trackedOnly (gang.Tasks.foldl askPlacing h.rmTracker) = trackedOnly h.rmTracker := by
            funext g
            exact trackedOnly_congr (foldl_askPlacing_tasks gang.Tasks h.rmTracker) g
          simp [hc]
        · rw [ih2]
          simp [tasksOf, List.foldl_append]

theorem askPlacing_state (tr : tracker) (t : Task) (ref : Nat)
    (hs : (tr.rmTasks ref).state = TaskState.READY ∨ (tr.rmTasks ref).state = TaskState.PLACING) :
    (tr.GetTask t.Id = some ref → ((askPlacing tr t).rmTasks ref).state = TaskState.PLACING) ∧
    ((tr.rmTasks ref).state = TaskState.PLACING →
      ((askPlacing tr t).rmTasks ref).state = TaskState.PLACING) ∧
    (((askPlacing tr t).rmTasks ref).state = TaskState.READY ∨
      ((askPlacing tr t).rmTasks ref).state = TaskState.PLACING) := by
  unfold askPlacing
  cases hget : tr.GetTask t.Id with
  | none => simp [hs]
  | some r =>
    by_cases hr : ref = r
    · subst hr
      rcases hs with hs | hs <;>
        simp [tracker.modify, RMTask.TransitTo, hs, transitionAllowed]
    · have hr' : ¬ r = ref := fun h => hr h.symm
      simp [tracker.modify, hr, hr', hs]

theorem foldl_askPlacing_placing (ts : List Task) (tr : tracker) (ref : Nat)
    (hs : (tr.rmTasks ref).state = TaskState.PLACING) :
    ((ts.foldl askPlacing tr).rmTasks ref).state = TaskState.PLACING := by
  induction ts generalizing tr with
  | nil => exact hs
  | cons t ts ih => exact ih _ ((askPlacing_state tr t ref (Or.inr hs)).2.1 hs)

theorem foldl_askPlacing_ready (ts : List Task) (tr : tracker) (t : Task) (ht : t ∈ ts)
    (ref : Nat) (hget : tr.GetTask t.Id = some ref)
    (hs : (tr.rmTasks ref).state = TaskState.READY ∨ (tr.rmTasks ref).state = TaskState.PLACING) :
    ((ts.foldl askPlacing tr).rmTasks ref).state = TaskState.PLACING := by
  induction ts generalizing tr with
  | nil => simp at ht
  | cons t0 ts ih =>
    simp only [List.foldl_cons]
    rcases List.mem_cons.mp ht with h0 | h0
    · subst h0
      exact foldl_askPlacing_placing ts _ ref ((askPlacing_state tr t ref hs).1 hget)
    · apply ih _ h0
      · rw [GetTask_congr (askPlacing_tasks tr t0)]
        exact hget
      · exact (askPlacing_state tr t0 ref hs).2.2

/-- C10 (`DequeueGangs`). The response holds at most `Limit` gangs: the gangs
that the scheduler handed out, in that order, up to its first failed dequeue,
each cut down to its tasks that the tracker holds, in their order. The tracker
is the one in which every task of those gangs that it holds has been asked, in
turn, to transit to `PLACING`; its task map is unchanged, and every such task
that was `READY` is `PLACING` afterwards. -/
theorem DequeueGangs_spec {σ ρ μ : Type} (env : Env σ ρ μ) (h : ServiceHandler σ ρ)
    (req : DequeueGangsRequest) :
    (h.DequeueGangs env req).2.Gangs =
      (schedulerDequeues env req req.Limit h.scheduler).map (trackedOnly h.rmTracker) ∧
    (h.DequeueGangs env req).2.Gangs.length ≤ req.Limit ∧
    (h.DequeueGangs env req).1.rmTracker =
      (tasksOf (schedulerDequeues env req req.Limit h.scheduler)).foldl askPlacing h.rmTracker ∧
    (h.DequeueGangs env req).1.rmTracker.tasks = h.rmTracker.tasks ∧
    ∀ t ∈ tasksOf (schedulerDequeues env req req.Limit h.scheduler), ∀ ref,
      h.rmTracker.GetTask t.Id = some ref →
      (h.rmTracker.rmTasks ref).state = TaskState.READY →
      ((h.DequeueGangs env req).1.rmTracker.rmTasks ref).state = TaskState.PLACING := by
  obtain ⟨h1, h2⟩ := dequeueGangsLoop_eq env req req.Limit h []
  have hg : (h.DequeueGangs env req).2.Gangs =
      (ServiceHandler.dequeueGangsLoop env req req.Limit h []).2 := rfl
  have ht : (h.DequeueGangs env req).1.rmTracker =
      (ServiceHandler.dequeueGangsLoop env req req.Limit h []).1.rmTracker := rfl
  rw [hg, ht, h1, h2]
  refine ⟨by simp, ?_, rfl, foldl_askPlacing_tasks _ _, ?_⟩
  · simp only [List.nil_append, List.length_map]
    exact schedulerDequeues_length env req req.Limit h.scheduler
  · intro t htm ref hget hs
    exact foldl_askPlacing_ready _ _ t htm ref hget (Or.inl hs)

/-- C10, at a handler that tracks `job1-0` in state `READY` and whose ready
queue holds a gang of `job1-0` and the untracked `job1-1`, then `gangB` of the
untracked `job1-1`: both gangs are returned, cut down to `job1-0` and to
nothing, and `job1-0` is `PLACING`. -/
theorem DequeueGangs_spec_witness :
    (readyHandler.DequeueGangs sampleEnv
        { Limit := 5, Type_ := TaskType.BATCH, Timeout := 100 }).2.Gangs =
      [{ Tasks := [mkTask "job1-0" "job1-0-1" 1] }, { Tasks := [] }] ∧
    ((readyHandler.DequeueGangs sampleEnv
        { Limit := 5, Type_ := TaskType.BATCH, Timeout := 100 }).1.rmTracker.rmTasks 0).state =
      TaskState.PLACING := by
  have key := DequeueGangs_spec sampleEnv readyHandler
    { Limit := 5, Type_ := TaskType.BATCH, Timeout := 100 }
  refine ⟨?_, ?_⟩
  · rw [key.1]
    decide
  · exact key.2.2.2.2 (mkTask "job1-0" "job1-0-1" 1) (by decide) 0 (by decide) (by decide)

/-! ## Properties of placements, kills and the tracker -/

theorem modify_const (tr : tracker) (ref : Nat) (f : RMTask → RMTask) :
    tr.modify ref (fun _ => f (tr.rmTasks ref)) = tr.modify ref f := by
  simp only [tracker.modify, tracker.mk.injEq, true_and, and_true]
  funext r
  by_cases hr : r = ref
  · simp [hr]
  · simp [hr]

theorem killTask_eq {σ ρ μ : Type} (env : Env σ ρ μ) (h : ServiceHandler σ ρ) (s : String)
    (t : String) :
    ServiceHandler.killTask env (h, s) t =
      ((ServiceHandler.killTask env (h, "") t).1,
        s ++ listed (if killFails env h t then [t] else [])) := by
  unfold ServiceHandler.killTask killFails
  cases hget : h.rmTracker.GetTask t with
  | none => simp [listed, String.append_empty]
  | some r =>
    simp only
    cases hm : h.rmTracker.MarkItDone env h.resPools t with
    | mk tr rest =>
      obtain ⟨pools, err⟩ := rest
      cases err with
      | none => simp [listed, String.append_empty]
      | some e => simp [listed, String.append_empty]

theorem listed_append (a b : List String) : listed (a ++ b) = listed a ++ listed b := by
  induction a with
  | nil => simp [listed, String.empty_append]
  | cons t ts ih =>
    show (t ++ " , ") ++ listed (ts ++ b) = ((t ++ " , ") ++ listed ts) ++ listed b
    rw [ih, String.append_assoc (t ++ " , ")]

theorem listed_eq_empty (l : List String) : listed l = "" ↔ l = [] := by
  cases l with
  | nil => simp [listed]
  | cons t ts =>
    simp only [listed, reduceCtorEq, iff_false]
    intro h
    have := congrArg String.length h
    simp only [String.length_append] at this
    have h3 : (" , " : String).length = 3 := by decide
    have h0 : ("" : String).length = 0 := by decide
    omega

/-- The loop of `KillTasks` in closed form. -/
theorem foldl_killTask {σ ρ μ : Type} (env : Env σ ρ μ) (ts : List String)
    (h : ServiceHandler σ ρ) (s : String) :
    (ts.foldl (ServiceHandler.killTask env) (h, s)).2 = s ++ listed (notKilled env h ts) := by
  induction ts generalizing h s with
  | nil => simp [notKilled, listed, String.append_empty]
  | cons t ts ih =>
    simp only [List.foldl_cons]
    rw [killTask_eq, ih, notKilled, listed_append, String.append_assoc]

/-- C12 (`KillTasks` failure list). A request with no task id is answered
with an error; any other request is answered with an error exactly when the
kill of at least one of its task ids failed when it was its turn (the task was
absent from the tracker or could not be marked done), the message then being
`tasks can't be killed` followed by exactly those task ids in the order of
the request, and with the empty response otherwise. -/
theorem KillTasks_failure_list {σ ρ μ : Type} (env : Env σ ρ μ) (h : ServiceHandler σ ρ)
    (req : KillTasksRequest) :
    (h.KillTasks env req).2 =
      if req.Tasks = [] then
        { Error := some { Message := "Killed tasks called with no tasks" } }
      else if notKilled env h req.Tasks = [] then { Error := none }
      else { Error := some (
        { Message := "tasks can't be killed " ++ listed (notKilled env h req.Tasks) }) } := by
  unfold ServiceHandler.KillTasks
  by_cases h0 : req.Tasks = []
  · simp [h0]
  · have hlen : ¬ req.Tasks.length = 0 := fun hl => h0 (List.length_eq_zero.mp hl)
    simp only [hlen, h0, if_false]
    have hf := foldl_killTask env req.Tasks h ""
    rw [String.empty_append] at hf
    by_cases hk : notKilled env h req.Tasks = []
    · have : (req.Tasks.foldl (ServiceHandler.killTask env) (h, "")).2 = "" := by
        rw [hf, hk]; rfl
      simp [this, hk]
    · have hne : ¬ listed (notKilled env h req.Tasks) = "" := by
        rw [listed_eq_empty]; exact hk
      simp [hk, hf, hne]

/-- C13 fails on the code: `MarkItDone` can leave the task in the placement
index. Task `job1-0` is tracked and `SetPlacement` has set its hostname to the
empty string, which indexes it under that hostname; `MarkItDone` succeeds and
removes the task from the task map, but `clearPlacement` returns at once for an
empty hostname and the index entry stays. For a task placed on `host1` the
entry is removed. -/
theorem MarkItDone_leaves_index_entry :
    ((((InitTaskTracker.AddTask sampleEnv (mkTask "job1-0" "job1-0-1" 1) 0).1.SetPlacement
        "job1-0" "").MarkItDone sampleEnv (fun _ => emptyPool) "job1-0").2.2 = none) ∧
    (((InitTaskTracker.AddTask sampleEnv (mkTask "job1-0" "job1-0-1" 1) 0).1.SetPlacement
        "job1-0" "").MarkItDone sampleEnv (fun _ => emptyPool) "job1-0").1.tasks = [] ∧
    (((InitTaskTracker.AddTask sampleEnv (mkTask "job1-0" "job1-0-1" 1) 0).1.SetPlacement
        "job1-0" "").MarkItDone sampleEnv (fun _ => emptyPool) "job1-0").1.placements =
      [("", [(TaskType.BATCH, [("job1-0", 0)])])] ∧
    (((InitTaskTracker.AddTask sampleEnv (mkTask "job1-0" "job1-0-1" 1) 0).1.SetPlacement
        "job1-0" "host1").MarkItDone sampleEnv (fun _ => emptyPool) "job1-0").1.placements =
      [] := by
  decide

theorem mapSet_mapSet {κ α : Type} [DecidableEq κ] (m : List (κ × α)) (k : κ) (v v' : α) :
    mapSet (mapSet m k v) k v' = mapSet m k v' := by
  induction m with
  | nil => simp [mapSet]
  | cons e m ih =>
    obtain ⟨k0, v0⟩ := e
    by_cases h0 : k0 = k
    · simp [mapSet, h0]
    · simp [mapSet, h0, ih]

theorem appendAt_appendAt (result : List (String × List Nat)) (hostname : String)
    (a b : List Nat) :
    appendAt (appendAt result hostname a) hostname b = appendAt result hostname (a ++ b) := by
  unfold appendAt
  by_cases ha : a = []
  · simp [ha]
  · by_cases hb : b = []
    · simp [ha, hb]
    · simp [ha, hb, mapGet_mapSet, mapSet_mapSet, List.append_assoc]

theorem foldl_entries_appendAt (es : List (String × Nat)) (result : List (String × List Nat))
    (hostname : String) :
    es.foldl (fun result entry =>
        mapSet result hostname ((mapGet result hostname).getD [] ++ [entry.2])) result =
      appendAt result hostname (es.map Prod.snd) := by
  induction es generalizing result with
  | nil => simp [appendAt]
  | cons e es ih =>
    simp only [List.foldl_cons, ih, List.map_cons]
    have h1 : mapSet result hostname ((mapGet result hostname).getD [] ++ [e.2]) =
        appendAt result hostname [e.2] := by simp [appendAt]
    rw [h1, appendAt_appendAt]
    rfl

theorem foldl_types_appendAt (tr : tracker) (types : List TaskType)
    (result : List (String × List Nat)) (hostname : String) :
    types.foldl (fun result tType =>
        ((mapGet ((mapGet tr.placements hostname).getD []) tType).getD []).foldl
          (fun result entry =>
            mapSet result hostname ((mapGet result hostname).getD [] ++ [entry.2]))
          result) result =
      appendAt result hostname
        (types.foldr (fun tType rest => indexedOn tr hostname tType ++ rest) []) := by
  induction types generalizing result with
  | nil => simp [appendAt]
  | cons t ts ih =>
    simp only [List.foldl_cons, List.foldr_cons]
    rw [ih, foldl_entries_appendAt, appendAt_appendAt]
    rfl

theorem mapGet_appendAt (result : List (String × List Nat)) (hostname h : String)
    (l : List Nat) :
    mapGet (appendAt result hostname l) h =
      if hostname = h ∧ l ≠ [] then some ((mapGet result h).getD [] ++ l)
      else mapGet result h := by
  unfold appendAt
  by_cases hl : l = []
  · simp [hl]
  · by_cases hh : hostname = h
    · subst hh
      simp [hl, mapGet_mapSet]
    · simp [hl, hh, mapGet_mapSet]

theorem repeated_nil (n : Nat) : repeated [] n = [] := by
  induction n with
  | zero => rfl
  | succ n ih => simp [repeated, ih]

theorem repeated_eq_nil (l : List Nat) (n : Nat) : repeated l n = [] ↔ n = 0 ∨ l = [] := by
  cases n with
  | zero => simp [repeated]
  | succ n =>
    by_cases hl : l = []
    · simp [hl, repeated_nil]
    · simp [repeated, hl]

/-- The loop of `TasksByHosts` over the hostnames, seen from one hostname. -/
theorem foldl_hosts_appendAt (placed : String → List Nat) (hosts : List String)
    (result : List (String × List Nat)) (h : String) :
    mapGet (hosts.foldl (fun result hostname => appendAt result hostname (placed hostname))
        result) h =
      if repeated (placed h) (hosts.count h) = [] then mapGet result h
      else some ((mapGet result h).getD [] ++ repeated (placed h) (hosts.count h)) := by
  induction hosts generalizing result with
  | nil => simp [repeated]
  | cons hn hosts ih =>
    simp only [List.foldl_cons, ih, mapGet_appendAt]
    by_cases hh : hn = h
    · subst hh
      simp only [List.count_cons_self, repeated, true_and]
      by_cases hp : placed hn = []
      · simp [hp, repeated_nil]
      · by_cases hr : repeated (placed hn) (hosts.count hn) = []
        · simp [hp, hr]
        · simp [hp, hr, List.append_assoc]
    · have hc : List.count h (hn :: hosts) = List.count h hosts := by
        rw [List.count_cons]
        simp [hh]
      simp [hh, hc]

/-- C14, as amended (`TasksByHosts`). For every list of hostnames and every
task type, the result has an entry for a hostname exactly when the hostname is
listed and the placement index holds a task of the asked types for it (every
type when the type is `UNKNOWN`), and the entry holds those tasks once for
every time the hostname is listed: exactly once when it is listed once. -/
theorem TasksByHosts_spec (tr : tracker) (hosts : List String) (taskType : TaskType)
    (h : String) :
    mapGet (tr.TasksByHosts hosts taskType) h =
      if h ∈ hosts ∧ placedOn tr h taskType ≠ [] then
        some (repeated (placedOn tr h taskType) (hosts.count h))
      else none := by
  have htypes : (if taskType = TaskType.UNKNOWN then
        TaskType_name.foldl (fun types t => types ++ [t]) []
      else [] ++ [taskType]) = typesAsked taskType := by
    unfold typesAsked
    by_cases hu : taskType = TaskType.UNKNOWN
    · simp [hu, TaskType_name]
    · simp [hu]
  unfold tracker.TasksByHosts
  simp only [htypes, foldl_types_appendAt]
  have hfold := foldl_hosts_appendAt (fun hostname => placedOn tr hostname taskType) hosts [] h
  simp only [placedOn] at hfold
  rw [hfold]
  simp only [repeated_eq_nil, mapGet, Option.getD_none, List.nil_append, placedOn]
  by_cases hm : h ∈ hosts
  · have hc : ¬ List.count h hosts = 0 := by
      rw [List.count_eq_zero]
      exact fun hn => hn hm
    by_cases hp : (typesAsked taskType).foldr
        (fun tType rest => indexedOn tr h tType ++ rest) [] = []
    · simp [hm, hp]
    · simp [hm, hc, hp]
  · have hc : List.count h hosts = 0 := List.count_eq_zero.mpr hm
    simp [hm, hc]

/-- C14 as stated fails on a list that repeats a hostname. With `job1-0` and
`job1-1` placed on `host1`, the query for `[host1, host1]` returns each of the
two tasks twice; the query for `[host1]` returns each once. -/
theorem TasksByHosts_counterexample :
    placedTracker.TasksByHosts ["host1", "host1"] TaskType.BATCH = [("host1", [0, 1, 0, 1])] ∧
    placedTracker.TasksByHosts ["host1"] TaskType.BATCH = [("host1", [0, 1])] ∧
    placedTracker.TasksByHosts ["host1", "host2", "host3"] TaskType.UNKNOWN =
      [("host1", [0, 1]), ("host2", [2])] := by
  decide

/-- C19 (`Enqueue` rejection). `Enqueue` returns an error and the queue as it
was when the count has reached the limit or when the gang list is empty; in
every other case it returns no error and the queue with the gang added behind
the gangs already held, at the priority of its first task, and with the count
increased by one (the count is below the limit, an `int64`, so the addition
does not wrap). -/
theorem Enqueue_spec (f : PriorityQueue) (tlist : List Task) :
    f.Enqueue tlist =
      if f.count ≥ f.limit then (f, some "queue Limit is reached")
      else if tlist = [] then (f, some "enqueue of empty list")
      else
        ({ list := { items := f.list.items ++ [(gangPriority tlist, tlist)] },
           limit := f.limit, count := f.count + 1 }, none) := by
  unfold PriorityQueue.Enqueue
  by_cases hc : f.count ≥ f.limit
  · simp [hc]
  · cases tlist with
    | nil => simp [hc]
    | cons t ts => simp [hc, MultiLevelList.Push, gangPriority]

/-- C20 (`CreateQueue`). For the policy `PriorityFIFO` the factory returns a
new priority queue with the given limit, no gang and the count zero, and no
error; for every other policy (`UNKNOWN`, which is also the unset policy) it
returns no queue and the error `Invalid queue Type`. -/
theorem CreateQueue_spec (policy : SchedulingPolicy) (limit : Int) :
    CreateQueue policy limit =
      if policy = SchedulingPolicy.PriorityFIFO then
        .ok { list := { items := [] }, limit := limit, count := 0 }
      else .error "Invalid queue Type" := by
  cases policy <;> rfl

/-! ## Properties of the ORM table -/

/-- C18 as stated fails. On a row with a `nil` value `SetObjectFromRow` skips
the column, the field keeps what it held, and the row read back carries that
value and not `nil`; a pointer in the row is read back as the value it points
to; with two columns mapped to one field both are read back with the value
that was written last; and a mapped field of the original that holds `nil` is
not copied to the other object. -/
theorem row_round_trip_counterexample :
    sampleTable.GetRowFromObject
        (sampleTable.SetObjectFromRow sampleObject
          [{ Name := "name", Value := none }, { Name := "data", Value := some (.plain "new") }]) =
      [{ Name := "name", Value := some (.plain "old") },
       { Name := "data", Value := some (.plain "new") }] ∧
    sampleTable.GetRowFromObject
        (sampleTable.SetObjectFromRow sampleObject
          [{ Name := "name", Value := some (.pointer (.plain "job")) },
           { Name := "data", Value := some (.plain "new") }]) =
      [{ Name := "name", Value := some (.plain "job") },
       { Name := "data", Value := some (.plain "new") }] ∧
    Table.GetRowFromObject { ColToField := [("a", "Name"), ("b", "Name")] }
        (Table.SetObjectFromRow { ColToField := [("a", "Name"), ("b", "Name")] } sampleObject
          [{ Name := "a", Value := some (.plain "one") },
           { Name := "b", Value := some (.plain "two") }]) =
      [{ Name := "a", Value := some (.plain "two") },
       { Name := "b", Value := some (.plain "two") }] ∧
    emptyObject "Name" = none ∧
    sampleTable.SetObjectFromRow sampleObject (sampleTable.GetRowFromObject emptyObject) "Name" =
      some (.plain "old") := by
  decide

theorem foldl_snoc_map {α β : Type} (g : α → β) (l : List α) (init : List β) :
    l.foldl (fun row x => row ++ [g x]) init = init ++ l.map g := by
  induction l generalizing init with
  | nil => simp
  | cons x l ih => simp [List.foldl_cons, ih]

theorem GetRowFromObject_eq (t : Table) (e : Object) :
    t.GetRowFromObject e = t.ColToField.map (fun cf => { Name := cf.1, Value := e cf.2 }) := by
  unfold Table.GetRowFromObject
  rw [foldl_snoc_map (fun cf : String × String => ({ Name := cf.1, Value := e cf.2 } : Column))]
  simp

theorem columnsMap_notin (row : List Column) (m : List (String × Option Value)) (k : String)
    (hk : k ∉ row.map (fun c => c.Name)) :
    mapGet (row.foldl (fun m column => mapSet m column.Name column.Value) m) k = mapGet m k := by
  induction row generalizing m with
  | nil => rfl
  | cons c row ih =>
    simp only [List.map_cons, List.mem_cons, not_or] at hk
    simp only [List.foldl_cons]
    rw [ih _ hk.2, mapGet_mapSet]
    have : ¬ c.Name = k := fun h => hk.1 h.symm
    simp [this]

theorem columnsMap_get (row : List Column) (m : List (String × Option Value)) (c : Column)
    (hnd : (row.map (fun c => c.Name)).Nodup) (hc : c ∈ row) :
    mapGet (row.foldl (fun m column => mapSet m column.Name column.Value) m) c.Name =
      some c.Value := by
  induction row generalizing m with
  | nil => simp at hc
  | cons c0 row ih =>
    simp only [List.map_cons, List.nodup_cons] at hnd
    simp only [List.foldl_cons]
    rcases List.mem_cons.mp hc with h0 | h0
    · subst h0
      rw [columnsMap_notin _ _ _ hnd.1, mapGet_mapSet]
      simp
    · exact ih _ hnd.2 h0

theorem setFold_notin (cm : List (String × Option Value)) (l : List (String × String))
    (e : Object) (f : String) (hf : f ∉ l.map Prod.snd) :
    (l.foldl
      (fun (r : Object) cf =>
        match (mapGet cm cf.1).getD none with
        | none => r
        | some fv => fun field => if field = cf.2 then some fv.Indirect else r field)
      e) f = e f := by
  induction l generalizing e with
  | nil => rfl
  | cons cf l ih =>
    simp only [List.map_cons, List.mem_cons, not_or] at hf
    simp only [List.foldl_cons]
    rw [ih _ hf.2]
    cases (mapGet cm cf.1).getD none with
    | none => rfl
    | some fv => simp [hf.1]

/-- A field to which columns are mapped that all carry the value `w` holds
`w`, dereferenced, after the loop of `SetObjectFromRow`. -/
theorem setFold_set (cm : List (String × Option Value)) (l : List (String × String))
    (e : Object) (f : String) (w : Value)
    (hall : ∀ cf ∈ l, cf.2 = f → (mapGet cm cf.1).getD none = some w)
    (hex : ∃ cf ∈ l, cf.2 = f) :
    (l.foldl
      (fun (r : Object) cf =>
        match (mapGet cm cf.1).getD none with
        | none => r
        | some fv => fun field => if field = cf.2 then some fv.Indirect else r field)
      e) f = some w.Indirect := by
  induction l generalizing e with
  | nil =>
    obtain ⟨cf, hcf, _⟩ := hex
    simp at hcf
  | cons cf l ih =>
    simp only [List.foldl_cons]
    by_cases hlater : ∃ cf' ∈ l, cf'.2 = f
    · exact ih _ (fun cf' hcf' => hall cf' (List.mem_cons_of_mem _ hcf')) hlater
    · have hnot : f ∉ l.map Prod.snd := by
        intro hmem
        obtain ⟨cf', hcf', heq⟩ := List.mem_map.mp hmem
        exact hlater ⟨cf', hcf', heq⟩
      rw [setFold_notin cm l _ f hnot]
      obtain ⟨cf', hcf', heq⟩ := hex
      rcases List.mem_cons.mp hcf' with h0 | h0
      · subst h0
        rw [hall cf' (List.mem_cons_self _ _) heq]
        simp [heq]
      · exact absurd ⟨cf', h0, heq⟩ hlater

theorem plainValue_spec (v : Option Value) (h : plainValue v = true) :
    ∃ w, v = some w ∧ w.Indirect = w := by
  cases v with
  | none => simp [plainValue] at h
  | some w =>
    cases w with
    | plain s => exact ⟨.plain s, rfl, rfl⟩
    | pointer p => simp [plainValue] at h

theorem pair_of_fst_eq (l : List (String × String)) (hnd : (l.map Prod.fst).Nodup)
    (a b : String × String) (ha : a ∈ l) (hb : b ∈ l) (h : a.1 = b.1) : a = b := by
  induction l with
  | nil => simp at ha
  | cons x l ih =>
    simp only [List.map_cons, List.nodup_cons] at hnd
    rcases List.mem_cons.mp ha with ha0 | ha0 <;> rcases List.mem_cons.mp hb with hb0 | hb0
    · rw [ha0, hb0]
    · subst ha0
      exact absurd (List.mem_map.mpr ⟨b, hb0, h.symm⟩) hnd.1
    · subst hb0
      exact absurd (List.mem_map.mpr ⟨a, ha0, h⟩) hnd.1
    · exact ih hnd.2 ha0 hb0

theorem pair_of_snd_eq (l : List (String × String)) (hnd : (l.map Prod.snd).Nodup)
    (a b : String × String) (ha : a ∈ l) (hb : b ∈ l) (h : a.2 = b.2) : a = b := by
  induction l with
  | nil => simp at ha
  | cons x l ih =>
    simp only [List.map_cons, List.nodup_cons] at hnd
    rcases List.mem_cons.mp ha with ha0 | ha0 <;> rcases List.mem_cons.mp hb with hb0 | hb0
    · rw [ha0, hb0]
    · subst ha0
      exact absurd (List.mem_map.mpr ⟨b, hb0, h.symm⟩) hnd.1
    · subst hb0
      exact absurd (List.mem_map.mpr ⟨a, ha0, h⟩) hnd.1
    · exact ih hnd.2 ha0 hb0

theorem column_of_name_eq (row : List Column) (hnd : (row.map (fun c => c.Name)).Nodup)
    (a b : Column) (ha : a ∈ row) (hb : b ∈ row) (h : a.Name = b.Name) : a = b := by
  induction row with
  | nil => simp at ha
  | cons x l ih =>
    simp only [List.map_cons, List.nodup_cons] at hnd
    rcases List.mem_cons.mp ha with ha0 | ha0 <;> rcases List.mem_cons.mp hb with hb0 | hb0
    · rw [ha0, hb0]
    · subst ha0
      exact absurd (List.mem_map.mpr ⟨b, hb0, h.symm⟩) hnd.1
    · subst hb0
      exact absurd (List.mem_map.mpr ⟨a, ha0, h⟩) hnd.1
    · exact ih hnd.2 ha0 hb0

/-- What `SetObjectFromRow` leaves in a mapped field, for a row with one plain
value for each column and a table that maps its columns to different fields:
the value of the column of the field. -/
theorem SetObjectFromRow_field (t : Table) (e : Object) (row : List Column)
    (hfields : (t.ColToField.map Prod.snd).Nodup)
    (hnames : (row.map (fun c => c.Name)).Nodup)
    (hcols : (row.map (fun c => c.Name)).Perm (t.ColToField.map Prod.fst))
    (hvals : ∀ c ∈ row, plainValue c.Value = true)
    (cf : String × String) (hcf : cf ∈ t.ColToField) :
    ∃ c ∈ row, c.Name = cf.1 ∧ t.SetObjectFromRow e row cf.2 = c.Value := by
  have hin : cf.1 ∈ row.map (fun c => c.Name) :=
    hcols.symm.subset (List.mem_map.mpr ⟨cf, hcf, rfl⟩)
  obtain ⟨c, hc, hname⟩ := List.mem_map.mp hin
  obtain ⟨w, hw, hind⟩ := plainValue_spec c.Value (hvals c hc)
  refine ⟨c, hc, hname, ?_⟩
  have hget := columnsMap_get row [] c hnames hc
  unfold Table.SetObjectFromRow
  simp only
  rw [setFold_set _ t.ColToField e cf.2 w ?_ ⟨cf, hcf, rfl⟩, hind, hw]
  intro cf' hcf' heq
  have : cf' = cf := pair_of_snd_eq t.ColToField hfields cf' cf hcf' hcf heq
  subst this
  rw [← hname, hget, hw]
  rfl

/-- C18, as amended (ORM row round trip). For every table that maps its
columns to pairwise different fields and every row that holds exactly one
column for each column of the table, with values that are neither `nil` nor
pointers, `SetObjectFromRow` followed by `GetRowFromObject` yields the columns
of the row; and for every object whose mapped fields hold values that are
neither `nil` nor pointers, `GetRowFromObject` followed by `SetObjectFromRow`
into another object makes every mapped field of that object equal to the
original's. -/
theorem row_round_trip (t : Table) (e : Object) (row : List Column) (e1 e2 : Object)
    (hkeys : (t.ColToField.map Prod.fst).Nodup)
    (hfields : (t.ColToField.map Prod.snd).Nodup)
    (hcols : (row.map (fun c => c.Name)).Perm (t.ColToField.map Prod.fst))
    (hvals : ∀ c ∈ row, plainValue c.Value = true)
    (hobj : ∀ cf ∈ t.ColToField, plainValue (e1 cf.2) = true) :
    (∀ c, c ∈ t.GetRowFromObject (t.SetObjectFromRow e row) ↔ c ∈ row) ∧
    (∀ cf ∈ t.ColToField,
      t.SetObjectFromRow e2 (t.GetRowFromObject e1) cf.2 = e1 cf.2) := by
  have hnames : (row.map (fun c => c.Name)).Nodup := hcols.nodup_iff.mpr hkeys
  refine ⟨?_, ?_⟩
  · intro c
    rw [GetRowFromObject_eq]
    constructor
    · intro hc
      obtain ⟨cf, hcf, rfl⟩ := List.mem_map.mp hc
      obtain ⟨c0, hc0, hname, hval⟩ :=
        SetObjectFromRow_field t e row hfields hnames hcols hvals cf hcf
      have : c0 = { Name := cf.1, Value := t.SetObjectFromRow e row cf.2 } := by
        cases c0
        simp only [Column.mk.injEq]
        exact ⟨hname, hval.symm⟩
      rw [← this]
      exact hc0
    · intro hc
      have hin : c.Name ∈ t.ColToField.map Prod.fst :=
        hcols.subset (List.mem_map.mpr ⟨c, hc, rfl⟩)
      obtain ⟨cf, hcf, hname⟩ := List.mem_map.mp hin
      obtain ⟨c0, hc0, hname0, hval⟩ :=
        SetObjectFromRow_field t e row hfields hnames hcols hvals cf hcf
      have hcc : c0 = c := column_of_name_eq row hnames c0 c hc0 hc (by rw [hname0, hname])
      subst hcc
      refine List.mem_map.mpr ⟨cf, hcf, ?_⟩
      cases c0
      simp only [Column.mk.injEq]
      exact ⟨hname0.symm, hval⟩
  · intro cf hcf
    obtain ⟨w, hw, hind⟩ := plainValue_spec (e1 cf.2) (hobj cf hcf)
    have hrow : (t.GetRowFromObject e1).map (fun c => c.Name) = t.ColToField.map Prod.fst := by
      rw [GetRowFromObject_eq]
      simp [Function.comp]
    have hnd1 : ((t.GetRowFromObject e1).map (fun c => c.Name)).Nodup := by
      rw [hrow]; exact hkeys
    have hlook : ∀ cf' ∈ t.ColToField,
        mapGet ((t.GetRowFromObject e1).foldl
          (fun m column => mapSet m column.Name column.Value) []) cf'.1 = some (e1 cf'.2) := by
      intro cf' hcf'
      have hmem : ({ Name := cf'.1, Value := e1 cf'.2 } : Column) ∈ t.GetRowFromObject e1 := by
        rw [GetRowFromObject_eq]
        exact List.mem_map.mpr ⟨cf', hcf', rfl⟩
      exact columnsMap_get _ [] _ hnd1 hmem
    unfold Table.SetObjectFromRow
    simp only
    rw [setFold_set _ t.ColToField e2 cf.2 w ?_ ⟨cf, hcf, rfl⟩, hind, hw]
    intro cf' hcf' heq
    rw [hlook cf' hcf', heq, hw]
    rfl

/-- C18, as amended, at the sample table: a row with the two columns in the
other order is read back from an empty object, and the fields of the sample
object are carried over to an empty object. -/
theorem row_round_trip_witness :
    (∀ c, c ∈ sampleTable.GetRowFromObject
        (sampleTable.SetObjectFromRow emptyObject
          [{ Name := "data", Value := some (.plain "new") },
           { Name := "name", Value := some (.plain "job") }]) ↔
      c ∈ [({ Name := "data", Value := some (.plain "new") } : Column),
           { Name := "name", Value := some (.plain "job") }]) ∧
    (∀ cf ∈ sampleTable.ColToField,
      sampleTable.SetObjectFromRow emptyObject (sampleTable.GetRowFromObject sampleObject) cf.2 =
        sampleObject cf.2) :=
  row_round_trip sampleTable emptyObject
    [{ Name := "data", Value := some (.plain "new") },
     { Name := "name", Value := some (.plain "job") }]
    sampleObject emptyObject (by decide) (by decide)
    (List.Perm.swap "name" "data" []) (by decide) (by decide)

/-! ## Properties of the preemptor -/

theorem foldl_eligible (threshold : Int) (l : List (String × Int)) (init : List String) :
    l.foldl (fun resPools entry =>
        if entry.2 ≥ threshold then resPools ++ [entry.1] else resPools) init =
      init ++ (l.filter (fun entry => decide (entry.2 ≥ threshold))).map Prod.fst := by
  induction l generalizing init with
  | nil => simp
  | cons e l ih =>
    simp only [List.foldl_cons, ih]
    by_cases h : e.2 ≥ threshold
    · simp [h, List.filter_cons]
    · simp [h, List.filter_cons]

theorem mem_iff_mapGet {α : Type} (m : List (String × α)) (hnd : (m.map Prod.fst).Nodup)
    (k : String) (v : α) : (k, v) ∈ m ↔ mapGet m k = some v := by
  induction m with
  | nil => simp [mapGet]
  | cons e m ih =>
    obtain ⟨k0, v0⟩ := e
    simp only [List.map_cons, List.nodup_cons] at hnd
    by_cases h0 : k0 = k
    · subst h0
      simp only [List.mem_cons, Prod.mk.injEq, true_and, mapGet, if_true, Option.some.injEq]
      constructor
      · rintro (h | h)
        · exact h.symm
        · exact absurd (List.mem_map.mpr ⟨(k0, v), h, rfl⟩) hnd.1
      · intro h
        exact Or.inl h.symm
    · have h0' : ¬ k = k0 := fun h => h0 h.symm
      simp [mapGet, h0, h0', ih hnd.2]

theorem Equal_Subtract_zero (a e : Resources) :
    ZeroResource.Equal (a.Subtract e) = !exceeds a e := by
  simp only [Resources.Equal, ZeroResource, Resources.Subtract, exceeds]
  by_cases h1 : a.CPU > e.CPU <;> by_cases h2 : a.MEMORY > e.MEMORY <;>
    by_cases h3 : a.DISK > e.DISK <;> by_cases h4 : a.GPU > e.GPU <;>
    simp [h1, h2, h3, h4] <;> omega

/-- The loop of `updateResourcePoolsState` over leaves with different ids: the
count of a leaf is reset when its allocation is not above its entitlement and
is one more than before when it is, and the count of any other pool is as it
was. -/
theorem foldl_updateCount {ρ θ : Type} (penv : PreemptorEnv ρ θ) (resPools : Nat → ρ)
    (nodes : List Nat) (m : List (String × Int))
    (hnd : (nodes.map (fun n => penv.ID (resPools n))).Nodup) :
    (∀ n ∈ nodes, mapGet (nodes.foldl (updateCount penv resPools) m) (penv.ID (resPools n)) =
      some (if exceeds (penv.GetAllocation (resPools n)) (penv.GetEntitlement (resPools n)) then
          (mapGet m (penv.ID (resPools n))).getD 0 + 1
        else 0)) ∧
    (∀ id, (∀ n ∈ nodes, penv.ID (resPools n) ≠ id) →
      mapGet (nodes.foldl (updateCount penv resPools) m) id = mapGet m id) := by
  induction nodes generalizing m with
  | nil => simp
  | cons n nodes ih =>
    simp only [List.map_cons, List.nodup_cons] at hnd
    simp only [List.foldl_cons]
    obtain ⟨ih1, ih2⟩ := ih (updateCount penv resPools m n) hnd.2
    have hstep : ∀ id, mapGet (updateCount penv resPools m n) id =
        if penv.ID (resPools n) = id then
          some (if exceeds (penv.GetAllocation (resPools n)) (penv.GetEntitlement (resPools n)) then
            (mapGet m (penv.ID (resPools n))).getD 0 + 1 else 0)
        else mapGet m id := by
      intro id
      unfold updateCount
      simp only [Equal_Subtract_zero]
      by_cases hx : exceeds (penv.GetAllocation (resPools n)) (penv.GetEntitlement (resPools n))
      · simp [hx, mapGet_mapSet]
      · simp [hx, mapGet_mapSet]
    refine ⟨?_, ?_⟩
    · intro n' hn'
      rcases List.mem_cons.mp hn' with h0 | h0
      · subst h0
        rw [ih2 _ (fun n'' hn'' heq => hnd.1 (List.mem_map.mpr ⟨n'', hn'', heq⟩)), hstep]
        simp
      · have hne : penv.ID (resPools n) ≠ penv.ID (resPools n') := by
          intro heq
          exact hnd.1 (List.mem_map.mpr ⟨n', h0, heq.symm⟩)
        rw [ih1 n' h0, hstep]
        simp [hne]
    · intro id hid
      have hne : penv.ID (resPools n) ≠ id := hid n (List.mem_cons_self _ _)
      rw [ih2 id (fun n' hn' => hid n' (List.mem_cons_of_mem _ hn')), hstep]
      simp [hne]

/-- One step of the counters of the preemptor. `getEligibleResPools` returns a
pool id exactly when the count of the pool is at least
`sustainedOverAllocationCount`. A cycle (`updateResourcePoolsState`) resets the
count of every leaf pool whose allocation is not above its entitlement on any
dimension, adds one to the count of every leaf pool whose allocation is above
its entitlement on some dimension (from zero when it has no count), and leaves
the count of every pool that is not a leaf as it was; `markProcessed` resets
the count of the processed pool and leaves the other counts as they were. -/
theorem eligibility_one_cycle {ρ θ : Type} (penv : PreemptorEnv ρ θ) (p : preemptor ρ θ)
    (id : String)
    (hmap : (p.respoolState.map Prod.fst).Nodup)
    (hleaves : (p.leafNodes.map (fun n => penv.ID (p.resPools n))).Nodup) :
    (id ∈ p.getEligibleResPools ↔
      ∃ count, mapGet p.respoolState id = some count ∧ count ≥ p.sustainedOverAllocationCount) ∧
    (∀ n ∈ p.leafNodes,
      mapGet (p.updateResourcePoolsState penv).respoolState (penv.ID (p.resPools n)) =
        some (if exceeds (penv.GetAllocation (p.resPools n)) (penv.GetEntitlement (p.resPools n))
          then (mapGet p.respoolState (penv.ID (p.resPools n))).getD 0 + 1
          else 0)) ∧
    ((∀ n ∈ p.leafNodes, penv.ID (p.resPools n) ≠ id) →
      mapGet (p.updateResourcePoolsState penv).respoolState id = mapGet p.respoolState id) ∧
    mapGet (p.markProcessed id).respoolState id = some 0 ∧
    (∀ id', id' ≠ id →
      mapGet (p.markProcessed id).respoolState id' = mapGet p.respoolState id') := by
  obtain ⟨h1, h2⟩ := foldl_updateCount penv p.resPools p.leafNodes p.respoolState hleaves
  refine ⟨?_, h1, h2 id, ?_, ?_⟩
  · unfold preemptor.getEligibleResPools
    rw [foldl_eligible]
    simp only [List.nil_append, List.mem_map, List.mem_filter, decide_eq_true_eq]
    constructor
    · rintro ⟨⟨k, c⟩, ⟨hmem, hc⟩, rfl⟩
      exact ⟨c, (mem_iff_mapGet _ hmap k c).mp hmem, hc⟩
    · rintro ⟨c, hget, hc⟩
      exact ⟨(id, c), ⟨(mem_iff_mapGet _ hmap id c).mpr hget, hc⟩, rfl⟩
  · simp [preemptor.markProcessed, mapGet_mapSet]
  · intro id' hne
    have hne' : ¬ id = id' := fun h => hne h.symm
    simp [preemptor.markProcessed, mapGet_mapSet, hne']

/-- C15 as stated fails for a pool that is not a leaf. With the threshold 0,
the pool `respool1` is counted while it is a leaf (not over-allocated, count
0) and is still returned in the next cycle, in which the tree has no leaf.
With the threshold 2, the over-allocated pool is counted in a first cycle, is
not a leaf in the second, which leaves its count at 1, and is returned in the
third, where it is a leaf again. Before the first cycle no pool has a count:
with the threshold 0 the leaf `respool1` is not returned, although the number
of its over-allocated cycles, 0, is at least the threshold. -/
theorem preemption_eligibility_counterexample :
    (sampleCycle [] (sampleCycle [0]
      (samplePreemptor 0 (sampleHandler roomyQueue)))).getEligibleResPools = ["respool1"] ∧
    (sampleCycle [] (sampleCycle [0]
      (samplePreemptor 0 (sampleHandler roomyQueue)))).leafNodes = [] ∧
    (sampleCycle [] (sampleCycle [0]
      { samplePreemptor 2 (sampleHandler roomyQueue) with
        resPools := fun _ => overPool })).getEligibleResPools = [] ∧
    (sampleCycle [0] (sampleCycle [] (sampleCycle [0]
      { samplePreemptor 2 (sampleHandler roomyQueue) with
        resPools := fun _ => overPool }))).getEligibleResPools = ["respool1"] ∧
    (samplePreemptor 0 (sampleHandler roomyQueue)).leafNodes = [0] ∧
    (samplePreemptor 0 (sampleHandler roomyQueue)).getEligibleResPools = [] := by
  decide

/-- What `evictReadyTask` does to the tracker and to the preemption queue: the
queue and the task map are as they were, and the tracker is as it was or has
had one task asked to transit to `PENDING`. -/
theorem evictReadyTask_tracker {σ ρ μ θ : Type} (env : Env σ ρ μ) (p : preemptor ρ θ)
    (rmTask respool : Nat) :
    (p.evictReadyTask env rmTask respool).1.preemptionQueue = p.preemptionQueue ∧
    ((p.evictReadyTask env rmTask respool).1.tracker = p.tracker ∨
      ∃ trackedTask, (p.evictReadyTask env rmTask respool).1.tracker =
        p.tracker.modify trackedTask (fun o => (o.TransitTo TaskState.PENDING).1)) := by
  unfold preemptor.evictReadyTask
  simp only
  cases hget : p.tracker.GetTask (p.tracker.rmTasks rmTask).task.Id with
  | none => exact ⟨rfl, Or.inl rfl⟩
  | some trackedTask =>
    have hm := modify_const p.tracker trackedTask (fun o => (o.TransitTo TaskState.PENDING).1)
    simp only at hm
    simp only
    split
    · next o e heq =>
      refine ⟨rfl, Or.inr ⟨trackedTask, ?_⟩⟩
      simp only
      rw [← hm, heq]
    · next o heq =>
      have ho : o = ((p.tracker.rmTasks trackedTask).TransitTo TaskState.PENDING).1 := by
        rw [heq]
      split
      · refine ⟨rfl, Or.inr ⟨trackedTask, ?_⟩⟩
        simp only
        rw [← hm, ho]
      · split
        · refine ⟨rfl, Or.inr ⟨trackedTask, ?_⟩⟩
          simp only
          rw [← hm, ho]
        · split
          · refine ⟨rfl, Or.inr ⟨trackedTask, ?_⟩⟩
            simp only
            rw [← hm, ho]
          · refine ⟨rfl, Or.inr ⟨trackedTask, ?_⟩⟩
            simp only
            rw [← hm, ho]

/-- A request to transit to `PENDING` leaves the task message of every task
object as it was and leaves a `RUNNING` task object as it was; no task object
becomes `RUNNING` by it. -/
theorem modify_pending (tr : tracker) (trackedTask r : Nat) :
    ((tr.modify trackedTask (fun o => (o.TransitTo TaskState.PENDING).1)).rmTasks r).task =
      (tr.rmTasks r).task ∧
    ((tr.rmTasks r).state = TaskState.RUNNING →
      (tr.modify trackedTask (fun o => (o.TransitTo TaskState.PENDING).1)).rmTasks r =
        tr.rmTasks r) ∧
    (((tr.modify trackedTask (fun o => (o.TransitTo TaskState.PENDING).1)).rmTasks r).state =
        TaskState.RUNNING → (tr.rmTasks r).state = TaskState.RUNNING) := by
  by_cases hr : r = trackedTask
  · subst hr
    simp only [tracker.modify, if_true, RMTask.TransitTo]
    by_cases ha : transitionAllowed (tr.rmTasks r).state TaskState.PENDING = true
    · simp only [ha, if_true]
      refine ⟨?_, ?_, ?_⟩
      · first | rfl | trivial
      · intro hs
        rw [hs] at ha
        exact absurd ha (by decide)
      · intro hs
        exact absurd hs (by decide)
    · simp [ha]
  · simp [tracker.modify, hr]

theorem sameRunning_modify (tr tr0 : tracker) (trackedTask : Nat) (h : sameRunning tr tr0) :
    sameRunning (tr.modify trackedTask (fun o => (o.TransitTo TaskState.PENDING).1)) tr0 := by
  obtain ⟨h1, h2, h3⟩ := h
  refine ⟨?_, ?_, ?_⟩
  · intro r
    rw [(modify_pending tr trackedTask r).1, h1]
  · intro r hr
    have hs : (tr.rmTasks r).state = TaskState.RUNNING := by rw [h2 r hr]; exact hr
    rw [(modify_pending tr trackedTask r).2.1 hs, h2 r hr]
  · intro r hr
    exact h3 r ((modify_pending tr trackedTask r).2.2 hr)

/-- One step of the loop of `processResourcePool`: a `RUNNING` task is handed
to the preemption queue and nothing else is done with it. -/
theorem processTask_step {σ ρ μ θ : Type} (env : Env σ ρ μ) (penv : PreemptorEnv ρ θ)
    (resourcePool : Nat) (p : preemptor ρ θ) (errs : List String) (t : Nat) (tr0 : tracker)
    (hinv : sameRunning p.tracker tr0) :
    (preemptor.processTask env penv resourcePool (p, errs) t).1.preemptionQueue =
      (if (tr0.rmTasks t).state = TaskState.RUNNING then
        (penv.QueueEnqueue p.preemptionQueue (tr0.rmTasks t).task).1
      else p.preemptionQueue) ∧
    sameRunning (preemptor.processTask env penv resourcePool (p, errs) t).1.tracker tr0 := by
  by_cases hrun : (tr0.rmTasks t).state = TaskState.RUNNING
  · have hobj := hinv.2.1 t hrun
    have hst : (p.tracker.rmTasks t).state = TaskState.RUNNING := by rw [hobj]; exact hrun
    unfold preemptor.processTask
    simp only [hst, hrun, if_true]
    rw [hobj]
    cases hq : penv.QueueEnqueue p.preemptionQueue (tr0.rmTasks t).task with
    | mk queue err =>
      cases err with
      | none => exact ⟨rfl, hinv⟩
      | some e => exact ⟨rfl, hinv⟩
  · have hst : (p.tracker.rmTasks t).state ≠ TaskState.RUNNING := fun hs => hrun (hinv.2.2 t hs)
    simp only [hrun, if_false]
    unfold preemptor.processTask
    by_cases hready : (p.tracker.rmTasks t).state = TaskState.READY
    · simp only [hready]
      obtain ⟨hq, htr⟩ := evictReadyTask_tracker env p t resourcePool
      have hres : (match p.evictReadyTask env t resourcePool with
          | (p', some err) =>
            (p', errs ++ ["unable to evict READY task ID:" ++
              (p.tracker.rmTasks t).task.Id ++ ": " ++ err])
          | (p', none) => (p', errs)).1 = (p.evictReadyTask env t resourcePool).1 := by
        cases p.evictReadyTask env t resourcePool with
        | mk p' err => cases err <;> rfl
      rw [hres]
      refine ⟨hq, ?_⟩
      rcases htr with h | ⟨tt, h⟩
      · rw [h]; exact hinv
      · rw [h]; exact sameRunning_modify _ _ tt hinv
    · have : (match (p.tracker.rmTasks t).state with
          | TaskState.RUNNING =>
            match penv.QueueEnqueue p.preemptionQueue (p.tracker.rmTasks t).task with
            | (queue, some err) =>
              ({ p with preemptionQueue := queue },
                errs ++ ["unable to add RUNNING task to preemption queue task ID:" ++
                  (p.tracker.rmTasks t).task.Id ++ ": " ++ err])
            | (queue, none) => ({ p with preemptionQueue := queue }, errs)
          | TaskState.READY =>
            match p.evictReadyTask env t resourcePool with
            | (p', some err) =>
              (p', errs ++ ["unable to evict READY task ID:" ++
                (p.tracker.rmTasks t).task.Id ++ ": " ++ err])
            | (p', none) => (p', errs)
          | _ => (p, errs)) = (p, errs) := by
        cases hs : (p.tracker.rmTasks t).state <;> simp_all
      rw [this]
      exact ⟨rfl, hinv⟩

/-- The loop of `processResourcePool` over the tasks to evict. -/
theorem foldl_processTask {σ ρ μ θ : Type} (env : Env σ ρ μ) (penv : PreemptorEnv ρ θ)
    (resourcePool : Nat) (ts : List Nat) (p : preemptor ρ θ) (errs : List String)
    (tr0 : tracker) (hinv : sameRunning p.tracker tr0) :
    (ts.foldl (preemptor.processTask env penv resourcePool) (p, errs)).1.preemptionQueue =
      pushRunning penv tr0 ts p.preemptionQueue ∧
    sameRunning (ts.foldl (preemptor.processTask env penv resourcePool) (p, errs)).1.tracker
      tr0 := by
  induction ts generalizing p errs with
  | nil => exact ⟨rfl, hinv⟩
  | cons t ts ih =>
    simp only [List.foldl_cons, pushRunning]
    obtain ⟨hq, hinv'⟩ := processTask_step env penv resourcePool p errs t tr0 hinv
    obtain ⟨ih1, ih2⟩ := ih (preemptor.processTask env penv resourcePool (p, errs) t).1
      (preemptor.processTask env penv resourcePool (p, errs) t).2 hinv'
    refine ⟨?_, ih2⟩
    rw [ih1, hq]
    rfl

/-- C16 (amended). For a task that the tracker holds, `evictReadyTask` requests
the transition of the tracked task to `PENDING`. When the transition is refused
every pool is left as it was and no error is returned. When it is allowed, the
pool's `EnqueueGang` is called with a gang of exactly the task message (run id
included); if that succeeds `AddToDemand` is called with exactly the task's
resources, and if that succeeds `SubtractFromAllocation` is called with exactly
the task's resources. The first call that fails ends the eviction with its
error, the later calls not being made. No other pool and no other tracked task
is touched, nor is the preemption queue. -/
theorem evictReadyTask_spec {σ ρ μ θ : Type} (env : Env σ ρ μ) (p : preemptor ρ θ)
    (rmTask respool trackedTask : Nat)
    (htracked : p.tracker.GetTask (p.tracker.rmTasks rmTask).task.Id = some trackedTask) :
    let task := (p.tracker.rmTasks rmTask).task
    let transit := (p.tracker.rmTasks trackedTask).TransitTo TaskState.PENDING
    let e1 := env.ResPoolEnqueueGang (p.resPools respool) { Tasks := [task] }
    let e2 := env.AddToDemand e1.1 task.Resource
    let e3 := env.SubtractFromAllocation e2.1 task.Resource
    let r := p.evictReadyTask env rmTask respool
    r.1.tracker = p.tracker.modify trackedTask (fun _ => transit.1) ∧
    r.1.preemptionQueue = p.preemptionQueue ∧
    (∀ other, other ≠ respool → r.1.resPools other = p.resPools other) ∧
    (transit.2.isSome → r.1.resPools respool = p.resPools respool ∧ r.2 = none) ∧
    (transit.2 = none →
      r.1.resPools respool =
        (if e1.2.isSome then e1.1 else if e2.2.isSome then e2.1 else e3.1) ∧
      r.2 =
        (if e1.2.isSome then e1.2.map (fun err => "unable to enqueue gang to resource pool: " ++ err)
        else if e2.2.isSome then
          e2.2.map (fun err => "unable to add task resources to resource pool demand: " ++ err)
        else e3.2.map (fun err => "unable to subtract allocation from resource pool: " ++ err))) := by
  intro task transit e1 e2 e3 r
  have hr : r = p.evictReadyTask env rmTask respool := rfl
  unfold preemptor.evictReadyTask at hr
  simp only [htracked] at hr
  rcases ht : (p.tracker.rmTasks trackedTask).TransitTo TaskState.PENDING with ⟨o, _ | terr⟩
  · have ht1 : transit = (o, none) := ht
    rw [ht] at hr
    simp only at hr
    rcases h1 : env.ResPoolEnqueueGang (p.resPools respool)
        { Tasks := [(p.tracker.rmTasks rmTask).task] } with ⟨pool1, _ | err1⟩
    · have he1 : e1 = (pool1, none) := h1
      rw [h1] at hr
      simp only at hr
      rcases h2 : env.AddToDemand pool1 (p.tracker.rmTasks rmTask).task.Resource
        with ⟨pool2, _ | err2⟩
      · have he2 : e2 = (pool2, none) := by
          show env.AddToDemand e1.1 _ = _
          rw [he1]; exact h2
        rw [h2] at hr
        simp only at hr
        rcases h3 : env.SubtractFromAllocation pool2 (p.tracker.rmTasks rmTask).task.Resource
          with ⟨pool3, _ | err3⟩
        · have he3 : e3 = (pool3, none) := by
            show env.SubtractFromAllocation e2.1 _ = _
            rw [he2]; exact h3
          rw [h3] at hr
          simp only at hr
          rw [hr, ht1, he1, he2, he3]
          refine ⟨rfl, rfl, ?_, ?_, ?_⟩
          · intro other hne; simp [hne]
          · intro hsome; simp at hsome
          · intro _; simp
        · have he3 : e3 = (pool3, some err3) := by
            show env.SubtractFromAllocation e2.1 _ = _
            rw [he2]; exact h3
          rw [h3] at hr
          simp only at hr
          rw [hr, ht1, he1, he2, he3]
          refine ⟨rfl, rfl, ?_, ?_, ?_⟩
          · intro other hne; simp [hne]
          · intro hsome; simp at hsome
          · intro _; simp
      · have he2 : e2 = (pool2, some err2) := by
          show env.AddToDemand e1.1 _ = _
          rw [he1]; exact h2
        rw [h2] at hr
        simp only at hr
        rw [hr, ht1, he1, he2]
        refine ⟨rfl, rfl, ?_, ?_, ?_⟩
        · intro other hne; simp [hne]
        · intro hsome; simp at hsome
        · intro _; simp
    · have he1 : e1 = (pool1, some err1) := h1
      rw [h1] at hr
      simp only at hr
      rw [hr, ht1, he1]
      refine ⟨rfl, rfl, ?_, ?_, ?_⟩
      · intro other hne; simp [hne]
      · intro hsome; simp at hsome
      · intro _; simp
  · have ht1 : transit = (o, some terr) := ht
    rw [ht] at hr
    simp only at hr
    rw [hr, ht1]
    refine ⟨rfl, rfl, ?_, ?_, ?_⟩
    · intro other _; rfl
    · intro _; exact ⟨rfl, rfl⟩
    · intro hnone; simp at hnone

/-- C16, as amended, at the eviction of the tracked `READY` task `job1-0` from
the pool `respool1`. -/
theorem evictReadyTask_spec_witness :
    (evictingPreemptor TaskState.READY).tracker.GetTask
        ((evictingPreemptor TaskState.READY).tracker.rmTasks 0).task.Id = some 0 ∧
    (∀ other, other ≠ 0 →
      (((evictingPreemptor TaskState.READY).evictReadyTask sampleEnv 0 0).1.resPools other =
        (evictingPreemptor TaskState.READY).resPools other)) :=
  ⟨by decide,
    (evictReadyTask_spec sampleEnv (evictingPreemptor TaskState.READY) 0 0 0 (by decide)).2.2.1⟩

/-- C16 as stated fails when the pool's `AddToDemand` returns an error: the
tracked `READY` task `job1-0` has become `PENDING` and its gang has been
enqueued into the pool, yet the demand and the allocation of the pool are as
they were, `SubtractFromAllocation` not having been called. With a pool whose
three methods succeed the demand and the allocation are both updated. -/
theorem evictReadyTask_counterexample :
    (evictingPreemptor TaskState.READY).tracker.GetTask "job1-0" = some 0 ∧
    ((evictingPreemptor TaskState.READY).tracker.rmTasks 0).state = TaskState.READY ∧
    ((((evictingPreemptor TaskState.READY).evictReadyTask demandFailsEnv 0 0).1.tracker.rmTasks
      0).state = TaskState.PENDING) ∧
    (((evictingPreemptor TaskState.READY).evictReadyTask demandFailsEnv 0 0).1.resPools 0).pending =
      [gangA] ∧
    (((evictingPreemptor TaskState.READY).evictReadyTask demandFailsEnv 0 0).1.resPools 0).demand =
      overPool.demand ∧
    (((evictingPreemptor TaskState.READY).evictReadyTask demandFailsEnv 0 0).1.resPools
      0).allocation = overPool.allocation ∧
    ((evictingPreemptor TaskState.READY).evictReadyTask demandFailsEnv 0 0).2 =
      some "unable to add task resources to resource pool demand: demand not updated" ∧
    (((evictingPreemptor TaskState.READY).evictReadyTask sampleEnv 0 0).1.resPools 0).demand =
      { CPU := 1, MEMORY := 100, DISK := 10, GPU := 0 } ∧
    (((evictingPreemptor TaskState.READY).evictReadyTask sampleEnv 0 0).1.resPools 0).allocation =
      { CPU := 19, MEMORY := 0, DISK := 0, GPU := 0 } := by
  decide

/-- C17 (amended). For a pool that the tree holds, `processResourcePool` hands
every task to evict that is `RUNNING` to the `Enqueue` of the preemption queue,
in the order in which the ranker returned the tasks, and hands it nothing else;
it requests no transition of a `RUNNING` task, whose task object (state
included) is left as it was. -/
theorem processResourcePool_running {σ ρ μ θ : Type} (env : Env σ ρ μ) (penv : PreemptorEnv ρ θ)
    (p : preemptor ρ θ) (respoolID : String) (resourcePool : Nat)
    (hpool : p.resTree respoolID = .ok resourcePool) :
    (p.processResourcePool env penv respoolID).1.preemptionQueue =
      pushRunning penv p.tracker
        (penv.GetTasksToEvict p.tracker p.resPools respoolID
          ((penv.GetAllocation (p.resPools resourcePool)).Subtract
            (penv.GetEntitlement (p.resPools resourcePool))))
        p.preemptionQueue ∧
    (∀ t, (p.tracker.rmTasks t).state = TaskState.RUNNING →
      (p.processResourcePool env penv respoolID).1.tracker.rmTasks t = p.tracker.rmTasks t) := by
  have hinv : sameRunning p.tracker p.tracker := ⟨fun _ => rfl, fun _ _ => rfl, fun _ h => h⟩
  obtain ⟨hq, hs⟩ := foldl_processTask env penv resourcePool
    (penv.GetTasksToEvict p.tracker p.resPools respoolID
      ((penv.GetAllocation (p.resPools resourcePool)).Subtract
        (penv.GetEntitlement (p.resPools resourcePool)))) p [] p.tracker hinv
  unfold preemptor.processResourcePool
  simp only [hpool]
  exact ⟨hq, hs.2.1⟩

/-- C17, as amended, at a preemptor whose tracker holds the `RUNNING` task
`job1-0` of the pool `respool1`. -/
theorem processResourcePool_running_witness :
    (evictingPreemptor TaskState.RUNNING).resTree "respool1" = .ok 0 ∧
    (∀ t, ((evictingPreemptor TaskState.RUNNING).tracker.rmTasks t).state = TaskState.RUNNING →
      ((evictingPreemptor TaskState.RUNNING).processResourcePool sampleEnv
        (samplePenv "respool1" sampleEntitlement) "respool1").1.tracker.rmTasks t =
      (evictingPreemptor TaskState.RUNNING).tracker.rmTasks t) :=
  ⟨rfl,
    (processResourcePool_running sampleEnv (samplePenv "respool1" sampleEntitlement)
      (evictingPreemptor TaskState.RUNNING) "respool1" 0 rfl).2⟩

/-- C17 as stated fails: the `RUNNING` task `job1-0`, selected for eviction
from the over-allocated pool `respool1`, is pushed onto the preemption queue
and is still `RUNNING` afterwards, not `PREEMPTING`. -/
theorem processResourcePool_counterexample :
    ((evictingPreemptor TaskState.RUNNING).tracker.rmTasks 0).state = TaskState.RUNNING ∧
    (samplePenv "respool1" sampleEntitlement).GetTasksToEvict
      (evictingPreemptor TaskState.RUNNING).tracker (evictingPreemptor TaskState.RUNNING).resPools
      "respool1" { CPU := 10, MEMORY := 0, DISK := 0, GPU := 0 } = [0] ∧
    ((evictingPreemptor TaskState.RUNNING).processResourcePool sampleEnv
      (samplePenv "respool1" sampleEntitlement) "respool1").1.preemptionQueue =
        [mkTask "job1-0" "job1-0-1" 1] ∧
    (((evictingPreemptor TaskState.RUNNING).processResourcePool sampleEnv
      (samplePenv "respool1" sampleEntitlement) "respool1").1.tracker.rmTasks 0).state =
        TaskState.RUNNING ∧
    ((evictingPreemptor TaskState.RUNNING).processResourcePool sampleEnv
      (samplePenv "respool1" sampleEntitlement) "respool1").2 = [] := by
  decide

/-! ## Properties of `Peek` and `Remove` -/

/-- C26 fails on the code: `Remove` takes a gang out of the queue and leaves
the count as it was. A queue of limit 1 accepts the gang of `job1-0` (count
1); `Peek` returns that gang and `Remove` takes it out without error, after
which the queue holds no gang while its count is still 1, and `Enqueue` refuses
the gang of `job1-1` with `queue Limit is reached`. When the gang is taken out
with `Dequeue` instead, the count is 0 and the second gang is accepted. -/
theorem Remove_keeps_count :
    ((NewPriorityQueue 1).Enqueue gangA.Tasks).2 = none ∧
    ((NewPriorityQueue 1).Enqueue gangA.Tasks).1.count = 1 ∧
    (((NewPriorityQueue 1).Enqueue gangA.Tasks).1.Peek 1).map Except.toOption =
      some (some gangA.Tasks) ∧
    (((NewPriorityQueue 1).Enqueue gangA.Tasks).1.Remove gangA.Tasks).2 = none ∧
    (((NewPriorityQueue 1).Enqueue gangA.Tasks).1.Remove gangA.Tasks).1.gangs = [] ∧
    (((NewPriorityQueue 1).Enqueue gangA.Tasks).1.Remove gangA.Tasks).1.Len 1 = 0 ∧
    (((NewPriorityQueue 1).Enqueue gangA.Tasks).1.Remove gangA.Tasks).1.count = 1 ∧
    ((((NewPriorityQueue 1).Enqueue gangA.Tasks).1.Remove gangA.Tasks).1.Enqueue gangB.Tasks).2 =
      some "queue Limit is reached" ∧
    ((((NewPriorityQueue 1).Enqueue gangA.Tasks).1.Dequeue 1).map
      (fun r => (r.2.count, (r.2.Enqueue gangB.Tasks).2))) = some (0, none) := by
  decide

/-! ## Consistency of the placement index -/

/-- C25 fails on the code: `AddTask` of a task id that is already tracked
replaces the task of the task map and leaves the index entry of the replaced
task where it was. Task `job1-0` is added on `host1` and added again without
hostname: the task map holds the second task object, whose hostname is empty,
and the index still holds `(host1, BATCH, job1-0)`, referring to the first
task object; `DeleteTask` then empties the task map and the entry stays. When
the task is added again on `host2` the index holds it under both hosts. -/
theorem AddTask_leaves_stale_index_entry :
    (InitTaskTracker.AddTask sampleEnv (placedTask "1" "host1") 0).1.tasks = [("job1-0", 0)] ∧
    (InitTaskTracker.AddTask sampleEnv (placedTask "1" "host1") 0).1.placements =
      [("host1", [(TaskType.BATCH, [("job1-0", 0)])])] ∧
    (readdedTracker "").tasks = [("job1-0", 1)] ∧
    ((readdedTracker "").rmTasks 1).task.Hostname = "" ∧
    (readdedTracker "").placements = [("host1", [(TaskType.BATCH, [("job1-0", 0)])])] ∧
    ((readdedTracker "").DeleteTask "job1-0").tasks = [] ∧
    ((readdedTracker "").DeleteTask "job1-0").placements =
      [("host1", [(TaskType.BATCH, [("job1-0", 0)])])] ∧
    (readdedTracker "host2").tasks = [("job1-0", 1)] ∧
    (readdedTracker "host2").placements =
      [("host1", [(TaskType.BATCH, [("job1-0", 0)])]),
       ("host2", [(TaskType.BATCH, [("job1-0", 1)])])] :=
  ⟨by decide, by decide, by decide, by decide, by decide, by decide, by decide, by decide,
    by decide⟩

/-! ## Gangs that are not enqueued -/

/-- C27 fails on the code: when a member of the gang is rejected, the members
added before it stay in the tracker. The handler tracks `job1-0` (run 1) and
not `job1-1`; `enqueueGang` of the gang `[job1-1, job1-0]` adds `job1-1`,
rejects `job1-0` (same run present) and returns `errFailingGangMemberTask`
without enqueuing the gang, and `job1-1` is tracked afterwards, in state
`PENDING`. When it is the pool that refuses the gang, `removeTasksFromTracker`
is called and `job1-1` is not tracked afterwards. -/
theorem enqueueGang_leaves_tasks_tracked :
    enqueuedHandler.rmTracker.GetTask "job1-1" = none ∧
    (enqueuedHandler.enqueueGang sampleEnv gangBA 0).2.2 = some errFailingGangMemberTask ∧
    (enqueuedHandler.enqueueGang sampleEnv gangBA 0).2.1 =
      [{ Task := mkTask "job1-0" "job1-0-1" 1, Message := errSameTaskPresent }] ∧
    ((enqueuedHandler.enqueueGang sampleEnv gangBA 0).1.resPools 0).pending = [gangA] ∧
    (enqueuedHandler.enqueueGang sampleEnv gangBA 0).1.rmTracker.GetTask "job1-1" = some 1 ∧
    ((enqueuedHandler.enqueueGang sampleEnv gangBA 0).1.rmTracker.rmTasks 1).state =
      TaskState.PENDING ∧
    (enqueuedHandler.enqueueGang refusingEnv gangB 0).2.2 = some "queue Limit is reached" ∧
    (enqueuedHandler.enqueueGang refusingEnv gangB 0).1.rmTracker.GetTask "job1-1" = none :=
  ⟨by decide, by decide, by decide, by decide, by decide, by decide, by decide, by decide⟩

/-! ## Properties of the tracked task -/

theorem updateRuntime_cachedVersion_le (t : tracked.task) (runtime : Option tracked.RuntimeInfo)
    (now : Nat) : t.cachedVersion ≤ (t.updateRuntime runtime now).cachedVersion := by
  unfold tracked.task.updateRuntime tracked.task.cachedVersion
  by_cases h : tracked.GetVersion (tracked.GetRevision runtime) <
      tracked.GetVersion (tracked.GetRevision t.runtime)
  · simp [h]
  · simp only [h, if_false]
    exact Nat.le_of_not_lt h

theorem updateAll_cachedVersion_le (calls : List (Option tracked.RuntimeInfo × Nat))
    (t : tracked.task) : t.cachedVersion ≤ (t.updateAll calls).cachedVersion := by
  induction calls generalizing t with
  | nil => exact Nat.le_refl _
  | cons call calls ih =>
    exact Nat.le_trans (updateRuntime_cachedVersion_le t call.1 call.2)
      (ih (t.updateRuntime call.1 call.2))

theorem updateAll_append (t : tracked.task) (a b : List (Option tracked.RuntimeInfo × Nat)) :
    t.updateAll (a ++ b) = (t.updateAll a).updateAll b := by
  simp [tracked.task.updateAll, List.foldl_append]

/-- C28 (older revisions are ignored). `updateRuntime` returns the task as it
was when the revision version of the new runtime is lower than that of the
cached runtime (a missing runtime or revision counts as version 0), and makes
the new runtime the cached one otherwise; the revision version of the cached
runtime after any run of `updateRuntime` calls is at most what it is after any
longer run. -/
theorem updateRuntime_ignores_older (t : tracked.task) (runtime : Option tracked.RuntimeInfo)
    (now : Nat) (calls more : List (Option tracked.RuntimeInfo × Nat)) :
    (t.updateRuntime runtime now =
      if tracked.GetVersion (tracked.GetRevision runtime) < t.cachedVersion then t
      else { t with runtime := runtime, goalStateTime := now, stateTime := now }) ∧
    (t.updateAll calls).cachedVersion ≤ (t.updateAll (calls ++ more)).cachedVersion := by
  refine ⟨rfl, ?_⟩
  rw [updateAll_append]
  exact updateAll_cachedVersion_le more (t.updateAll calls)

/-- C29 fails on the code: `RunAction` has no case for the declared action
`UseGoalVersionAction`. For every task, whatever the commands are, the action
is recorded as the last action and the error of the default branch is
returned; `NoAction` is recorded and returns no error. -/
theorem RunAction_UseGoalVersionAction {ω : Type} (cmds : tracked.Commands ω) (w : ω)
    (t : tracked.task) (now : Nat) :
    t.RunAction cmds w tracked.UseGoalVersionAction now =
      ((w, { t with lastAction := "use_goal_state", lastActionTime := now }),
        some "no command configured for running task action `use_goal_state`") ∧
    t.RunAction cmds w tracked.NoAction now =
      ((w, { t with lastAction := "no_action", lastActionTime := now }), none) := by
  constructor
  · unfold tracked.task.RunAction
    rw [if_neg (by decide), if_neg (by decide), if_neg (by decide), if_neg (by decide),
      if_neg (by decide)]
    rfl
  · unfold tracked.task.RunAction
    rw [if_pos rfl]
    rfl

/-! ## Properties of the address scoring -/

theorem scoreAddr_of_ip {ι : Type} (lib : IPMethods ι) (iface : Interface) (addr : Addr ι)
    (ip : ι) (h : addr.ip = some ip) :
    scoreAddr lib iface addr =
      ((if (lib.To4 ip).isSome then 300 else 0) +
        (if iface.Flags &&& FlagLoopback = 0 ∧ lib.IsLoopback ip = false then
          100 + (if iface.Flags &&& FlagUp ≠ 0 then 100 else 0)
        else 0), some ip) := by
  unfold scoreAddr
  simp only [h]
  by_cases h4 : (lib.To4 ip).isSome = true <;>
    by_cases hl : iface.Flags &&& FlagLoopback = 0 ∧ lib.IsLoopback ip = false <;>
    by_cases hu : iface.Flags &&& FlagUp ≠ 0 <;>
    simp [h4, hl, hu]

theorem scoreOf_cases {ι : Type} (lib : IPMethods ι) (c : Interface × Addr ι) :
    (c.2.ip = none ∧ scoreAddr lib c.1 c.2 = (-1, none)) ∨
    (∃ ip, c.2.ip = some ip ∧ 0 ≤ scoreOf lib c ∧ (scoreAddr lib c.1 c.2).2 = some ip) := by
  cases h : c.2.ip with
  | none =>
    left
    refine ⟨rfl, ?_⟩
    unfold scoreAddr
    simp only [h]
  | some ip =>
    right
    refine ⟨ip, rfl, ?_, ?_⟩
    · unfold scoreOf
      rw [scoreAddr_of_ip lib c.1 c.2 ip h]
      by_cases h4 : (lib.To4 ip).isSome = true <;>
        by_cases hl : c.1.Flags &&& FlagLoopback = 0 ∧ lib.IsLoopback ip = false <;>
        by_cases hu : c.1.Flags &&& FlagUp ≠ 0 <;>
        simp [h4, hl, hu]
    · rw [scoreAddr_of_ip lib c.1 c.2 ip h]

theorem listenStep_eq {ι : Type} (lib : IPMethods ι) (iface : Interface) (best : Int × Option ι)
    (addr : Addr ι) :
    listenStep lib iface best addr =
      if scoreOf lib (iface, addr) > best.1 then scoreAddr lib iface addr else best := by
  rfl

theorem foldl_interfaces_eq {ι : Type} (lib : IPMethods ι)
    (interfaces : List (Interface × Except String (List (Addr ι)))) (best : Int × Option ι) :
    interfaces.foldl
        (fun best entry =>
          match entry.2 with
          | .error _ => best
          | .ok addrs => addrs.foldl (listenStep lib entry.1) best)
        best =
      (candidatesOf interfaces).foldl (fun best c => listenStep lib c.1 best c.2) best := by
  induction interfaces generalizing best with
  | nil => rfl
  | cons entry rest ih =>
    obtain ⟨iface, addrs⟩ := entry
    cases addrs with
    | error e =>
      simp only [List.foldl_cons, candidatesOf]
      exact ih best
    | ok addrs =>
      simp only [List.foldl_cons, candidatesOf, List.foldl_append, List.foldl_map]
      exact ih _

/-- The loop of `listenIP` keeps the first address with the highest score,
unless no address scores above the score it starts from. -/
theorem foldl_listenStep {ι : Type} (lib : IPMethods ι) (cs : List (Interface × Addr ι))
    (best : Int × Option ι) :
    (cs.foldl (fun best c => listenStep lib c.1 best c.2) best = best ∧
      ∀ c ∈ cs, scoreOf lib c ≤ best.1) ∨
    (∃ pre c post, cs = pre ++ c :: post ∧
      cs.foldl (fun best c => listenStep lib c.1 best c.2) best = scoreAddr lib c.1 c.2 ∧
      best.1 < scoreOf lib c ∧ (∀ x ∈ pre, scoreOf lib x < scoreOf lib c) ∧
      (∀ x ∈ post, scoreOf lib x ≤ scoreOf lib c)) := by
  induction cs generalizing best with
  | nil => exact Or.inl ⟨rfl, fun c hc => absurd hc (List.not_mem_nil c)⟩
  | cons c cs ih =>
    simp only [List.foldl_cons]
    rw [listenStep_eq]
    by_cases hgt : scoreOf lib (c.1, c.2) > best.1
    · have hgt' : best.1 < scoreOf lib c := hgt
      rw [if_pos hgt]
      rcases ih (scoreAddr lib c.1 c.2) with ⟨hr, hall⟩ | ⟨pre, c', post, hcs, hr, hlt, hpre, hpost⟩
      · exact Or.inr ⟨[], c, cs, rfl, hr, hgt', fun x hx => absurd hx (List.not_mem_nil x), hall⟩
      · have hlt' : scoreOf lib c < scoreOf lib c' := hlt
        refine Or.inr ⟨c :: pre, c', post, by rw [hcs]; rfl, hr, lt_trans hgt' hlt', ?_, hpost⟩
        intro x hx
        rcases List.mem_cons.mp hx with rfl | hx
        · exact hlt'
        · exact hpre x hx
    · have hle : scoreOf lib c ≤ best.1 := not_lt.mp hgt
      rw [if_neg hgt]
      rcases ih best with ⟨hr, hall⟩ | ⟨pre, c', post, hcs, hr, hlt, hpre, hpost⟩
      · refine Or.inl ⟨hr, ?_⟩
        intro x hx
        rcases List.mem_cons.mp hx with rfl | hx
        · exact hle
        · exact hall x hx
      · refine Or.inr ⟨c :: pre, c', post, by rw [hcs]; rfl, hr, hlt, ?_, hpost⟩
        intro x hx
        rcases List.mem_cons.mp hx with rfl | hx
        · exact lt_of_le_of_lt hle hlt
        · exact hpre x hx

/-- C30 (address scoring). `scoreAddr` returns score -1 and no IP exactly for
an address that is neither an IP network nor an IP address; for any other
address it returns the IP of the address and the score 300 if the IP is IPv4,
plus 100 if neither the interface nor the IP is loopback, plus 100 more if in
addition the interface is up. `listenIP` either fails, and then no address
that it can list scores 0 or more, or returns the IP of the first address
with the highest score, which is 0 or more. -/
theorem listenIP_spec {ι : Type} (lib : IPMethods ι) (iface : Interface) (addr : Addr ι)
    (interfaces : Except String (List (Interface × Except String (List (Addr ι))))) :
    (scoreAddr lib iface addr = (-1, none) ↔ addr.ip = none) ∧
    (∀ ip, addr.ip = some ip →
      scoreAddr lib iface addr =
        ((if (lib.To4 ip).isSome then 300 else 0) +
          (if iface.Flags &&& FlagLoopback = 0 ∧ lib.IsLoopback ip = false then
            100 + (if iface.Flags &&& FlagUp ≠ 0 then 100 else 0)
          else 0), some ip)) ∧
    (((∃ err, listenIP lib interfaces = .error err) ∧
        ∀ c ∈ candidates interfaces, scoreOf lib c < 0) ∨
      (∃ pre c post, candidates interfaces = pre ++ c :: post ∧
        listenIP lib interfaces = .ok (scoreAddr lib c.1 c.2).2 ∧
        0 ≤ scoreOf lib c ∧ (∀ x ∈ pre, scoreOf lib x < scoreOf lib c) ∧
        (∀ x ∈ post, scoreOf lib x ≤ scoreOf lib c))) := by
  refine ⟨?_, fun ip h => scoreAddr_of_ip lib iface addr ip h, ?_⟩
  · rcases scoreOf_cases lib (iface, addr) with ⟨hn, hs⟩ | ⟨ip, hip, hnn, hs⟩
    · exact ⟨fun _ => hn, fun _ => hs⟩
    · constructor
      · intro h
        have : scoreOf lib (iface, addr) = -1 := by unfold scoreOf; rw [h]
        omega
      · intro h
        rw [hip] at h
        exact absurd h (by simp)
  · cases interfaces with
    | error e =>
      exact Or.inl ⟨⟨e, rfl⟩, fun c hc => absurd hc (List.not_mem_nil c)⟩
    | ok interfaces =>
      unfold listenIP
      simp only [foldl_interfaces_eq, candidates]
      rcases foldl_listenStep lib (candidatesOf interfaces) (-1, none) with
        ⟨hr, hall⟩ | ⟨pre, c, post, hcs, hr, hlt, hpre, hpost⟩
      · left
        rw [hr]
        refine ⟨⟨"no addresses to listen on", by simp⟩, ?_⟩
        intro c hc
        have := hall c hc
        simp only at this
        omega
      · right
        have hlt' : (-1 : Int) < scoreOf lib c := hlt
        have hne : ¬ (scoreAddr lib c.1 c.2).1 = -1 := by
          have : (scoreAddr lib c.1 c.2).1 = scoreOf lib c := rfl
          omega
        refine ⟨pre, c, post, hcs, ?_, by omega, hpre, hpost⟩
        rw [hr, if_neg hne]

/-- A concrete evaluation of `listenIP`: the loopback interface holds
`127.0.0.1`, the interface `eth0` (up) holds an IPv6 address and then the IPv4
address `10.0.0.7`, and the addresses of a third interface cannot be listed;
the IPv4 address of `eth0`, of score 500, is returned. Without interfaces the
call fails. -/
theorem listenIP_example :
    listenIP bytesIP (.ok
      [({ Index := 1, Name := "lo", Flags := 5 }, .ok [Addr.IPNet [127, 0, 0, 1]]),
       ({ Index := 2, Name := "eth0", Flags := 1 },
          .ok [Addr.IPNet [254, 128, 0, 0, 0, 0, 0, 0, 0, 0, 0, 0, 0, 0, 0, 9],
               Addr.IPNet [10, 0, 0, 7], Addr.other "unix"]),
       ({ Index := 3, Name := "eth1", Flags := 1 }, .error "no such device")]) =
      .ok (some [10, 0, 0, 7]) ∧
    scoreAddr bytesIP { Index := 2, Name := "eth0", Flags := 1 } (Addr.IPNet [10, 0, 0, 7]) =
      (500, some [10, 0, 0, 7]) ∧
    scoreAddr bytesIP { Index := 1, Name := "lo", Flags := 5 } (Addr.IPNet [127, 0, 0, 1]) =
      (300, some [127, 0, 0, 1]) ∧
    listenIP bytesIP (.ok []) = .error "no addresses to listen on" :=
  ⟨rfl, by decide, by decide, rfl⟩

/-! ## Properties of the job runtime updater -/

/-- C21 (completion time of a terminal job). Whenever the runtime that
`JobRuntimeUpdater` writes has a terminal state, its completion time is not
empty, provided that no time is rendered as the empty text: the completion
time is the last task update time, or the wall clock when that time is 0. -/
theorem completion_time_not_empty (started : List (TaskState × Nat) → Bool)
    (format : Nat → String) (now : Nat) (partiallyCreated : Bool) (instanceCount : Nat)
    (runtime : goalstate.JobRuntimeInfo)
    (stateCounts : List (TaskState × Nat)) (firstTaskUpdateTime lastTaskUpdateTime : Nat)
    (hformat : ∀ t, format t ≠ "")
    (hterminal : goalstate.terminalJobState
      (goalstate.JobRuntimeUpdater started format now partiallyCreated instanceCount runtime
        stateCounts firstTaskUpdateTime lastTaskUpdateTime).State = true) :
    (goalstate.JobRuntimeUpdater started format now partiallyCreated instanceCount runtime
        stateCounts firstTaskUpdateTime lastTaskUpdateTime).CompletionTime =
      (if lastTaskUpdateTime = 0 then format now else format lastTaskUpdateTime) ∧
    (goalstate.JobRuntimeUpdater started format now partiallyCreated instanceCount runtime
        stateCounts firstTaskUpdateTime lastTaskUpdateTime).CompletionTime ≠ "" := by
  have hstate : goalstate.terminalJobState
      (goalstate.rollUp started partiallyCreated instanceCount runtime stateCounts) = true :=
    hterminal
  have hc : (goalstate.JobRuntimeUpdater started format now partiallyCreated instanceCount
      runtime stateCounts firstTaskUpdateTime lastTaskUpdateTime).CompletionTime =
      (if lastTaskUpdateTime = 0 then format now else format lastTaskUpdateTime) := by
    show (if goalstate.terminalJobState
          (goalstate.rollUp started partiallyCreated instanceCount runtime stateCounts) = true then
        (if lastTaskUpdateTime = 0 then format now else format lastTaskUpdateTime)
      else runtime.CompletionTime) = _
    rw [if_pos hstate]
  refine ⟨hc, ?_⟩
  rw [hc]
  by_cases h0 : lastTaskUpdateTime = 0
  · rw [if_pos h0]; exact hformat now
  · rw [if_neg h0]; exact hformat lastTaskUpdateTime

theorem at_text_ne_empty (t : Nat) : "@" ++ toString t ≠ "" := by
  intro h
  have := congrArg String.length h
  simp only [String.length_append] at this
  have h1 : ("@" : String).length = 1 := by decide
  have h0 : ("" : String).length = 0 := by decide
  omega

/-- C21 at the case of the test `TestJobCompletionTimeNotEmpty`: the job was
killed before any task ran, the state written is `KILLED` and the completion
time is the wall clock. -/
theorem completion_time_not_empty_witness :
    goalstate.killedNeverRan.lastTaskUpdateTime = 0 ∧
    goalstate.killedNeverRan.written.State = goalstate.JobState.KILLED ∧
    goalstate.killedNeverRan.written.CompletionTime ≠ "" :=
  ⟨rfl, by decide,
    (completion_time_not_empty
      (fun stats => goalstate.anyTask stats (fun s => decide (s = TaskState.RUNNING)))
      (fun t => "@" ++ toString t) 1483500000 goalstate.killedNeverRan.partiallyCreated
      goalstate.killedNeverRan.instanceCount goalstate.killedNeverRan.runtime
      goalstate.killedNeverRan.stateCounts goalstate.killedNeverRan.firstTaskUpdateTime
      goalstate.killedNeverRan.lastTaskUpdateTime at_text_ne_empty (by decide)).2⟩

/-- C22 (amended). For a job whose goal state is `SUCCEEDED` and whose
instances are all in terminal states (no task is counted in a non-terminal
state and the terminal counts add up to the number of instances), the runtime
that `JobRuntimeUpdater` writes has the state `SUCCEEDED` if and only if every task is `SUCCEEDED`,
otherwise `KILLED` if any task is `KILLED`, otherwise `FAILED` if any task is
`FAILED`; the task-state counts are copied into its task stats. -/
theorem job_state_roll_up (started : List (TaskState × Nat) → Bool) (format : Nat → String)
    (now : Nat) (partiallyCreated : Bool) (instanceCount : Nat)
    (runtime : goalstate.JobRuntimeInfo) (stateCounts : List (TaskState × Nat))
    (firstTaskUpdateTime lastTaskUpdateTime : Nat)
    (hgoal : runtime.GoalState = goalstate.JobState.SUCCEEDED)
    (hnone : goalstate.anyTask stateCounts (fun s => !terminalState s) = false)
    (hterminal : goalstate.terminalCount stateCounts = instanceCount) :
    ((goalstate.JobRuntimeUpdater started format now partiallyCreated instanceCount runtime
        stateCounts firstTaskUpdateTime lastTaskUpdateTime).State =
        goalstate.JobState.SUCCEEDED ↔
      goalstate.countOf stateCounts TaskState.SUCCEEDED = instanceCount) ∧
    (goalstate.countOf stateCounts TaskState.SUCCEEDED ≠ instanceCount →
      goalstate.countOf stateCounts TaskState.KILLED > 0 →
      (goalstate.JobRuntimeUpdater started format now partiallyCreated instanceCount runtime
        stateCounts firstTaskUpdateTime lastTaskUpdateTime).State = goalstate.JobState.KILLED) ∧
    (goalstate.countOf stateCounts TaskState.SUCCEEDED ≠ instanceCount →
      goalstate.countOf stateCounts TaskState.KILLED = 0 →
      goalstate.countOf stateCounts TaskState.FAILED > 0 →
      (goalstate.JobRuntimeUpdater started format now partiallyCreated instanceCount runtime
        stateCounts firstTaskUpdateTime lastTaskUpdateTime).State = goalstate.JobState.FAILED) ∧
    (goalstate.JobRuntimeUpdater started format now partiallyCreated instanceCount runtime
        stateCounts firstTaskUpdateTime lastTaskUpdateTime).TaskStats = stateCounts := by
  have hstate : (goalstate.JobRuntimeUpdater started format now partiallyCreated instanceCount
      runtime stateCounts firstTaskUpdateTime lastTaskUpdateTime).State =
      (if goalstate.countOf stateCounts TaskState.SUCCEEDED = instanceCount then
        goalstate.JobState.SUCCEEDED
      else if goalstate.countOf stateCounts TaskState.KILLED > 0 then goalstate.JobState.KILLED
      else goalstate.JobState.FAILED) := by
    show goalstate.rollUp started partiallyCreated instanceCount runtime stateCounts = _
    unfold goalstate.rollUp
    rw [if_pos ⟨hnone, hterminal⟩, hgoal, if_neg (by decide)]
  rw [hstate]
  refine ⟨?_, ?_, ?_, rfl⟩
  · by_cases ha : goalstate.countOf stateCounts TaskState.SUCCEEDED = instanceCount
    · simp [ha]
    · by_cases hk : goalstate.countOf stateCounts TaskState.KILLED > 0
      · simp [ha, hk]
      · simp [ha, hk]
  · intro ha hk
    rw [if_neg ha, if_pos hk]
  · intro ha hk _
    have hk' : ¬ goalstate.countOf stateCounts TaskState.KILLED > 0 := by omega
    rw [if_neg ha, if_neg hk']

/-- C22, as amended, at the case "Simulate FAILED job" of the tests of the
sources; in every case of the tests the model writes the state that the test
expects, and writes nothing where the test expects no write. -/
theorem job_state_roll_up_witness :
    goalstate.failedCase.written.State = goalstate.JobState.FAILED ∧
    goalstate.failedCase.written.TaskStats =
      [(TaskState.FAILED, 50), (TaskState.SUCCEEDED, 50)] ∧
    (∀ c ∈ goalstate.testCases, c.outcome = c.expected) :=
  ⟨(job_state_roll_up
      (fun stats => goalstate.anyTask stats (fun s => decide (s = TaskState.RUNNING)))
      (fun t => "@" ++ toString t) 1483500000 goalstate.failedCase.partiallyCreated
      goalstate.failedCase.instanceCount goalstate.failedCase.runtime
      goalstate.failedCase.stateCounts goalstate.failedCase.firstTaskUpdateTime
      goalstate.failedCase.lastTaskUpdateTime rfl (by decide) (by decide)).2.2.1
      (by decide) (by decide) (by decide),
    by decide, by decide⟩

/-- C22 as stated fails at the case "Simulate KILLED job" of the test
`TestJobUpdateJobRuntime`: the goal of the job is `SUCCEEDED`, all 100
instances are terminal and 25 of them are `FAILED`, so that the rule as stated
gives `FAILED`, while the test expects `KILLED` to be written, which the model
does. -/
theorem job_state_roll_up_counterexample :
    goalstate.killedCase.runtime.GoalState = goalstate.JobState.SUCCEEDED ∧
    goalstate.anyTask goalstate.killedCase.stateCounts (fun s => !terminalState s) = false ∧
    goalstate.terminalCount goalstate.killedCase.stateCounts =
      goalstate.killedCase.instanceCount ∧
    goalstate.countOf goalstate.killedCase.stateCounts TaskState.FAILED = 25 ∧
    goalstate.rollUpAsSpecified goalstate.killedCase.instanceCount
      goalstate.killedCase.stateCounts = some goalstate.JobState.FAILED ∧
    goalstate.killedCase.expected = some goalstate.JobState.KILLED ∧
    goalstate.killedCase.written.State = goalstate.JobState.KILLED :=
  ⟨by decide, by decide, by decide, by decide, by decide, by decide, by decide⟩

/-! ## Properties of the retry of a terminated task -/

/-- C23 (retry under an active update). For a task in the progress set of the
active update of its job, `TaskTerminatedRetry` writes no runtime and does not
enqueue the task when the failure count has reached `max_instance_attempts`
(the instance is marked failed in the update); otherwise it writes a runtime
whose mesos task id differs from the current one, whose previous mesos task
id is the current one and whose state is `INITIALIZED`, and enqueues the
task. -/
theorem TaskTerminatedRetry_under_update (ctx : goalstate.RetryContext)
    (runtime : goalstate.TaskRuntime)
    (hactive : ctx.activeUpdate = true) (hprogress : ctx.inUpdateProgress = true) :
    (runtime.FailureCount ≥ ctx.MaxInstanceAttempts →
      goalstate.TaskTerminatedRetry ctx runtime =
        { written := none, enqueued := false, markedFailed := true }) ∧
    (runtime.FailureCount < ctx.MaxInstanceAttempts →
      ∃ w, goalstate.TaskTerminatedRetry ctx runtime =
          { written := some w, enqueued := true, markedFailed := false } ∧
        w.MesosTaskId ≠ runtime.MesosTaskId ∧
        w.PrevMesosTaskId = some runtime.MesosTaskId ∧
        w.State = TaskState.INITIALIZED ∧ w.FailureCount = runtime.FailureCount) := by
  constructor
  · intro h
    have hnot : ¬ runtime.FailureCount < ctx.MaxInstanceAttempts := Nat.not_lt.mpr h
    simp [goalstate.TaskTerminatedRetry, goalstate.shouldRetry, hactive, hprogress, hnot]
  · intro h
    refine ⟨{ runtime with
        MesosTaskId := { runtime.MesosTaskId with RunId := runtime.MesosTaskId.RunId + 1 }
        PrevMesosTaskId := some runtime.MesosTaskId
        State := TaskState.INITIALIZED }, ?_, ?_, rfl, rfl, rfl⟩
    · simp only [goalstate.TaskTerminatedRetry, goalstate.shouldRetry, hactive, hprogress, h,
        if_true, decide_True]
    · intro heq
      have := congrArg goalstate.MesosTaskID.RunId heq
      simp at this

/-- C23 at the two tests of the sources: with failure count 0 and
`MaxInstanceAttempts` 3 the task is given run 2, its previous run is run 1,
its state is `INITIALIZED` and it is enqueued; with failure count 5 nothing is
written. -/
theorem TaskTerminatedRetry_under_update_witness :
    goalstate.TaskTerminatedRetry goalstate.rollingForward (goalstate.failedRuntime 5) =
      { written := none, enqueued := false, markedFailed := true } ∧
    goalstate.TaskTerminatedRetry goalstate.rollingForward (goalstate.failedRuntime 0) =
      { written := some
          { State := TaskState.INITIALIZED,
            MesosTaskId := { JobId := "job1", InstanceId := 0, RunId := 2 },
            PrevMesosTaskId := some { JobId := "job1", InstanceId := 0, RunId := 1 },
            FailureCount := 0 },
        enqueued := true, markedFailed := false } :=
  ⟨(TaskTerminatedRetry_under_update goalstate.rollingForward (goalstate.failedRuntime 5)
      rfl rfl).1 (by decide),
    by decide⟩

/-! ## Properties of the admission against the entitlement -/

theorem peekRetry_same (fuel : Nat) (l : MultiLevelList (List Task)) (err : String) :
    peekRetry fuel l l.GetHighestLevel err = some (.error err) := by
  unfold peekRetry
  simp

/-- The outcome of `Peek` in closed form, for every amount of fuel. -/
theorem Peek_eq (fuel : Nat) (f : PriorityQueue) :
    f.Peek fuel =
      match popLevel f.list.items f.list.GetHighestLevel with
      | some (x, _) => some (.ok x)
      | none => some (.error "No items found in queue for given priority") := by
  unfold PriorityQueue.Peek MultiLevelList.PeekItem
  cases hp : popLevel f.list.items f.list.GetHighestLevel with
  | none => simp only [hp, peekRetry_same]
  | some r => obtain ⟨x, rest⟩ := r; simp only [hp]

/-- What `Peek` returns is what `Dequeue` takes. -/
theorem Dequeue_of_Peek (f : PriorityQueue) (gang : List Task)
    (h : f.Peek 0 = some (.ok gang)) :
    ∃ queue, f.Dequeue 0 = some (.ok gang, queue) := by
  rw [Peek_eq] at h
  rw [Dequeue_eq]
  cases hp : popLevel f.list.items f.list.GetHighestLevel with
  | none => rw [hp] at h; simp at h
  | some r =>
    obtain ⟨x, rest⟩ := r
    rw [hp] at h
    simp only [Option.some.injEq, Except.ok.injEq] at h
    subst h
    exact ⟨_, rfl⟩

theorem Resources_Add_assoc (a b c : Resources) : (a.Add b).Add c = a.Add (b.Add c) := by
  simp [Resources.Add, Nat.add_assoc]

theorem Resources_Add_zero (a : Resources) : a.Add ZeroResource = a := by
  simp [Resources.Add, ZeroResource]

/-- The loop of `DequeueGangList`: the allocation grows by the resources of
the gangs taken, the entitlement is kept, and the allocation is within the
entitlement when a gang was taken. -/
theorem dequeueGangs_spec (limit : Nat) (n : respool.resPool) (gangs : List (List Task)) :
    ∃ added, (respool.resPool.dequeueGangs limit n gangs).2 = gangs ++ added ∧
      (respool.resPool.dequeueGangs limit n gangs).1.allocation =
        n.allocation.Add (respool.usedBy added) ∧
      (respool.resPool.dequeueGangs limit n gangs).1.entitlement = n.entitlement ∧
      (added ≠ [] → respool.LessThanOrEqual
        (respool.resPool.dequeueGangs limit n gangs).1.allocation n.entitlement = true) ∧
      (added = [] → respool.resPool.dequeueGangs limit n gangs = (n, gangs)) := by
  have hstop : ∀ (n : respool.resPool) (gangs : List (List Task)),
      ∃ added : List (List Task), gangs = gangs ++ added ∧
      n.allocation = n.allocation.Add (respool.usedBy added) ∧
      n.entitlement = n.entitlement ∧
      (added ≠ [] → respool.LessThanOrEqual n.allocation n.entitlement = true) ∧
      (added = [] → ((n, gangs) : respool.resPool × List (List Task)) = (n, gangs)) :=
    fun n gangs =>
      ⟨[], by simp, by simp [respool.usedBy, Resources_Add_zero], rfl, fun h => absurd rfl h,
        fun _ => rfl⟩
  induction limit generalizing n gangs with
  | zero => exact hstop n gangs
  | succ limit ih =>
    rw [respool.resPool.dequeueGangs]
    split
    · next gang hpeek =>
      by_cases hadm : n.admissible gang = true
      · rw [if_pos hadm]
        split
        · next g queue hdeq =>
          obtain ⟨added, h1, h2, h3, h4, _⟩ := ih
            { n with pendingQueue := queue,
                     allocation := n.allocation.Add (respool.gangResources gang) }
            (gangs ++ [gang])
          refine ⟨gang :: added, ?_, ?_, h3, ?_, ?_⟩
          · rw [h1]; simp
          · rw [h2]
            simp only [respool.usedBy, List.foldr_cons]
            exact Resources_Add_assoc _ _ _
          · intro _
            by_cases hadded : added = []
            · subst hadded
              rw [h2]
              simp only [respool.usedBy, List.foldr_nil, Resources_Add_zero]
              exact hadm
            · exact h4 hadded
          · intro h; exact absurd h (List.cons_ne_nil _ _)
        · exact hstop n gangs
      · rw [if_neg hadm]
        exact hstop n gangs
    · exact hstop n gangs

/-- C24 (admission against the entitlement). For a pool whose pending queue
has the gang at its head and a positive limit: when the allocation plus the
resources of the gang exceeds the entitlement on some dimension,
`DequeueGangList` returns an error and no gang and leaves the pool as it was,
the gang staying queued; with the entitlement raised so that the allocation
plus the resources of the gang is within it, the call returns the gang. The
gangs that a call returns have been added to the allocation, which is within
the entitlement: each was within it when it was taken. -/
theorem DequeueGangList_admission (n : respool.resPool) (limit : Int) (gang : List Task)
    (hlimit : 0 < limit) (hhead : n.pendingQueue.Peek 0 = some (.ok gang)) :
    (n.admissible gang = false →
      n.DequeueGangList limit =
        (n, .error "no gang of the pending queue can be admitted")) ∧
    (∀ entitlement,
      respool.LessThanOrEqual (n.allocation.Add (respool.gangResources gang)) entitlement = true →
      ∃ n' gangs, (n.SetEntitlement entitlement).DequeueGangList limit =
        (n', .ok (gang :: gangs))) ∧
    (∀ n' gangs, n.DequeueGangList limit = (n', .ok gangs) →
      n'.allocation = n.allocation.Add (respool.usedBy gangs) ∧
      respool.LessThanOrEqual n'.allocation n.entitlement = true ∧
      n'.entitlement = n.entitlement) := by
  have hpos : ¬ limit ≤ 0 := not_le.mpr hlimit
  obtain ⟨k, hk⟩ : ∃ k, limit.toNat = k + 1 :=
    Nat.exists_eq_succ_of_ne_zero (by omega)
  refine ⟨?_, ?_, ?_⟩
  · intro hadm
    unfold respool.resPool.DequeueGangList
    rw [if_neg hpos, hk, respool.resPool.dequeueGangs]
    simp only [hhead, hadm]
    rfl
  · intro entitlement hfits
    obtain ⟨queue, hdeq⟩ := Dequeue_of_Peek n.pendingQueue gang hhead
    have hhead' : (n.SetEntitlement entitlement).pendingQueue.Peek 0 = some (.ok gang) := hhead
    have hdeq' : (n.SetEntitlement entitlement).pendingQueue.Dequeue 0 =
        some (.ok gang, queue) := hdeq
    have hadm : (n.SetEntitlement entitlement).admissible gang = true := hfits
    unfold respool.resPool.DequeueGangList
    rw [if_neg hpos, hk, respool.resPool.dequeueGangs]
    simp only [hhead', hadm, hdeq', if_true]
    obtain ⟨added, h2, _⟩ := dequeueGangs_spec k
      { n.SetEntitlement entitlement with
        pendingQueue := queue,
        allocation := (n.SetEntitlement entitlement).allocation.Add
          (respool.gangResources gang) }
      ([] ++ [gang])
    cases hx : respool.resPool.dequeueGangs k
      { n.SetEntitlement entitlement with
        pendingQueue := queue,
        allocation := (n.SetEntitlement entitlement).allocation.Add
          (respool.gangResources gang) }
      ([] ++ [gang]) with
    | mk n' l =>
      rw [hx] at h2
      simp only [List.nil_append, List.singleton_append] at h2
      subst h2
      exact ⟨n', added, rfl⟩
  · intro n' gangs h
    obtain ⟨added, h2, h3, h4, h5, _⟩ := dequeueGangs_spec limit.toNat n []
    unfold respool.resPool.DequeueGangList at h
    rw [if_neg hpos] at h
    cases hx : respool.resPool.dequeueGangs limit.toNat n [] with
    | mk n'' l =>
      rw [hx] at h h2 h3 h4 h5
      simp only [List.nil_append] at h2
      subst h2
      cases l with
      | nil => simp at h
      | cons g gs =>
        simp only [Prod.mk.injEq, Except.ok.injEq] at h
        obtain ⟨rfl, rfl⟩ := h
        exact ⟨h3, h5 (List.cons_ne_nil _ _), h4⟩

/-- C24 at the test `TestResPoolTaskCanBeDequeued` of the sources: the big
task (200 of cpu, entitlement 100) is at the head of the pending queue and is
not admissible, the call fails and leaves the pool as it was; once the cpu
entitlement is 500 the call returns the big task. Before that, the two calls
of the test took the two gangs of priority 2, one each. -/
theorem DequeueGangList_admission_witness :
    respool.bigTaskPool.pendingQueue.Peek 0 = some (.ok [respool.poolTask "job3-1" 3 200]) ∧
    respool.bigTaskPool.admissible [respool.poolTask "job3-1" 3 200] = false ∧
    respool.bigTaskPool.allocation = { CPU := 2, MEMORY := 200, DISK := 20, GPU := 0 } ∧
    respool.bigTaskPool.pendingQueue.Len 2 = 0 ∧
    respool.bigTaskPool.DequeueGangList 1 =
      (respool.bigTaskPool, .error "no gang of the pending queue can be admitted") ∧
    ((respool.bigTaskPool.SetEntitlement
        { CPU := 500, MEMORY := 1000, DISK := 100, GPU := 2 }).DequeueGangList 1).2.toOption =
      some [[respool.poolTask "job3-1" 3 200]] :=
  ⟨rfl, by decide, by decide, by decide,
    (DequeueGangList_admission respool.bigTaskPool 1 [respool.poolTask "job3-1" 3 200]
      (by decide) rfl).1 (by decide),
    by decide⟩

/-! ## The preemptor over several cycles -/

theorem mapSet_keys {κ α : Type} [DecidableEq κ] (m : List (κ × α)) (k : κ) (v : α) :
    (mapSet m k v).map Prod.fst =
      if k ∈ m.map Prod.fst then m.map Prod.fst else m.map Prod.fst ++ [k] := by
  induction m with
  | nil => simp [mapSet]
  | cons e m ih =>
    obtain ⟨k', v'⟩ := e
    by_cases h : k' = k
    · subst h
      simp [mapSet]
    · have h' : ¬ k = k' := fun hk => h hk.symm
      simp only [mapSet, h, if_false, List.map_cons, ih, List.mem_cons, h', false_or]
      by_cases hm : k ∈ m.map Prod.fst
      · simp only [hm, if_true]
      · simp only [hm, if_false, List.cons_append]

theorem mapSet_keys_nodup {κ α : Type} [DecidableEq κ] (m : List (κ × α)) (k : κ) (v : α)
    (h : (m.map Prod.fst).Nodup) : ((mapSet m k v).map Prod.fst).Nodup := by
  rw [mapSet_keys]
  by_cases hm : k ∈ m.map Prod.fst
  · rw [if_pos hm]; exact h
  · rw [if_neg hm]
    exact List.nodup_append.mpr ⟨h, List.nodup_singleton k, by
      intro a ha hb
      rw [List.mem_singleton] at hb
      subst hb
      exact hm ha⟩

theorem updateCount_keys_nodup {ρ θ : Type} (penv : PreemptorEnv ρ θ) (resPools : Nat → ρ)
    (nodes : List Nat) (m : List (String × Int)) (h : (m.map Prod.fst).Nodup) :
    ((nodes.foldl (updateCount penv resPools) m).map Prod.fst).Nodup := by
  induction nodes generalizing m with
  | nil => exact h
  | cons n nodes ih =>
    simp only [List.foldl_cons]
    apply ih
    unfold updateCount
    simp only
    split
    · exact mapSet_keys_nodup _ _ _ h
    · exact mapSet_keys_nodup _ _ _ h

theorem mapGet_updateCount {ρ θ : Type} (penv : PreemptorEnv ρ θ) (resPools : Nat → ρ)
    (m : List (String × Int)) (n : Nat) (id : String) :
    mapGet (updateCount penv resPools m n) id =
      if penv.ID (resPools n) = id then
        some (if exceeds (penv.GetAllocation (resPools n)) (penv.GetEntitlement (resPools n)) then
          (mapGet m (penv.ID (resPools n))).getD 0 + 1 else 0)
      else mapGet m id := by
  unfold updateCount
  simp only [Equal_Subtract_zero]
  by_cases hx : exceeds (penv.GetAllocation (resPools n)) (penv.GetEntitlement (resPools n))
  · simp [hx, mapGet_mapSet]
  · simp [hx, mapGet_mapSet]

theorem foldl_updateCount_other {ρ θ : Type} (penv : PreemptorEnv ρ θ) (resPools : Nat → ρ)
    (nodes : List Nat) (m : List (String × Int)) (id : String)
    (h : ∀ n ∈ nodes, penv.ID (resPools n) ≠ id) :
    mapGet (nodes.foldl (updateCount penv resPools) m) id = mapGet m id := by
  induction nodes generalizing m with
  | nil => rfl
  | cons n nodes ih =>
    simp only [List.foldl_cons]
    rw [ih _ (fun n' hn' => h n' (List.mem_cons_of_mem _ hn')), mapGet_updateCount,
      if_neg (h n (List.mem_cons_self _ _))]

theorem overAllocatedIn_other {ρ θ : Type} (penv : PreemptorEnv ρ θ) (resPools : Nat → ρ)
    (nodes : List Nat) (id : String) (h : ∀ n ∈ nodes, penv.ID (resPools n) ≠ id) :
    overAllocatedIn penv id nodes resPools = false := by
  unfold overAllocatedIn
  rw [List.any_eq_false]
  intro n hn
  simp [h n hn]

/-- A cycle over leaves of which exactly one has the id `id`: the count of the
pool is one more than before when it is over-allocated and zero when it is
not. -/
theorem foldl_updateCount_once {ρ θ : Type} (penv : PreemptorEnv ρ θ) (resPools : Nat → ρ)
    (nodes : List Nat) (m : List (String × Int)) (id : String)
    (h : (nodes.map (fun n => penv.ID (resPools n))).count id = 1) :
    mapGet (nodes.foldl (updateCount penv resPools) m) id =
      some (if overAllocatedIn penv id nodes resPools then (mapGet m id).getD 0 + 1 else 0) := by
  induction nodes generalizing m with
  | nil => simp at h
  | cons n nodes ih =>
    simp only [List.foldl_cons]
    by_cases hn : penv.ID (resPools n) = id
    · have hrest : ∀ n' ∈ nodes, penv.ID (resPools n') ≠ id := by
        have hc : (nodes.map (fun n => penv.ID (resPools n))).count id = 0 := by
          simp only [List.map_cons, hn, List.count_cons_self] at h
          omega
        intro n' hn' heq
        exact (List.count_eq_zero.mp hc) (List.mem_map.mpr ⟨n', hn', heq⟩)
      rw [foldl_updateCount_other penv resPools nodes _ id hrest, mapGet_updateCount, if_pos hn]
      have hover : overAllocatedIn penv id (n :: nodes) resPools =
          exceeds (penv.GetAllocation (resPools n)) (penv.GetEntitlement (resPools n)) := by
        have := overAllocatedIn_other penv resPools nodes id hrest
        unfold overAllocatedIn at this ⊢
        simp [List.any_cons, this, hn]
      rw [hover, hn]
    · have hc : (nodes.map (fun n => penv.ID (resPools n))).count id = 1 := by
        simp only [List.map_cons] at h
        rw [List.count_cons_of_ne (fun heq => hn heq.symm)] at h
        exact h
      rw [ih _ hc, mapGet_updateCount, if_neg hn]
      have hover : overAllocatedIn penv id (n :: nodes) resPools =
          overAllocatedIn penv id nodes resPools := by
        unfold overAllocatedIn
        simp [List.any_cons, hn]
      rw [hover]

theorem evictReadyTask_frame {σ ρ μ θ : Type} (env : Env σ ρ μ) (p : preemptor ρ θ)
    (rmTask respool : Nat) :
    (p.evictReadyTask env rmTask respool).1.respoolState = p.respoolState ∧
    (p.evictReadyTask env rmTask respool).1.sustainedOverAllocationCount =
      p.sustainedOverAllocationCount ∧
    (p.evictReadyTask env rmTask respool).1.resTree = p.resTree := by
  unfold preemptor.evictReadyTask
  simp only
  repeat' split
  all_goals exact ⟨rfl, rfl, rfl⟩

theorem processTask_frame {σ ρ μ θ : Type} (env : Env σ ρ μ) (penv : PreemptorEnv ρ θ)
    (resourcePool : Nat) (acc : preemptor ρ θ × List String) (t : Nat) :
    (preemptor.processTask env penv resourcePool acc t).1.respoolState = acc.1.respoolState ∧
    (preemptor.processTask env penv resourcePool acc t).1.sustainedOverAllocationCount =
      acc.1.sustainedOverAllocationCount ∧
    (preemptor.processTask env penv resourcePool acc t).1.resTree = acc.1.resTree := by
  have hev := evictReadyTask_frame env acc.1 t resourcePool
  unfold preemptor.processTask
  split
  · split
    · exact ⟨rfl, rfl, rfl⟩
    · exact ⟨rfl, rfl, rfl⟩
  · split
    · next p' err heq => rw [heq] at hev; exact hev
    · next p' heq => rw [heq] at hev; exact hev
  · exact ⟨rfl, rfl, rfl⟩

theorem foldl_processTask_frame {σ ρ μ θ : Type} (env : Env σ ρ μ) (penv : PreemptorEnv ρ θ)
    (resourcePool : Nat) (ts : List Nat) (acc : preemptor ρ θ × List String) :
    (ts.foldl (preemptor.processTask env penv resourcePool) acc).1.respoolState =
      acc.1.respoolState ∧
    (ts.foldl (preemptor.processTask env penv resourcePool) acc).1.sustainedOverAllocationCount =
      acc.1.sustainedOverAllocationCount ∧
    (ts.foldl (preemptor.processTask env penv resourcePool) acc).1.resTree = acc.1.resTree := by
  induction ts generalizing acc with
  | nil => exact ⟨rfl, rfl, rfl⟩
  | cons t ts ih =>
    simp only [List.foldl_cons]
    obtain ⟨h1, h2, h3⟩ := ih (preemptor.processTask env penv resourcePool acc t)
    obtain ⟨g1, g2, g3⟩ := processTask_frame env penv resourcePool acc t
    exact ⟨h1.trans g1, h2.trans g2, h3.trans g3⟩

/-- What `processResourcePool` does to the counters: the count of the pool is
reset when the tree holds the pool, and nothing is written when it does not;
the threshold and the tree are as they were. -/
theorem processResourcePool_counts {σ ρ μ θ : Type} (env : Env σ ρ μ) (penv : PreemptorEnv ρ θ)
    (p : preemptor ρ θ) (respoolID : String) :
    (p.processResourcePool env penv respoolID).1.respoolState =
      (if found p.resTree respoolID then mapSet p.respoolState respoolID 0
        else p.respoolState) ∧
    (p.processResourcePool env penv respoolID).1.sustainedOverAllocationCount =
      p.sustainedOverAllocationCount ∧
    (p.processResourcePool env penv respoolID).1.resTree = p.resTree := by
  unfold preemptor.processResourcePool found
  cases hget : p.resTree respoolID with
  | error err => exact ⟨rfl, rfl, rfl⟩
  | ok resourcePool =>
    simp only
    obtain ⟨h1, h2, h3⟩ := foldl_processTask_frame env penv resourcePool
      (penv.GetTasksToEvict p.tracker p.resPools respoolID
        ((penv.GetAllocation (p.resPools resourcePool)).Subtract
          (penv.GetEntitlement (p.resPools resourcePool)))) (p, [])
    refine ⟨?_, ?_, ?_⟩
    · simp only [preemptor.markProcessed, if_true]
      rw [h1]
    · simp only [preemptor.markProcessed]
      exact h2
    · simp only [preemptor.markProcessed]
      exact h3

theorem step_frame {σ ρ μ θ : Type} (env : Env σ ρ μ) (penv : PreemptorEnv ρ θ)
    (p : preemptor ρ θ) (e : PreemptorEvent ρ) (h : (p.respoolState.map Prod.fst).Nodup) :
    (p.step env penv e).sustainedOverAllocationCount = p.sustainedOverAllocationCount ∧
    (p.step env penv e).resTree = p.resTree ∧
    ((p.step env penv e).respoolState.map Prod.fst).Nodup := by
  cases e with
  | cycle leafNodes resPools =>
    exact ⟨rfl, rfl, updateCount_keys_nodup penv resPools leafNodes p.respoolState h⟩
  | process respoolID =>
    obtain ⟨h1, h2, h3⟩ := processResourcePool_counts env penv p respoolID
    refine ⟨h2, h3, ?_⟩
    show ((p.processResourcePool env penv respoolID).1.respoolState.map Prod.fst).Nodup
    rw [h1]
    by_cases hf : found p.resTree respoolID = true
    · rw [if_pos hf]; exact mapSet_keys_nodup _ _ _ h
    · rw [if_neg hf]; exact h

theorem run_frame {σ ρ μ θ : Type} (env : Env σ ρ μ) (penv : PreemptorEnv ρ θ)
    (events : List (PreemptorEvent ρ)) (p : preemptor ρ θ)
    (h : (p.respoolState.map Prod.fst).Nodup) :
    (p.run env penv events).sustainedOverAllocationCount = p.sustainedOverAllocationCount ∧
    (p.run env penv events).resTree = p.resTree ∧
    ((p.run env penv events).respoolState.map Prod.fst).Nodup := by
  induction events generalizing p with
  | nil => exact ⟨rfl, rfl, h⟩
  | cons e events ih =>
    obtain ⟨g1, g2, g3⟩ := step_frame env penv p e h
    obtain ⟨h1, h2, h3⟩ := ih (p.step env penv e) g3
    exact ⟨h1.trans g1, h2.trans g2, h3⟩

theorem run_snoc {σ ρ μ θ : Type} (env : Env σ ρ μ) (penv : PreemptorEnv ρ θ)
    (events : List (PreemptorEvent ρ)) (e : PreemptorEvent ρ) (p : preemptor ρ θ) :
    p.run env penv (events ++ [e]) = (p.run env penv events).step env penv e := by
  simp [preemptor.run, List.foldl_append]

theorem streak_snoc {ρ θ : Type} (penv : PreemptorEnv ρ θ) (resTree : String → Except String Nat)
    (id : String) (events : List (PreemptorEvent ρ)) (e : PreemptorEvent ρ) :
    streak penv resTree id (events ++ [e]) =
      if continuesStreak penv resTree id e then
        (if e.isCycle then 1 else 0) + streak penv resTree id events
      else 0 := by
  unfold streak
  rw [List.reverse_append, List.reverse_singleton, List.singleton_append, List.takeWhile_cons]
  by_cases hc : continuesStreak penv resTree id e = true
  · rw [if_pos hc, if_pos hc, List.filter_cons]
    by_cases hi : e.isCycle = true
    · rw [if_pos hi, if_pos hi, List.length_cons]; omega
    · rw [if_neg hi, if_neg hi]; omega
  · rw [if_neg hc, if_neg hc]
    rfl

theorem mem_getEligibleResPools {ρ θ : Type} (p : preemptor ρ θ) (id : String)
    (hmap : (p.respoolState.map Prod.fst).Nodup) :
    id ∈ p.getEligibleResPools ↔
      ∃ count, mapGet p.respoolState id = some count ∧
        count ≥ p.sustainedOverAllocationCount := by
  unfold preemptor.getEligibleResPools
  rw [foldl_eligible]
  simp only [List.nil_append, List.mem_map, List.mem_filter, decide_eq_true_eq]
  constructor
  · rintro ⟨⟨k, c⟩, ⟨hmem, hc⟩, rfl⟩
    exact ⟨c, (mem_iff_mapGet _ hmap k c).mp hmem, hc⟩
  · rintro ⟨c, hget, hc⟩
    exact ⟨(id, c), ⟨(mem_iff_mapGet _ hmap id c).mpr hget, hc⟩, rfl⟩

/-- The count of a pool that is a leaf in every cycle, after any events on a
new preemptor: it is the number of the last consecutive cycles in which the
pool was over-allocated, and the pool has a count once a cycle has run. -/
theorem run_count {σ ρ μ θ : Type} (env : Env σ ρ μ) (penv : PreemptorEnv ρ θ)
    (p : preemptor ρ θ) (id : String) (events : List (PreemptorEvent ρ))
    (hstart : p.respoolState = [])
    (hleaf : ∀ e ∈ events, leafIn penv id e = true) :
    (mapGet (p.run env penv events).respoolState id).getD 0 =
      (streak penv p.resTree id events : Int) ∧
    ((∃ e ∈ events, e.isCycle = true) →
      (mapGet (p.run env penv events).respoolState id).isSome = true) := by
  have hnd : (p.respoolState.map Prod.fst).Nodup := by rw [hstart]; exact List.nodup_nil
  induction events using List.reverseRecOn with
  | nil =>
    refine ⟨?_, ?_⟩
    · show (mapGet p.respoolState id).getD 0 = _
      rw [hstart]
      rfl
    · rintro ⟨e, he, _⟩
      exact absurd he (List.not_mem_nil e)
  | append_singleton l e ih =>
    obtain ⟨ih1, ih2⟩ := ih (fun e' he' => hleaf e' (List.mem_append_left _ he'))
    have hle := hleaf e (List.mem_append_right _ (List.mem_singleton_self e))
    obtain ⟨_, htree, _⟩ := run_frame env penv l p hnd
    rw [run_snoc, streak_snoc]
    cases e with
    | cycle leafNodes resPools =>
      have hone : (leafNodes.map (fun n => penv.ID (resPools n))).count id = 1 := by
        simpa [leafIn] using hle
      have hget : mapGet ((p.run env penv l).step env penv
          (PreemptorEvent.cycle leafNodes resPools)).respoolState id =
          some (if overAllocatedIn penv id leafNodes resPools then
            (mapGet (p.run env penv l).respoolState id).getD 0 + 1 else 0) :=
        foldl_updateCount_once penv resPools leafNodes (p.run env penv l).respoolState id hone
      rw [hget]
      refine ⟨?_, fun _ => rfl⟩
      simp only [continuesStreak, PreemptorEvent.isCycle, if_true, Option.getD_some]
      by_cases hover : overAllocatedIn penv id leafNodes resPools = true
      · rw [if_pos hover, if_pos hover, ih1]
        push_cast
        omega
      · rw [if_neg hover, if_neg hover]
        rfl
    | process respoolID =>
      obtain ⟨hst, _, _⟩ := processResourcePool_counts env penv (p.run env penv l) respoolID
      have hstate : ((p.run env penv l).step env penv
          (PreemptorEvent.process respoolID)).respoolState =
          (if found p.resTree respoolID then mapSet (p.run env penv l).respoolState respoolID 0
            else (p.run env penv l).respoolState) := by
        rw [← htree]
        exact hst
      rw [hstate]
      simp only [continuesStreak, PreemptorEvent.isCycle]
      by_cases hreset : respoolID = id ∧ found p.resTree respoolID = true
      · obtain ⟨hid, hf⟩ := hreset
        subst hid
        simp [hf, mapGet_mapSet]
      · have hcont : (!(decide (respoolID = id) && found p.resTree respoolID)) = true := by
          by_cases hid : respoolID = id
          · have hf : found p.resTree respoolID = false := by
              cases hfound : found p.resTree respoolID with
              | false => rfl
              | true => exact absurd ⟨hid, hfound⟩ hreset
            simp [hf]
          · simp [hid]
        have hsame : mapGet (if found p.resTree respoolID then
              mapSet (p.run env penv l).respoolState respoolID 0
            else (p.run env penv l).respoolState) id =
            mapGet (p.run env penv l).respoolState id := by
          by_cases hf : found p.resTree respoolID = true
          · have hid : ¬ respoolID = id := fun hid => hreset ⟨hid, hf⟩
            rw [if_pos hf]
            simp [mapGet_mapSet, hid]
          · rw [if_neg hf]
        rw [hsame, if_pos hcont]
        refine ⟨?_, ?_⟩
        · rw [ih1]
          simp
        · rintro ⟨e', he', hc'⟩
          rcases List.mem_append.mp he' with hl | hl
          · exact ih2 ⟨e', hl, hc'⟩
          · rw [List.mem_singleton] at hl
            subst hl
            simp [PreemptorEvent.isCycle] at hc'

/-- C15 (amended). For a new preemptor and any sequence of cycles
(`updateResourcePoolsState`) and calls of `processResourcePool`, with at least
one cycle and the pool a leaf of the tree in every cycle:
`getEligibleResPools` returns the id of the pool exactly when the number `n` of
its last consecutive cycles in which its allocation exceeded its entitlement on
some dimension, counted since the pool was last found not over-allocated or
was last processed (a call of `processResourcePool` that found it in the
tree), is at least `sustainedOverAllocationCount`. -/
theorem preemption_eligibility {σ ρ μ θ : Type} (env : Env σ ρ μ) (penv : PreemptorEnv ρ θ)
    (p : preemptor ρ θ) (id : String) (events : List (PreemptorEvent ρ))
    (hstart : p.respoolState = [])
    (hleaf : ∀ e ∈ events, leafIn penv id e = true)
    (hcycle : ∃ e ∈ events, e.isCycle = true) :
    id ∈ (p.run env penv events).getEligibleResPools ↔
      (streak penv p.resTree id events : Int) ≥ p.sustainedOverAllocationCount := by
  have hnd : (p.respoolState.map Prod.fst).Nodup := by rw [hstart]; exact List.nodup_nil
  obtain ⟨hthr, _, hkeys⟩ := run_frame env penv events p hnd
  obtain ⟨hcount, hsome⟩ := run_count env penv p id events hstart hleaf
  rw [mem_getEligibleResPools _ id hkeys, hthr, ← hcount]
  obtain ⟨count, hget⟩ := Option.isSome_iff_exists.mp (hsome hcycle)
  rw [hget]
  simp

/-- A call of `preemptTasks` is a cycle on the leaves and pools that the
preemptor holds, followed by `processResourcePool` for every pool that is then
eligible. -/
theorem preemptTasks_eq_run {σ ρ μ θ : Type} (env : Env σ ρ μ) (penv : PreemptorEnv ρ θ)
    (p : preemptor ρ θ) :
    (p.preemptTasks env penv).1 =
      p.run env penv (PreemptorEvent.cycle p.leafNodes p.resPools ::
        (p.updateResourcePoolsState penv).getEligibleResPools.map PreemptorEvent.process) := by
  have hfold : ∀ (ids : List String) (acc : preemptor ρ θ × List String),
      (ids.foldl
        (fun acc respoolID =>
          match acc.1.processResourcePool env penv respoolID with
          | (p, []) => (p, acc.2)
          | (p, errs) =>
            (p, acc.2 ++ errs.map
              (fun err =>
                "unable to preempt tasks from resource pool :" ++ respoolID ++ ": " ++ err)))
        acc).1 =
      (ids.map PreemptorEvent.process).foldl (preemptor.step env penv) acc.1 := by
    intro ids
    induction ids with
    | nil => intro acc; rfl
    | cons respoolID ids ih =>
      intro acc
      simp only [List.foldl_cons, List.map_cons]
      rw [ih]
      congr 1
      show _ = (acc.1.processResourcePool env penv respoolID).1
      cases acc.1.processResourcePool env penv respoolID with
      | mk q errs => cases errs <;> rfl
  unfold preemptor.preemptTasks preemptor.run
  simp only [List.foldl_cons]
  exact hfold _ _

/-- C15, as amended, at a new preemptor with threshold 2 whose single leaf
`respool1` is over-allocated in two cycles: the pool is returned. It is not
returned after one such cycle, nor when a cycle without over-allocation or a
call of `processResourcePool` precedes the last over-allocated cycle; it is
still returned after a call of `processResourcePool` for a tree that does not
hold it. -/
theorem preemption_eligibility_witness :
    newPreemptor.respoolState = [] ∧
    streak (samplePenv "respool1" sampleEntitlement) newPreemptor.resTree "respool1"
      [overCycle, overCycle] = 2 ∧
    "respool1" ∈ (newPreemptor.run sampleEnv (samplePenv "respool1" sampleEntitlement)
      [overCycle, overCycle]).getEligibleResPools ∧
    (newPreemptor.run sampleEnv (samplePenv "respool1" sampleEntitlement)
      [overCycle]).getEligibleResPools = [] ∧
    (newPreemptor.run sampleEnv (samplePenv "respool1" sampleEntitlement)
      [overCycle, calmCycle, overCycle]).getEligibleResPools = [] ∧
    (newPreemptor.run sampleEnv (samplePenv "respool1" sampleEntitlement)
      [overCycle, overCycle, .process "respool1", overCycle]).getEligibleResPools = [] ∧
    (({ newPreemptor with resTree := fun _ => .error "resource pool not found" }).run sampleEnv
      (samplePenv "respool1" sampleEntitlement)
      [overCycle, overCycle, .process "respool1"]).getEligibleResPools = ["respool1"] :=
  ⟨rfl, by decide,
    (preemption_eligibility sampleEnv (samplePenv "respool1" sampleEntitlement) newPreemptor
      "respool1" [overCycle, overCycle] rfl (by decide) (by decide)).mpr (by decide),
    by decide, by decide, by decide, by decide⟩

end Peloton
